import Mathlib

/-!
# select-rois: clustering of distant points and overlap-bounded selection

A shallow embedding of `src/tools/select-rois.cc`.

* `float` values are elements of a linearly ordered field `α` (exact arithmetic);
  the definitions are computable and can be evaluated at `α = ℚ`, the
  measure-theoretic statements are made at `α = ℝ`.
* The overlap geometry (`Bounds`, `Insert`, the three sweeps, `OverlapRatio`,
  `ReduceClusters`) is given a second time with every operation rounded to
  binary32 (`Bounds32`, ...), for the inputs at which rounding decides.
* `vtkIdType` values are `Int` (labels, sizes) or `Nat` (point and cell ids).
* A VTK data array is a function from the tuple index to the value; the number
  of tuples is carried separately where the code reads it.
* `std::unordered_set<size_t>` is `Finset Nat`, iterated in increasing order.
* `std::priority_queue` with `greater` is the list of pushed events sorted by
  coordinate.
-/

namespace SelectRois

/-! ## Data model -/

/-- Struct `Cluster` of the source: label, seed point, size, centre, summed distance. -/
structure Cluster (α : Type) where
  label : Int
  seed : Int
  size : Int
  center : α × α × α
  total : α

/-- Array `float bounds[6]`: `b0,b1` bound the first axis, `b2,b3` the second, `b4,b5` the third. -/
structure Box (α : Type) where
  b0 : α
  b1 : α
  b2 : α
  b3 : α
  b4 : α
  b5 : α

/-- Struct `LineSweepEvent` of the source. -/
structure LineSweepEvent (α : Type) where
  index : Nat
  coord : α
  enter : Bool

/-- Outcome of a `float` division: a finite quotient, or what IEEE division by zero gives. -/
inductive FloatQuot (α : Type) where
  | finite (v : α) : FloatQuot α
  | posInf : FloatQuot α
  | negInf : FloatQuot α
  | nan : FloatQuot α

section Geometry

variable {α : Type} [LinearOrderedField α]

/-- Component `center[dim]` of a point, `dim` in `0..2`. -/
def comp (dim : Nat) (p : α × α × α) : α :=
  match dim with
  | 0 => p.1
  | 1 => p.2.1
  | _ => p.2.2

/-- Division `a / b` of two floats in exact arithmetic, with the IEEE results for `b = 0`. -/
def fdiv (a b : α) : FloatQuot α :=
  if b ≠ 0 then FloatQuot.finite (a / b)
  else if 0 < a then FloatQuot.posInf
  else if a < 0 then FloatQuot.negInf
  else FloatQuot.nan

/-- Comparison `q <= m` of a division result with a finite float (false for NaN). -/
def FloatQuot.le (q : FloatQuot α) (m : α) : Bool :=
  match q with
  | FloatQuot.finite v => decide (v ≤ m)
  | FloatQuot.posInf => false
  | FloatQuot.negInf => true
  | FloatQuot.nan => false

/-- Function `Bounds`: the box of edge length `span` centred at `center`. -/
def Bounds (center : α × α × α) (span : α) : Box α :=
  let half_span := max 0 (span / 2)
  { b0 := center.1 - half_span
    b1 := center.1 + half_span
    b2 := center.2.1 - half_span
    b3 := center.2.1 + half_span
    b4 := center.2.2 - half_span
    b5 := center.2.2 + half_span }

/-- Function `Insert`: the events pushed for cluster `i` along axis `dim`, clipped to
`[lbound, ubound]` (none or an enter event followed by an exit event). -/
def Insert (clusters : List (Cluster α)) (i : Nat) (dim : Nat) (span lbound ubound : α) :
    List (LineSweepEvent α) :=
  if span ≤ 0 then []
  else
    match clusters[i]? with
    | none => []
    | some c =>
      let half_span := span / 2
      let coord_min := comp dim c.center - half_span
      let coord_max := comp dim c.center + half_span
      if ¬ (coord_max < lbound ∨ coord_min > ubound) then
        let coord_min := max lbound coord_min
        let coord_max := min ubound coord_max
        if coord_min < coord_max then
          [⟨i, coord_min, true⟩, ⟨i, coord_max, false⟩]
        else []
      else []

/-- Order in which the priority queue hands out the pushed events: ascending coordinate. -/
def popOrder (events : List (LineSweepEvent α)) : List (LineSweepEvent α) :=
  events.insertionSort (fun e1 e2 => e1.coord ≤ e2.coord)

/-- Events pushed by the loop `for (auto i : active) Insert(...)`. -/
def pushAll (clusters : List (Cluster α)) (active : List Nat) (dim : Nat)
    (span lbound ubound : α) : List (LineSweepEvent α) :=
  active.flatMap (fun i => Insert clusters i dim span lbound ubound)

/-- Body of the `while` loop of `Length`; the state is `(l, t, n)`. -/
def LengthStep (st : α × α × Int) (event : LineSweepEvent α) : α × α × Int :=
  ((if 0 < st.2.2 then st.1 + (event.coord - st.2.1) else st.1),
   event.coord,
   st.2.2 + (if event.enter then 1 else -1))

/-- Function `Length`: line sweep along the first axis. -/
def Length (clusters : List (Cluster α)) (active : Finset Nat) (span : α) (bounds : Box α) : α :=
  if active = ∅ then 0
  else
    let events := popOrder (pushAll clusters (active.sort (· ≤ ·)) 0 span bounds.b0 bounds.b1)
    (events.foldl LengthStep (0, 0, 0)).1

/-- Body of the `while` loop of `Area`; the state is `(a, t, l, intersected)`. -/
def AreaStep (clusters : List (Cluster α)) (span : α) (bounds : Box α)
    (st : α × α × α × Finset Nat) (event : LineSweepEvent α) : α × α × α × Finset Nat :=
  let a := if 0 < st.2.2.1 then st.1 + (event.coord - st.2.1) * st.2.2.1 else st.1
  let intersected :=
    if event.enter then insert event.index st.2.2.2 else st.2.2.2.erase event.index
  (a, event.coord, Length clusters intersected span bounds, intersected)

/-- Function `Area`: line sweep along the second axis. -/
def Area (clusters : List (Cluster α)) (active : Finset Nat) (span : α) (bounds : Box α) : α :=
  if active = ∅ then 0
  else
    let events := popOrder (pushAll clusters (active.sort (· ≤ ·)) 1 span bounds.b2 bounds.b3)
    (events.foldl (AreaStep clusters span bounds) (0, 0, 0, ∅)).1

/-- Body of the `while` loop of `Volume`; the state is `(v, t, a, intersected)`. -/
def VolumeStep (clusters : List (Cluster α)) (span : α) (bounds : Box α)
    (st : α × α × α × Finset Nat) (event : LineSweepEvent α) : α × α × α × Finset Nat :=
  let v := if 0 < st.2.2.1 then st.1 + (event.coord - st.2.1) * st.2.2.1 else st.1
  let intersected :=
    if event.enter then insert event.index st.2.2.2 else st.2.2.2.erase event.index
  (v, event.coord, Area clusters intersected span bounds, intersected)

/-- Function `Volume(clusters, span, bounds)`: line sweep along the third axis. -/
def Volume (clusters : List (Cluster α)) (span : α) (bounds : Box α) : α :=
  let events := popOrder (pushAll clusters (List.range clusters.length) 2 span bounds.b4 bounds.b5)
  (events.foldl (VolumeStep clusters span bounds) (0, 0, 0, ∅)).1

/-- Function `Volume(bounds)`: the volume of a box. -/
def BoxVolume (bounds : Box α) : α :=
  (bounds.b1 - bounds.b0) * (bounds.b3 - bounds.b2) * (bounds.b5 - bounds.b4)

/-- Function `OverlapRatio`. -/
def OverlapRatio (clusters : List (Cluster α)) (span : α) (box : Box α) : FloatQuot α :=
  fdiv (Volume clusters span box) (BoxVolume box)

/-- Body of the loop of `ReduceClusters`. -/
def ReduceStep (span max_overlap : α) (selection : List (Cluster α)) (cluster : Cluster α) :
    List (Cluster α) :=
  let box := Bounds cluster.center span
  if (OverlapRatio selection span box).le max_overlap then selection ++ [cluster] else selection

/-- Function `ReduceClusters`. -/
def ReduceClusters (clusters : List (Cluster α)) (span max_overlap : α) : List (Cluster α) :=
  clusters.foldl (ReduceStep span max_overlap) []

end Geometry

/-! ## Mesh adapter and clustering -/

/-- Mesh as the clustering code reads it: the point count (`GetNumberOfPoints`), the point
coordinates (`GetPoint`) and the cell table, each cell being the list of its point ids. -/
structure Mesh (α : Type) where
  npts : Nat
  point : Nat → α × α × α
  cells : List (List Nat)

/-- Accumulators and label array of `GrowCluster` while its queue is being processed. -/
structure GrowState (α : Type) where
  labels : Nat → Int
  size : Int
  center : α × α × α
  total : α

/-- Result of `GrowCluster`: the returned size, the outputs `center` and `total`, and the
label array after the call. -/
structure GrowResult (α : Type) where
  size : Int
  center : α × α × α
  total : α
  labels : Nat → Int

/-- Local state of the `while` loop of `DistantClusters`: the seed stack (its back first),
the label array, the clusters recorded so far and the label of the cluster being built. -/
structure ClusterState (α : Type) where
  seeds : List Nat
  labels : Nat → Int
  clusters : List (Cluster α)
  label : Int

/-- Result of `DistantClusters`: the returned clusters and the label array it filled. -/
structure ClusterResult (α : Type) where
  clusters : List (Cluster α)
  labels : Nat → Int

section Clustering

variable {α : Type} [LinearOrderedField α]

/-- Point ids of a cell (`GetCellPoints`). -/
def Mesh.GetCellPoints (mesh : Mesh α) (cellId : Nat) : List Nat :=
  mesh.cells.getD cellId []

/-- Ids of the cells that use a point (`GetPointCells`, from the links built by `BuildLinks`). -/
def Mesh.GetPointCells (mesh : Mesh α) (ptId : Nat) : List Nat :=
  (List.range mesh.cells.length).filter (fun cellId => decide (ptId ∈ mesh.GetCellPoints cellId))

/-- Function `InitSeeds`: the point indices `0..n-1` sorted ascending by distance. -/
def InitSeeds (n : Nat) (dists : Nat → α) : List Nat :=
  (List.range n).insertionSort (fun i j => dists i ≤ dists j)

/-- Function `NextSeed` on the seed stack listed from its back: the returned seed (`none`
for `-1`) and the stack it leaves. -/
def NextSeed (dists : Nat → α) (labels : Nat → Int) (threshold : WithTop α) :
    List Nat → Option Nat × List Nat
  | [] => (none, [])
  | seed :: seeds =>
    if (dists seed : WithTop α) < threshold then (none, [])
    else if labels seed = -1 then (some seed, seed :: seeds)
    else NextSeed dists labels threshold seeds

/-- Points pushed by the two nested loops of `GrowCluster` over the cells of `ptId`. -/
def GrowNeighbors (mesh : Mesh α) (ptId : Nat) (dists : Nat → α) (labels : Nat → Int)
    (threshold : WithTop α) : List Nat :=
  (mesh.GetPointCells ptId).flatMap (fun cellId =>
    (mesh.GetCellPoints cellId).filter (fun q =>
      decide (labels q = -1 ∧ threshold ≤ (dists q : WithTop α))))

/-- The `while (!active.empty())` loop of `GrowCluster`; `none` when the fuel runs out. -/
def GrowLoop (mesh : Mesh α) (label : Int) (dists : Nat → α) (threshold : WithTop α) :
    Nat → List Nat → GrowState α → Option (GrowState α)
  | _, [], st => some st
  | 0, _ :: _, _ => none
  | fuel + 1, ptId :: active, st =>
    if st.labels ptId ≠ label then
      let labels := Function.update st.labels ptId label
      let p := mesh.point ptId
      GrowLoop mesh label dists threshold fuel
        (active ++ GrowNeighbors mesh ptId dists labels threshold)
        { labels := labels
          size := st.size + 1
          center := (st.center.1 + p.1, st.center.2.1 + p.2.1, st.center.2.2 + p.2.2)
          total := st.total + dists ptId }
    else GrowLoop mesh label dists threshold fuel active st

/-- Function `GrowCluster`. -/
def GrowCluster (mesh : Mesh α) (seed : Nat) (label : Int) (dists : Nat → α)
    (labels : Nat → Int) (threshold : WithTop α) (fuel : Nat) : Option (GrowResult α) :=
  (GrowLoop mesh label dists threshold fuel [seed]
      { labels := labels, size := 0, center := (0, 0, 0), total := 0 }).map fun (st : GrowState α) =>
    { size := st.size
      center :=
        if (0 : Int) < st.size then
          (st.center.1 / ((st.size : Int) : α), st.center.2.1 / ((st.size : Int) : α),
            st.center.2.2 / ((st.size : Int) : α))
        else st.center
      total := st.total
      labels := st.labels }

/-- Function `DiscardCluster` on a label array of `n` tuples. -/
def DiscardCluster (n : Nat) (labels : Nat → Int) (label : Int) : Nat → Int :=
  if label ≠ 0 then fun i => if i < n ∧ labels i = label then 0 else labels i
  else labels

/-- Percentile value computed by `DistantClusters` for `dists_percentile > 0`;
`⊤` is the float `+infinity`. -/
def PercentileValue [FloorRing α] (ndists : Nat) (dists : Nat → α) (seeds : List Nat)
    (dists_percentile : Int) : WithTop α :=
  let n : Int := ndists
  let rank : α := ((dists_percentile : α) / 100) * ((n + 1 : Int) : α)
  let k : Int := ⌊rank⌋
  if k = 0 then
    (List.range ndists).foldl
      (fun threshold ptId => if (dists ptId : WithTop α) < threshold then (dists ptId : WithTop α)
        else threshold) ⊤
  else if k ≥ n then
    (((List.range ndists).foldl
      (fun threshold ptId => if threshold < dists ptId then dists ptId else threshold) (0 : α) : α) :
      WithTop α)
  else
    ((dists (seeds.getD (k - 1).toNat 0) +
        (rank - (k : α)) * (dists (seeds.getD k.toNat 0) - dists (seeds.getD (k - 1).toNat 0)) : α) :
      WithTop α)

/-- Growth threshold of `DistantClusters` after the clamp to `min_threshold`. -/
def EffectiveThreshold [FloorRing α] (ndists : Nat) (dists : Nat → α) (min_threshold : α)
    (dists_percentile : Int) : WithTop α :=
  let threshold : WithTop α :=
    if 0 < dists_percentile then
      PercentileValue ndists dists (InitSeeds ndists dists) dists_percentile
    else ((0 : α) : WithTop α)
  if threshold < (min_threshold : WithTop α) then (min_threshold : WithTop α) else threshold

/-- Seed bound of `DistantClusters` after the clamp of `min_seed_dist` to the threshold. -/
def EffectiveSeedDist (min_seed_dist : α) (threshold : WithTop α) : WithTop α :=
  if (min_seed_dist : WithTop α) < threshold then threshold else (min_seed_dist : WithTop α)

/-- The `while` loop of `DistantClusters`; `none` when the fuel runs out. -/
def ClusterLoop (mesh : Mesh α) (dists : Nat → α) (min_size : Int)
    (min_seed_dist threshold : WithTop α) : Nat → ClusterState α → Option (ClusterResult α)
  | 0, _ => none
  | fuel + 1, st =>
    match NextSeed dists st.labels min_seed_dist st.seeds with
    | (none, _) => some { clusters := st.clusters, labels := st.labels }
    | (some seed, seeds) =>
      match GrowCluster mesh seed st.label dists st.labels threshold fuel with
      | none => none
      | some g =>
        if g.size < min_size then
          ClusterLoop mesh dists min_size min_seed_dist threshold fuel
            { seeds := seeds
              labels := DiscardCluster mesh.npts g.labels st.label
              clusters := st.clusters
              label := st.label }
        else
          ClusterLoop mesh dists min_size min_seed_dist threshold fuel
            { seeds := seeds
              labels := g.labels
              clusters := st.clusters ++
                [{ label := st.label, seed := (seed : Int), size := g.size,
                   center := g.center, total := g.total }]
              label := st.label + 1 }

/-- Function `DistantClusters`; `ndists` is the number of tuples of `dists`. -/
def DistantClusters [FloorRing α] (surface : Mesh α) (ndists : Nat) (dists : Nat → α)
    (min_size : Int) (min_seed_dist min_threshold : α) (dists_percentile : Int)
    (start_label : Int) (fuel : Nat) : Option (ClusterResult α) :=
  let seeds := InitSeeds ndists dists
  let threshold := EffectiveThreshold ndists dists min_threshold dists_percentile
  let min_seed_dist := EffectiveSeedDist min_seed_dist threshold
  ClusterLoop surface dists min_size min_seed_dist threshold fuel
    { seeds := seeds.reverse
      labels := fun _ => -1
      clusters := []
      label := start_label }

/-- Body of the outer loop of `Relabel`; the state is `(new_label, clusters, labels)`. -/
def RelabelStep (n : Nat) (old_labels : Nat → Int)
    (st : Int × List (Cluster α) × (Nat → Int)) (cluster : Cluster α) :
    Int × List (Cluster α) × (Nat → Int) :=
  let old_label := cluster.label
  let new_label := st.1 + 1
  (new_label,
   st.2.1 ++ [{ cluster with label := new_label }],
   fun ptId => if ptId < n ∧ old_labels ptId = old_label then new_label else st.2.2 ptId)

/-- Function `Relabel` on a label array of `n` tuples: the relabelled clusters and labels. -/
def Relabel (n : Nat) (clusters : List (Cluster α)) (labels : Nat → Int) :
    List (Cluster α) × (Nat → Int) :=
  (clusters.foldl (RelabelStep n labels) (0, [], labels)).2

end Clustering

/-! ## Distant region and its connected components -/

section Components

variable {α : Type} [LinearOrderedField α]

/-- Point `p` is a point of the mesh whose distance is at least the threshold. -/
def Distant (mesh : Mesh α) (dists : Nat → α) (threshold : WithTop α) (p : Nat) : Prop :=
  p < mesh.npts ∧ threshold ≤ (dists p : WithTop α)

/-- Points `p` and `q` are points of one cell. -/
def ShareCell (mesh : Mesh α) (p q : Nat) : Prop :=
  ∃ cell ∈ mesh.cells, p ∈ cell ∧ q ∈ cell

/-- Adjacency inside the distant region: two distant points that share a cell. -/
def Adjacent (mesh : Mesh α) (dists : Nat → α) (threshold : WithTop α) (p q : Nat) : Prop :=
  Distant mesh dists threshold p ∧ Distant mesh dists threshold q ∧ ShareCell mesh p q

/-- Points `p` and `q` are joined by a chain of adjacent distant points. -/
def Connected (mesh : Mesh α) (dists : Nat → α) (threshold : WithTop α) (p q : Nat) : Prop :=
  Relation.ReflTransGen (Adjacent mesh dists threshold) p q

/-- Set `C` is a connected component of the distant region. -/
def IsComponent (mesh : Mesh α) (dists : Nat → α) (threshold : WithTop α) (C : Set Nat) : Prop :=
  ∃ p, Distant mesh dists threshold p ∧ C = {q | Connected mesh dists threshold p q}

/-- Points of an array of `n` labels that carry `label`. -/
def Members (n : Nat) (labels : Nat → Int) (label : Int) : Finset Nat :=
  (Finset.range n).filter (fun p => labels p = label)

/-- Every point id of every cell is a point of the mesh. -/
def Mesh.WellFormed (mesh : Mesh α) : Prop :=
  ∀ cell ∈ mesh.cells, ∀ p ∈ cell, p < mesh.npts

end Components

/-! ## Line sweep: intervals, events and covered sets -/

section SweepModel

variable {α : Type} [LinearOrderedField α]

/-- Lower end of the interval of cluster `i` along axis `dim`, clipped below at `lbound`
(`0` for an index outside the list). -/
def ivLo (clusters : List (Cluster α)) (span lbound : α) (dim i : Nat) : α :=
  match clusters[i]? with
  | some c => max lbound (comp dim c.center - span / 2)
  | none => 0

/-- Upper end of the interval of cluster `i` along axis `dim`, clipped above at `ubound`
(`0` for an index outside the list). -/
def ivHi (clusters : List (Cluster α)) (span ubound : α) (dim i : Nat) : α :=
  match clusters[i]? with
  | some c => min ubound (comp dim c.center + span / 2)
  | none => 0

/-- Update of the set of intersected clusters at one event. -/
def setStep (S : Finset Nat) (event : LineSweepEvent α) : Finset Nat :=
  if event.enter then insert event.index S else S.erase event.index

/-- One step of a sweep whose weight is the function `G` of the intersected set; the state
is `(sum, t, intersected)`. -/
def sweepStep (G : Finset Nat → α) (st : α × α × Finset Nat) (event : LineSweepEvent α) :
    α × α × Finset Nat :=
  ((if 0 < G st.2.2 then st.1 + (event.coord - st.2.1) * G st.2.2 else st.1),
   event.coord,
   setStep st.2.2 event)

/-- List `E` holds, sorted by coordinate and without repetition, the enter event at `lo i`
and the exit event at `hi i` of every interval `i` of `A`, and nothing else. -/
structure SweepEvents (A : Finset Nat) (lo hi : Nat → α) (E : List (LineSweepEvent α)) :
    Prop where
  lt : ∀ i ∈ A, lo i < hi i
  sound : ∀ e ∈ E, ∃ i ∈ A, e = ⟨i, lo i, true⟩ ∨ e = ⟨i, hi i, false⟩
  complete : ∀ i ∈ A, (⟨i, lo i, true⟩ : LineSweepEvent α) ∈ E ∧
    (⟨i, hi i, false⟩ : LineSweepEvent α) ∈ E
  nodup : E.Nodup
  sorted : E.Pairwise (fun e1 e2 => e1.coord ≤ e2.coord)

/-- Cube of edge length `span` centred at `center`, as a set of points of space. -/
def cubeSet (center : ℝ × ℝ × ℝ) (span : ℝ) : Set (ℝ × ℝ × ℝ) :=
  Set.Icc (center.1 - span / 2) (center.1 + span / 2) ×ˢ
    (Set.Icc (center.2.1 - span / 2) (center.2.1 + span / 2) ×ˢ
      Set.Icc (center.2.2 - span / 2) (center.2.2 + span / 2))

/-- Box with the bounds `box`, as a set of points of space. -/
def boxSet (box : Box ℝ) : Set (ℝ × ℝ × ℝ) :=
  Set.Icc box.b0 box.b1 ×ˢ (Set.Icc box.b2 box.b3 ×ˢ Set.Icc box.b4 box.b5)

/-- Part of the box covered by the union of the cubes of edge length `span` centred at the
clusters' centres. -/
def coveredSet (clusters : List (Cluster ℝ)) (span : ℝ) (box : Box ℝ) : Set (ℝ × ℝ × ℝ) :=
  boxSet box ∩ ⋃ c ∈ clusters, cubeSet c.center span

end SweepModel

/-! ## Scenario inputs -/

/-- Island scenario: the five points `0..4` of one cell, ringed by the points `5..9`. -/
def islandMesh : Mesh ℚ :=
  { npts := 10
    point := fun i => ((i : ℚ), 0, 0)
    cells := [[0, 1, 2, 3, 4], [0, 5, 6], [1, 6, 7], [2, 7, 8], [3, 8, 9], [4, 9, 5]] }

/-- Island scenario: distance 10 on the island, 0 around it. -/
def islandDists : Nat → ℚ := fun i => if i < 5 then 10 else 0

/-- Three points on a line, the first two a unit apart, each joined to the third by a cell. -/
def pairMesh : Mesh ℚ :=
  { npts := 3
    point := fun i => if i = 0 then (0, 0, 0) else if i = 1 then (1, 0, 0) else (5, 0, 0)
    cells := [[0, 2], [1, 2]] }

/-- Distances 10 and 9 for the two near points of `pairMesh`, 0 for the third. -/
def pairDists : Nat → ℚ := fun i => if i = 0 then 10 else if i = 1 then 9 else 0

/-! ## Loop invariants -/

section Invariants

variable {α : Type} [LinearOrderedField α]

/-- Invariant of the loop of `GrowCluster` growing label `L` from seed `s` over the labels
`L0` found at the call: only labels of the seed's component change, to `L`; the queue holds
points of the component; every distant neighbour of a labelled point is labelled or queued;
the accumulators are the count and the sums over the labelled points. -/
structure GrowInv (mesh : Mesh α) (dists : Nat → α) (T : WithTop α) (L0 : Nat → Int) (L : Int)
    (s : Nat) (queue : List Nat) (st : GrowState α) : Prop where
  only : ∀ p, st.labels p = L ∨ st.labels p = L0 p
  inC : ∀ p, st.labels p = L → Connected mesh dists T s p
  queueC : ∀ q ∈ queue, Connected mesh dists T s q
  closed : ∀ p q, st.labels p = L → Adjacent mesh dists T p q → st.labels q = L ∨ q ∈ queue
  seed : st.labels s = L ∨ s ∈ queue
  size : st.size = ((Members mesh.npts st.labels L).card : Int)
  total : st.total = ∑ p in Members mesh.npts st.labels L, dists p
  center : st.center =
    (∑ p in Members mesh.npts st.labels L, (mesh.point p).1,
     ∑ p in Members mesh.npts st.labels L, (mesh.point p).2.1,
     ∑ p in Members mesh.npts st.labels L, (mesh.point p).2.2)

/-- Recorded cluster `c` agrees with the label array: its seed is a point at or above the
seed bound, the points carrying its label are the points connected to the seed, and its
size, total and centre are their count, summed distance and mean position. -/
structure ClusterOK (mesh : Mesh α) (dists : Nat → α) (T S : WithTop α) (min_size : Int)
    (labels : Nat → Int) (c : Cluster α) : Prop where
  seedNat : 0 ≤ c.seed
  seedLt : c.seed.toNat < mesh.npts
  seedDist : S ≤ (dists c.seed.toNat : WithTop α)
  members : ∀ p, labels p = c.label ↔ Connected mesh dists T c.seed.toNat p
  size : c.size = ((Members mesh.npts labels c.label).card : Int)
  sizeMin : min_size ≤ c.size
  sizePos : 0 < c.size
  total : c.total = ∑ p in Members mesh.npts labels c.label, dists p
  center : c.center =
    ((∑ p in Members mesh.npts labels c.label, (mesh.point p).1) / (c.size : α),
     (∑ p in Members mesh.npts labels c.label, (mesh.point p).2.1) / (c.size : α),
     (∑ p in Members mesh.npts labels c.label, (mesh.point p).2.2) / (c.size : α))

/-- Invariant of the `while` loop of `DistantClusters` with growth threshold `T`, seed bound
`S` and first label `start`. -/
structure ClusterInv (mesh : Mesh α) (dists : Nat → α) (T S : WithTop α) (min_size start : Int)
    (st : ClusterState α) : Prop where
  uniform : ∀ p q, Adjacent mesh dists T p q → st.labels p = st.labels q
  distant : ∀ p, st.labels p ≠ -1 → Distant mesh dists T p
  range : ∀ p, -1 ≤ st.labels p ∧ st.labels p < st.label
  values : ∀ p, st.labels p = -1 ∨ st.labels p = 0 ∨ start ≤ st.labels p
  next : st.label = start + (st.clusters.length : Int)
  labelAt : ∀ (i : Nat) (h : i < st.clusters.length),
    (st.clusters.get ⟨i, h⟩).label = start + (i : Int)
  cluster : ∀ c ∈ st.clusters, ClusterOK mesh dists T S min_size st.labels c
  small : ∀ p, st.labels p = 0 → ∀ C : Finset Nat,
    (∀ q, q ∈ C ↔ Connected mesh dists T p q) → (C.card : Int) < min_size
  stackLt : ∀ p ∈ st.seeds, p < mesh.npts
  sorted : st.seeds.Pairwise (fun a b => dists b ≤ dists a)
  covered : ∀ p, p < mesh.npts → S ≤ (dists p : WithTop α) → p ∈ st.seeds ∨ st.labels p ≠ -1

end Invariants

end SelectRois

namespace SelectRois

/-! ## Masks and point distances -/

section Masks

variable {α : Type} [LinearOrderedField α]

/-- Function `CellMaskToPointData`: the new point array, one value per point in point order,
1 where a cell of the point has a non-zero cell mask value and 0 elsewhere. -/
def CellMaskToPointData (mesh : Mesh α) (mask : Nat → α) : List α :=
  (List.range mesh.npts).map fun ptId =>
    if (mesh.GetPointCells ptId).any (fun cellId => decide (mask cellId ≠ 0)) then 1 else 0

/-- One pass of the loop over the points in `ErodePointMask`: the output value is set to 1
and then to 0 as soon as a point of a cell of `ptId` is 0 in `input`; entries beyond the
point count keep what the output buffer held. -/
def ErodePass (mesh : Mesh α) (input output : Nat → Nat) : Nat → Nat :=
  fun ptId =>
    if ptId < mesh.npts then
      (if (mesh.GetPointCells ptId).any (fun cellId =>
          (mesh.GetCellPoints cellId).any (fun q => decide (input q = 0))) then 0 else 1)
    else output ptId

/-- A newly allocated mask array; each of its entries below the point count is written
before it is read. -/
def newMaskArray : Nat → Nat := fun _ => 0

/-- Body of the `for (iter ...)` loop of `ErodePointMask`; the state is `(input, output)`. -/
def ErodeIter (mesh : Mesh α) (st : (Nat → Nat) × (Nat → Nat)) (iter : Nat) :
    (Nat → Nat) × (Nat → Nat) :=
  let buffers : (Nat → Nat) × (Nat → Nat) :=
    if iter = 1 then (st.2, newMaskArray)
    else if 1 < iter then (st.2, st.1)
    else st
  (buffers.1, ErodePass mesh buffers.1 buffers.2)

/-- Function `ErodePointMask` for a mask array that is not null. -/
def ErodePointMask (mesh : Mesh α) (mask : Nat → Nat) (niter : Int) : Nat → Nat :=
  if 1 < niter then
    ((List.range niter.toNat).foldl (ErodeIter mesh) (mask, newMaskArray)).2
  else mask

/-- Function `PointToSurfaceDistances`: the new distance array, one value per point in
point order. The nearest-point query on the reference surface is `closestDist2` (the squared
distance it returns for a point) and `sqrt` is the library square root. -/
def PointToSurfaceDistances (surface : Mesh α) (closestDist2 : α × α × α → α) (sqrt : α → α)
    (mask : Option (Nat → Nat)) : List α :=
  (List.range surface.npts).map fun ptId =>
    if (match mask with
        | some m => decide (m ptId = 0)
        | none => false) then 0
    else sqrt (closestDist2 (surface.point ptId))

/-- Points of the mesh that are valid (non-zero) in a point mask. -/
def validPoints (mesh : Mesh α) (mask : Nat → Nat) : Finset Nat :=
  (Finset.range mesh.npts).filter (fun p => mask p ≠ 0)

end Masks

/-! ## Sorting and random sampling -/

section Sampling

variable {α : Type} [LinearOrderedField α]

/-- Comparison `Cluster::operator<`. -/
def Cluster.less (lhs rhs : Cluster α) : Bool := decide (lhs.total < rhs.total)

/-- Call `sort(clusters.rbegin(), clusters.rend())` of `main`: the reversed sequence is
sorted ascending by `operator<`. -/
def SortReverse (clusters : List (Cluster α)) : List (Cluster α) :=
  (clusters.reverse.insertionSort (fun a b => Cluster.less b a = false)).reverse

/-- Comparison `q > m` of a division result with a finite float (false for NaN). -/
def FloatQuot.gt (q : FloatQuot α) (m : α) : Bool :=
  match q with
  | FloatQuot.finite v => decide (m < v)
  | FloatQuot.posInf => true
  | FloatQuot.negInf => false
  | FloatQuot.nan => false

/-- Local state of a sampling pass of `AppendRandomSamples`: the cluster list, the cluster
variable that is filled and pushed, and the counter `k`. -/
structure SampleState (α : Type) where
  clusters : List (Cluster α)
  cluster : Cluster α
  k : Int

/-- Cluster variable of `AppendRandomSamples` after its centre and, with a distance array,
its total were set for the point `p` with index `ptId` of the sampler output. -/
def SampleCluster (cluster : Cluster α) (p : α × α × α) (dists : Option (Nat → α))
    (ptId offset : Nat) : Cluster α :=
  { cluster with
    center := p
    total := match dists with
      | some d => d (ptId + offset)
      | none => cluster.total }

/-- Cluster variable of `AppendRandomSamples` after its seed was set to the point id `seed`. -/
def SampleSeed (cluster : Cluster α) (seed : Nat) : Cluster α :=
  { cluster with seed := (seed : Int) }

/-- The `for` loop of `AppendRandomSamples` over the points of one sampler output, from the
point with index `ptId` on. The nearest-vertex query is `closest`. -/
def SamplePoints (closest : α × α × α → Nat) (dists : Option (Nat → α)) (offset : Nat)
    (span max_overlap : α) (n m : Int) :
    List (α × α × α) → Nat → SampleState α → SampleState α
  | [], _, st => st
  | p :: points, ptId, st =>
    let cluster := SampleCluster st.cluster p dists ptId offset
    if 0 < span ∧ max_overlap < 1 ∧
        (OverlapRatio st.clusters span (Bounds cluster.center span)).gt max_overlap = true then
      SamplePoints closest dists offset span max_overlap n m points (ptId + 1)
        { clusters := st.clusters, cluster := cluster, k := st.k }
    else
      let pushed := SampleSeed cluster (closest p + offset)
      if n ≤ m + (st.k + 1) then
        { clusters := st.clusters ++ [pushed], cluster := pushed, k := st.k + 1 }
      else
        SamplePoints closest dists offset span max_overlap n m points (ptId + 1)
          { clusters := st.clusters ++ [pushed], cluster := pushed, k := st.k + 1 }

/-- The `while (m < n)` loop of `AppendRandomSamples`; `sampler pass` is the point list the
sampler puts out at its update number `pass`; `none` when the fuel runs out. -/
def SampleLoop (sampler : Nat → List (α × α × α)) (closest : α × α × α → Nat)
    (dists : Option (Nat → α)) (offset : Nat) (span : α) (n : Int) :
    Nat → Nat → Int → α → List (Cluster α) → Cluster α → Option (List (Cluster α))
  | 0, _, m, _, clusters, _ => if m < n then none else some clusters
  | fuel + 1, pass, m, max_overlap, clusters, cluster =>
    if m < n then
      let st := SamplePoints closest dists offset span max_overlap n m (sampler pass) 0
        { clusters := clusters, cluster := cluster, k := 0 }
      if st.k = 0 then
        SampleLoop sampler closest dists offset span n fuel (pass + 1) m
          (max_overlap * (6 / 5)) st.clusters st.cluster
      else
        SampleLoop sampler closest dists offset span n fuel (pass + 1) (m + st.k)
          max_overlap st.clusters st.cluster
    else some clusters

/-- Function `AppendRandomSamples`: the cluster list it leaves. -/
def AppendRandomSamples (clusters : List (Cluster α)) (sampler : Nat → List (α × α × α))
    (closest : α × α × α → Nat) (n : Int) (dists : Option (Nat → α)) (offset : Nat)
    (span max_overlap : α) (fuel : Nat) : Option (List (Cluster α)) :=
  SampleLoop sampler closest dists offset span n fuel 0 0 max_overlap clusters
    { label := 0, seed := -1, size := 1, center := (0, 0, 0), total := 0 }

/-- The `i`-th smallest distance of an array of `n` distances, counted from 1. -/
def kthSmallest (n : Nat) (dists : Nat → α) (i : Nat) : α :=
  ((InitSeeds n dists).map dists).getD (i - 1) 0

end Sampling

/-! ## More scenario inputs -/

/-- Mesh of one point that no cell uses. -/
def loneMesh : Mesh ℚ :=
  { npts := 1, point := fun _ => (0, 0, 0), cells := [] }

/-- Mesh of three points: the points 0 and 1 share a cell, point 2 has a cell of its own. -/
def sizeMesh : Mesh ℚ :=
  { npts := 3, point := fun i => ((i : ℚ), 0, 0), cells := [[0, 1], [2]] }

/-- Distances 3, 3 and 10 for the three points of `sizeMesh`. -/
def sizeDists : Nat → ℚ := fun i => if i = 2 then 10 else 3

/-- Distances 1, 2 and 4 for three points. -/
def stepDists : Nat → ℚ := fun i => if i = 0 then 1 else if i = 1 then 2 else 4

end SelectRois

namespace SelectRois

/-! ## Loop body of the clustering, the reduction step of `main`, erosion on arrays -/

section LoopBody

variable {α : Type} [LinearOrderedField α]

/-- One pass through the body of the `while` loop of `DistantClusters` from the state `st`:
`none` when `NextSeed` returns -1 (the loop ends) or the fuel of `GrowCluster` runs out,
else the state at the next test of the loop condition. -/
def ClusterIter (mesh : Mesh α) (dists : Nat → α) (min_size : Int)
    (min_seed_dist threshold : WithTop α) (fuel : Nat) (st : ClusterState α) :
    Option (ClusterState α) :=
  match NextSeed dists st.labels min_seed_dist st.seeds with
  | (none, _) => none
  | (some seed, seeds) =>
    match GrowCluster mesh seed st.label dists st.labels threshold fuel with
    | none => none
    | some g =>
      if g.size < min_size then
        some { seeds := seeds
               labels := DiscardCluster mesh.npts g.labels st.label
               clusters := st.clusters
               label := st.label }
      else
        some { seeds := seeds
               labels := g.labels
               clusters := st.clusters ++
                 [{ label := st.label, seed := (seed : Int), size := g.size,
                    center := g.center, total := g.total }]
               label := st.label + 1 }

/-- State `st2` is the state that one pass through the body of the `while` loop of
`DistantClusters` leaves from the state `st1`. -/
def ClusterNext (mesh : Mesh α) (dists : Nat → α) (min_size : Int)
    (min_seed_dist threshold : WithTop α) (st1 st2 : ClusterState α) : Prop :=
  ∃ fuel, ClusterIter mesh dists min_size min_seed_dist threshold fuel st1 = some st2

/-- State of the `while` loop of `DistantClusters` at its first test of the condition. -/
def ClusterInit (ndists : Nat) (dists : Nat → α) (start_label : Int) :
    ClusterState α :=
  { seeds := (InitSeeds ndists dists).reverse
    labels := fun _ => -1
    clusters := []
    label := start_label }

/-- Step `// Reduce number of clusters` of `main`. -/
def mainReduce (clusters : List (Cluster α)) (roi_span max_overlap : α) : List (Cluster α) :=
  if max_overlap < 1 then ReduceClusters clusters roi_span max_overlap else clusters

end LoopBody

/-! ## Erosion on arrays with identity -/

/-- Arrays of `ErodePointMask` by identity: `arrays a` is the content of the array with id
`a`, `input` and `output` are the ids the two smart pointers hold, and `fresh` is the id of
the array that the next `NewInstance` creates. -/
structure ErodeMem where
  arrays : Nat → Nat → Nat
  input : Nat
  output : Nat
  fresh : Nat

/-- Call `output->SetValue(ptId, val)`. -/
def ErodeMem.SetValue (mem : ErodeMem) (ptId val : Nat) : ErodeMem :=
  { mem with
    arrays := Function.update mem.arrays mem.output
      (Function.update (mem.arrays mem.output) ptId val) }

section Erosion

variable {α : Type} [LinearOrderedField α]

/-- Body of the loop over the points in `ErodePointMask`: the output value is set to 1, then
the input array is read at the points of the cells of `ptId` and the output value is set to 0
at the first zero found. -/
def ErodePoint (mesh : Mesh α) (mem : ErodeMem) (ptId : Nat) : ErodeMem :=
  let mem1 := mem.SetValue ptId 1
  if (mesh.GetPointCells ptId).any (fun cellId =>
      (mesh.GetCellPoints cellId).any (fun q => decide (mem1.arrays mem1.input q = 0))) then
    mem1.SetValue ptId 0
  else mem1

/-- Body of the `for (iter ...)` loop of `ErodePointMask` on arrays with identity. -/
def ErodeMemIter (mesh : Mesh α) (mem : ErodeMem) (iter : Nat) : ErodeMem :=
  let mem1 : ErodeMem :=
    if iter = 1 then
      { mem with input := mem.output, output := mem.fresh, fresh := mem.fresh + 1 }
    else if 1 < iter then
      { mem with input := mem.output, output := mem.input }
    else mem
  (List.range mesh.npts).foldl (ErodePoint mesh) mem1

/-- Function `ErodePointMask` on arrays with identity: `mask` is the id of the mask array it
is given (not null) and `fresh` the id of the first array it creates; the array it returns is
the array `output` of the memory it leaves. -/
def ErodePointMaskMem (mesh : Mesh α) (arrays : Nat → Nat → Nat) (mask fresh : Nat)
    (niter : Int) : ErodeMem :=
  if 1 < niter then
    (List.range niter.toNat).foldl (ErodeMemIter mesh)
      { arrays := arrays, input := mask, output := fresh, fresh := fresh + 1 }
  else { arrays := arrays, input := mask, output := mask, fresh := fresh }

/-- One-step erosion `E` of the specification: a point is valid (1) if and only if every
point of every cell incident to it is non-zero in `m`. -/
def ErodeSpec (mesh : Mesh α) (m : Nat → Nat) : Nat → Nat :=
  fun p =>
    if ∀ cellId ∈ mesh.GetPointCells p, ∀ q ∈ mesh.GetCellPoints cellId, m q ≠ 0 then 1 else 0

end Erosion

/-! ## Scenario inputs for relabelling and sampling -/

/-- Mesh of three points a unit apart on a line: point 0 has a cell of its own, the points 1
and 2 share a cell. -/
def staleMesh : Mesh ℚ :=
  { npts := 3, point := fun i => ((i : ℚ), 0, 0), cells := [[0], [1, 2]] }

/-- Distances 10, 6 and 6 for the three points of `staleMesh`. -/
def staleDists : Nat → ℚ := fun i => if i = 0 then 10 else 6

/-- Sampler that puts out the one point (1, 0, 0) at every update. -/
def onePointSampler : Nat → List (ℚ × ℚ × ℚ) := fun _ => [(1, 0, 0)]

/-- Sampler that puts out the points (1, 0, 0) and (2, 0, 0) at every update. -/
def linePointSampler : Nat → List (ℚ × ℚ × ℚ) := fun _ => [(1, 0, 0), (2, 0, 0)]

/-- Nearest-vertex query of a mesh with the points (0, 0, 0) and (1, 0, 0), ids 0 and 1. -/
def twoPointLocator : ℚ × ℚ × ℚ → Nat := fun p => if 2 * p.1 < 1 then 0 else 1

/-- Nearest-vertex query of a mesh with the points (i, 0, 0) for i = 0, 1, 2, 3. -/
def fourPointLocator : ℚ × ℚ × ℚ → Nat :=
  fun p => if 2 * p.1 < 1 then 0 else if 2 * p.1 < 3 then 1 else if 2 * p.1 < 5 then 2 else 3

/-- Distances 5 and 7 for two points. -/
def twoPointDists : Nat → ℚ := fun i => if i = 0 then 5 else 7

/-- Label array with the labels 1, 0, 0 and -1 for four points. -/
def mixedLabels : Nat → Int :=
  fun i => if i = 0 then 1 else if i = 1 then 0 else if i = 2 then 0 else -1

end SelectRois

namespace SelectRois

/-! ## The overlap geometry in binary32

The functions of the overlap geometry once more, now with the result of every `float`
operation rounded to binary32 (round to nearest, ties to even), each operation on its own:
no wider intermediate precision and no fused multiply-add. A `float` is the rational number
it stands for; an infinity or a NaN arises only from the division in `OverlapRatio`, as in
`FloatQuot`. Results of magnitude `2^128` or more, which binary32 turns into infinities, are
outside this model. -/

section Binary32

/-- Power of two with an integer exponent. -/
def pow2 (e : Int) : ℚ :=
  if 0 ≤ e then ((2 ^ e.toNat : Nat) : ℚ) else 1 / ((2 ^ (-e).toNat : Nat) : ℚ)

/-- Number of halvings that bring `n` below 2, at most `fuel` of them. -/
def halvings : Nat → Nat → Nat
  | 0, _ => 0
  | fuel + 1, n => if n < 2 then 0 else halvings fuel (n / 2) + 1

/-- Binary exponent of a positive rational `x`: the `e` with `2^e ≤ x < 2^(e+1)`. -/
def exponent2 (x : ℚ) : Int :=
  let e0 : Int :=
    (halvings x.num.natAbs x.num.natAbs : Int) - (halvings x.den x.den : Int)
  if pow2 e0 ≤ x then e0 else e0 - 1

/-- Nearest integer of a non-negative rational, ties to even. -/
def roundEven (m : ℚ) : Int :=
  let f : Int := ⌊m⌋
  let r : ℚ := m - (f : ℚ)
  if r < 1 / 2 then f else if 1 / 2 < r then f + 1 else if f % 2 = 0 then f else f + 1

/-- The binary32 value nearest to `x`, ties to even: 24 significant bits, least exponent
-149 (subnormal numbers included). -/
def round32 (x : ℚ) : ℚ :=
  if x = 0 then 0
  else
    let a : ℚ := if x < 0 then -x else x
    let ulp : ℚ := pow2 (max (exponent2 a - 23) (-149))
    let r : ℚ := (roundEven (a / ulp) : ℚ) * ulp
    if x < 0 then -r else r

/-- Division `a / b` of two floats in binary32, with the IEEE results for `b = 0`. -/
def fdiv32 (a b : ℚ) : FloatQuot ℚ :=
  if b ≠ 0 then FloatQuot.finite (round32 (a / b))
  else if 0 < a then FloatQuot.posInf
  else if a < 0 then FloatQuot.negInf
  else FloatQuot.nan

/-- Function `Bounds` in binary32. -/
def Bounds32 (center : ℚ × ℚ × ℚ) (span : ℚ) : Box ℚ :=
  let half_span := max 0 (round32 (1 / 2 * span))
  { b0 := round32 (center.1 - half_span)
    b1 := round32 (center.1 + half_span)
    b2 := round32 (center.2.1 - half_span)
    b3 := round32 (center.2.1 + half_span)
    b4 := round32 (center.2.2 - half_span)
    b5 := round32 (center.2.2 + half_span) }

/-- Function `Insert` in binary32. -/
def Insert32 (clusters : List (Cluster ℚ)) (i : Nat) (dim : Nat) (span lbound ubound : ℚ) :
    List (LineSweepEvent ℚ) :=
  if span ≤ 0 then []
  else
    match clusters[i]? with
    | none => []
    | some c =>
      let half_span := round32 (1 / 2 * span)
      let coord_min := round32 (comp dim c.center - half_span)
      let coord_max := round32 (comp dim c.center + half_span)
      if ¬ (coord_max < lbound ∨ coord_min > ubound) then
        let coord_min := max lbound coord_min
        let coord_max := min ubound coord_max
        if coord_min < coord_max then
          [⟨i, coord_min, true⟩, ⟨i, coord_max, false⟩]
        else []
      else []

/-- Events pushed by the loop `for (auto i : active) Insert(...)` in binary32. -/
def pushAll32 (clusters : List (Cluster ℚ)) (active : List Nat) (dim : Nat)
    (span lbound ubound : ℚ) : List (LineSweepEvent ℚ) :=
  active.flatMap (fun i => Insert32 clusters i dim span lbound ubound)

/-- Body of the `while` loop of `Length` in binary32; the state is `(l, t, n)`. -/
def LengthStep32 (st : ℚ × ℚ × Int) (event : LineSweepEvent ℚ) : ℚ × ℚ × Int :=
  ((if 0 < st.2.2 then round32 (st.1 + round32 (event.coord - st.2.1)) else st.1),
   event.coord,
   st.2.2 + (if event.enter then 1 else -1))

/-- Function `Length` in binary32. -/
def Length32 (clusters : List (Cluster ℚ)) (active : Finset Nat) (span : ℚ) (bounds : Box ℚ) :
    ℚ :=
  if active = ∅ then 0
  else
    let events := popOrder (pushAll32 clusters (active.sort (· ≤ ·)) 0 span bounds.b0 bounds.b1)
    (events.foldl LengthStep32 (0, 0, 0)).1

/-- Body of the `while` loop of `Area` in binary32; the state is `(a, t, l, intersected)`. -/
def AreaStep32 (clusters : List (Cluster ℚ)) (span : ℚ) (bounds : Box ℚ)
    (st : ℚ × ℚ × ℚ × Finset Nat) (event : LineSweepEvent ℚ) : ℚ × ℚ × ℚ × Finset Nat :=
  let a :=
    if 0 < st.2.2.1 then round32 (st.1 + round32 (round32 (event.coord - st.2.1) * st.2.2.1))
    else st.1
  let intersected :=
    if event.enter then insert event.index st.2.2.2 else st.2.2.2.erase event.index
  (a, event.coord, Length32 clusters intersected span bounds, intersected)

/-- Function `Area` in binary32. -/
def Area32 (clusters : List (Cluster ℚ)) (active : Finset Nat) (span : ℚ) (bounds : Box ℚ) :
    ℚ :=
  if active = ∅ then 0
  else
    let events := popOrder (pushAll32 clusters (active.sort (· ≤ ·)) 1 span bounds.b2 bounds.b3)
    (events.foldl (AreaStep32 clusters span bounds) (0, 0, 0, ∅)).1

/-- Body of the `while` loop of `Volume` in binary32; the state is `(v, t, a, intersected)`. -/
def VolumeStep32 (clusters : List (Cluster ℚ)) (span : ℚ) (bounds : Box ℚ)
    (st : ℚ × ℚ × ℚ × Finset Nat) (event : LineSweepEvent ℚ) : ℚ × ℚ × ℚ × Finset Nat :=
  let v :=
    if 0 < st.2.2.1 then round32 (st.1 + round32 (round32 (event.coord - st.2.1) * st.2.2.1))
    else st.1
  let intersected :=
    if event.enter then insert event.index st.2.2.2 else st.2.2.2.erase event.index
  (v, event.coord, Area32 clusters intersected span bounds, intersected)

/-- Function `Volume(clusters, span, bounds)` in binary32. -/
def Volume32 (clusters : List (Cluster ℚ)) (span : ℚ) (bounds : Box ℚ) : ℚ :=
  let events :=
    popOrder (pushAll32 clusters (List.range clusters.length) 2 span bounds.b4 bounds.b5)
  (events.foldl (VolumeStep32 clusters span bounds) (0, 0, 0, ∅)).1

/-- Function `Volume(bounds)` in binary32. -/
def BoxVolume32 (bounds : Box ℚ) : ℚ :=
  round32 (round32 (round32 (bounds.b1 - bounds.b0) * round32 (bounds.b3 - bounds.b2)) *
    round32 (bounds.b5 - bounds.b4))

/-- Function `OverlapRatio` in binary32. -/
def OverlapRatio32 (clusters : List (Cluster ℚ)) (span : ℚ) (box : Box ℚ) : FloatQuot ℚ :=
  fdiv32 (Volume32 clusters span box) (BoxVolume32 box)

/-- Body of the loop of `ReduceClusters` in binary32. -/
def ReduceStep32 (span max_overlap : ℚ) (selection : List (Cluster ℚ)) (cluster : Cluster ℚ) :
    List (Cluster ℚ) :=
  let box := Bounds32 cluster.center span
  if (OverlapRatio32 selection span box).le max_overlap then selection ++ [cluster]
  else selection

/-- Function `ReduceClusters` in binary32. -/
def ReduceClusters32 (clusters : List (Cluster ℚ)) (span max_overlap : ℚ) : List (Cluster ℚ) :=
  clusters.foldl (ReduceStep32 span max_overlap) []

end Binary32

end SelectRois

namespace SelectRois

/-! ## Line sweep over a single cluster -/

section GeometryBasic

variable {α : Type} [LinearOrderedField α]

theorem Insert_eq (clusters : List (Cluster α)) (i dim : Nat) (span lb ub : α) (c : Cluster α)
    (hs : 0 < span) (hc : clusters[i]? = some c) :
    Insert clusters i dim span lb ub =
      if max lb (comp dim c.center - span / 2) < min ub (comp dim c.center + span / 2) then
        [⟨i, max lb (comp dim c.center - span / 2), true⟩,
         ⟨i, min ub (comp dim c.center + span / 2), false⟩]
      else [] := by
  unfold Insert
  rw [if_neg hs.not_le, hc]
  dsimp only
  by_cases h : comp dim c.center + span / 2 < lb ∨ comp dim c.center - span / 2 > ub
  · rw [if_neg (not_not.mpr h), if_neg]
    rcases h with h | h
    · exact not_lt.mpr ((min_le_right _ _).trans (h.le.trans (le_max_left _ _)))
    · exact not_lt.mpr ((min_le_left _ _).trans (h.le.trans (le_max_right _ _)))
  · rw [if_pos h]

theorem Insert_none (clusters : List (Cluster α)) (i dim : Nat) (span lb ub : α)
    (hc : clusters[i]? = none) : Insert clusters i dim span lb ub = [] := by
  unfold Insert
  split
  · rfl
  · rw [hc]

theorem BoxVolume_Bounds (c : α × α × α) (span : α) (hs : 0 < span) :
    BoxVolume (Bounds c span) = span * span * span := by
  have h2 : max 0 (span / 2) = span / 2 := max_eq_right (by positivity)
  simp only [BoxVolume, Bounds, h2]
  ring

end GeometryBasic

end SelectRois

namespace SelectRois

/-! ## Region growing -/

section Growth

set_option linter.unusedSectionVars false

variable {α : Type} [LinearOrderedField α]

theorem mem_GetCellPoints_iff (mesh : Mesh α) (c q : Nat) :
    q ∈ mesh.GetCellPoints c ↔ ∃ h : c < mesh.cells.length, q ∈ mesh.cells.get ⟨c, h⟩ := by
  unfold Mesh.GetCellPoints
  by_cases h : c < mesh.cells.length
  · simp [List.getD_eq_getElem _ _ h, h]
  · have : mesh.cells[c]? = none := List.getElem?_eq_none (not_lt.mp h)
    simp [this, h]

theorem mem_GrowNeighbors (mesh : Mesh α) (ptId : Nat) (dists : Nat → α) (labels : Nat → Int)
    (threshold : WithTop α) (q : Nat) :
    q ∈ GrowNeighbors mesh ptId dists labels threshold ↔
      ShareCell mesh ptId q ∧ labels q = -1 ∧ threshold ≤ (dists q : WithTop α) := by
  unfold GrowNeighbors Mesh.GetPointCells ShareCell
  simp only [List.mem_flatMap, List.mem_filter, List.mem_range, decide_eq_true_eq]
  constructor
  · rintro ⟨c, ⟨hc, hp⟩, hq, hl⟩
    rw [mem_GetCellPoints_iff] at hp hq
    obtain ⟨h, hp⟩ := hp
    obtain ⟨_, hq⟩ := hq
    exact ⟨⟨_, List.get_mem _ _ _, hp, hq⟩, hl⟩
  · rintro ⟨⟨cell, hcell, hp, hq⟩, hl⟩
    obtain ⟨i, hi⟩ := List.mem_iff_get.mp hcell
    refine ⟨i.1, ⟨i.2, ?_⟩, ?_, hl⟩
    · rw [mem_GetCellPoints_iff]; exact ⟨i.2, by rw [hi]; exact hp⟩
    · rw [mem_GetCellPoints_iff]; exact ⟨i.2, by rw [hi]; exact hq⟩

theorem Connected.distant {mesh : Mesh α} {dists : Nat → α} {T : WithTop α} {p q : Nat}
    (h : Connected mesh dists T p q) (hp : Distant mesh dists T p) : Distant mesh dists T q := by
  induction h with
  | refl => exact hp
  | tail _ hbc _ => exact hbc.2.1

theorem Adjacent.swap {mesh : Mesh α} {dists : Nat → α} {T : WithTop α} {p q : Nat}
    (h : Adjacent mesh dists T p q) : Adjacent mesh dists T q p := by
  obtain ⟨hp, hq, cell, hc, h1, h2⟩ := h
  exact ⟨hq, hp, cell, hc, h2, h1⟩

theorem Connected.symm {mesh : Mesh α} {dists : Nat → α} {T : WithTop α} {p q : Nat}
    (h : Connected mesh dists T p q) : Connected mesh dists T q p := by
  induction h with
  | refl => exact Relation.ReflTransGen.refl
  | tail _ hbc ih => exact Relation.ReflTransGen.head hbc.swap ih

theorem Connected.trans {mesh : Mesh α} {dists : Nat → α} {T : WithTop α} {p q r : Nat}
    (h1 : Connected mesh dists T p q) (h2 : Connected mesh dists T q r) :
    Connected mesh dists T p r :=
  Relation.ReflTransGen.trans h1 h2

theorem Members_update_new (n : Nat) (labels : Nat → Int) (L : Int) (p : Nat) (hp : p < n) :
    Members n (Function.update labels p L) L = insert p (Members n labels L) := by
  ext q
  simp only [Members, Finset.mem_filter, Finset.mem_range, Finset.mem_insert]
  by_cases hq : q = p
  · subst hq; simp [hp]
  · simp [Function.update_noteq hq, hq]

theorem not_mem_Members_of_ne (n : Nat) (labels : Nat → Int) (L : Int) (p : Nat)
    (h : labels p ≠ L) : p ∉ Members n labels L := by
  simp [Members, h]

theorem GrowInv.skip {mesh : Mesh α} {dists : Nat → α} {T : WithTop α} {L0 : Nat → Int}
    {L : Int} {s p : Nat} {rest : List Nat} {st : GrowState α}
    (h : GrowInv mesh dists T L0 L s (p :: rest) st) (hp : st.labels p = L) :
    GrowInv mesh dists T L0 L s rest st where
  only := h.only
  inC := h.inC
  queueC := fun q hq => h.queueC q (List.mem_cons_of_mem _ hq)
  closed := by
    intro a b ha hab
    rcases h.closed a b ha hab with hb | hb
    · exact Or.inl hb
    · rcases List.mem_cons.mp hb with rfl | hb
      · exact Or.inl hp
      · exact Or.inr hb
  seed := by
    rcases h.seed with hs | hs
    · exact Or.inl hs
    · rcases List.mem_cons.mp hs with rfl | hs
      · exact Or.inl hp
      · exact Or.inr hs
  size := h.size
  total := h.total
  center := h.center

theorem GrowInv.process {mesh : Mesh α} {dists : Nat → α} {T : WithTop α} {L0 : Nat → Int}
    {L : Int} {s p : Nat} {rest : List Nat} {st : GrowState α}
    (hwf : mesh.WellFormed) (hs : Distant mesh dists T s)
    (hC : ∀ q, Connected mesh dists T s q → L0 q = -1)
    (h : GrowInv mesh dists T L0 L s (p :: rest) st) (hp : st.labels p ≠ L) :
    GrowInv mesh dists T L0 L s
      (rest ++ GrowNeighbors mesh p dists (Function.update st.labels p L) T)
      { labels := Function.update st.labels p L
        size := st.size + 1
        center := (st.center.1 + (mesh.point p).1, st.center.2.1 + (mesh.point p).2.1,
          st.center.2.2 + (mesh.point p).2.2)
        total := st.total + dists p } := by
  have hpC : Connected mesh dists T s p := h.queueC p (List.mem_cons_self _ _)
  have hpD : Distant mesh dists T p := hpC.distant hs
  have hmem : p ∉ Members mesh.npts st.labels L := not_mem_Members_of_ne _ _ _ _ hp
  have hM := Members_update_new mesh.npts st.labels L p hpD.1
  refine ⟨?_, ?_, ?_, ?_, ?_, ?_, ?_, ?_⟩
  · intro q
    by_cases hq : q = p
    · subst hq; left; simp
    · simpa [Function.update_noteq hq] using h.only q
  · intro q hq
    by_cases hqp : q = p
    · subst hqp; exact hpC
    · exact h.inC q (by simpa [Function.update_noteq hqp] using hq)
  · intro q hq
    rcases List.mem_append.mp hq with hq | hq
    · exact h.queueC q (List.mem_cons_of_mem _ hq)
    · rw [mem_GrowNeighbors] at hq
      obtain ⟨hsc, _, hT⟩ := hq
      obtain ⟨cell, hcell, _, hqc⟩ := hsc
      have hqN : q < mesh.npts := hwf cell hcell q hqc
      exact Relation.ReflTransGen.tail hpC ⟨hpD, ⟨hqN, hT⟩, cell, hcell, ‹p ∈ cell›, hqc⟩
  · intro a b ha hab
    dsimp only at ha ⊢
    by_cases hbp : b = p
    · subst hbp; left; simp
    rw [Function.update_noteq hbp]
    by_cases hap : a = p
    · subst hap
      by_cases hb : st.labels b = L
      · exact Or.inl hb
      · right
        apply List.mem_append_right
        rw [mem_GrowNeighbors]
        refine ⟨hab.2.2, ?_, hab.2.1.2⟩
        rw [Function.update_noteq hbp]
        have hbC : Connected mesh dists T s b := Relation.ReflTransGen.tail hpC hab
        rcases h.only b with h1 | h1
        · exact absurd h1 hb
        · rw [h1]; exact hC b hbC
    · rw [Function.update_noteq hap] at ha
      rcases h.closed a b ha hab with hb | hb
      · exact Or.inl hb
      · rcases List.mem_cons.mp hb with rfl | hb
        · exact absurd rfl hbp
        · exact Or.inr (List.mem_append_left _ hb)
  · dsimp only
    by_cases hsp : s = p
    · subst hsp; left; simp
    · rw [Function.update_noteq hsp]
      rcases h.seed with h1 | h1
      · exact Or.inl h1
      · rcases List.mem_cons.mp h1 with rfl | h1
        · exact absurd rfl hsp
        · exact Or.inr (List.mem_append_left _ h1)
  · dsimp only
    rw [hM, Finset.card_insert_of_not_mem hmem, h.size]
    push_cast
    ring
  · dsimp only
    rw [hM, Finset.sum_insert hmem, h.total]
    ring
  · dsimp only
    rw [hM, Finset.sum_insert hmem, Finset.sum_insert hmem, Finset.sum_insert hmem, h.center]
    simp only [Prod.mk.injEq]
    refine ⟨by ring, by ring, by ring⟩

theorem GrowLoop_terminates {mesh : Mesh α} {dists : Nat → α} {T : WithTop α}
    {L0 : Nat → Int} {L : Int} {s : Nat}
    (hwf : mesh.WellFormed) (hs : Distant mesh dists T s)
    (hC : ∀ q, Connected mesh dists T s q → L0 q = -1) :
    ∀ (u : Nat) (queue : List Nat) (st : GrowState α),
      ((Finset.range mesh.npts).filter (fun q => st.labels q ≠ L)).card = u →
      GrowInv mesh dists T L0 L s queue st →
      ∃ (F : Nat) (st' : GrowState α),
        (∀ f, F ≤ f → GrowLoop mesh L dists T f queue st = some st') ∧
        GrowInv mesh dists T L0 L s [] st' := by
  intro u
  induction u using Nat.strong_induction_on with
  | _ u ihu =>
    intro queue
    induction queue with
    | nil =>
      intro st _ hinv
      refine ⟨0, st, ?_, hinv⟩
      intro f _
      cases f <;> rfl
    | cons p rest ihq =>
      intro st hu hinv
      by_cases hp : st.labels p = L
      · obtain ⟨F, st', hF, hinv'⟩ := ihq st hu (hinv.skip hp)
        refine ⟨F + 1, st', ?_, hinv'⟩
        intro f hf
        obtain ⟨f0, rfl⟩ : ∃ f0, f = f0 + 1 := ⟨f - 1, by omega⟩
        simp only [GrowLoop, hp, ne_eq, not_true_eq_false, if_false]
        exact hF f0 (by omega)
      · have hpC : Connected mesh dists T s p := hinv.queueC p (List.mem_cons_self _ _)
        have hpD : Distant mesh dists T p := hpC.distant hs
        have hlt : ((Finset.range mesh.npts).filter
            (fun q => Function.update st.labels p L q ≠ L)).card < u := by
          rw [← hu]
          apply Finset.card_lt_card
          rw [Finset.ssubset_iff_of_subset]
          · refine ⟨p, ?_, ?_⟩
            · simp [hpD.1, hp]
            · simp
          · intro q hq
            simp only [Finset.mem_filter, Finset.mem_range] at hq ⊢
            refine ⟨hq.1, ?_⟩
            by_cases hqp : q = p
            · subst hqp; exact hp
            · simpa [Function.update_noteq hqp] using hq.2
        obtain ⟨F, st', hF, hinv'⟩ := ihu _ hlt _ _ rfl (hinv.process hwf hs hC hp)
        refine ⟨F + 1, st', ?_, hinv'⟩
        intro f hf
        obtain ⟨f0, rfl⟩ : ∃ f0, f = f0 + 1 := ⟨f - 1, by omega⟩
        simp only [GrowLoop, hp, ne_eq, not_false_eq_true, if_true]
        exact hF f0 (by omega)

theorem GrowInv.init (mesh : Mesh α) (dists : Nat → α) (T : WithTop α)
    {L0 : Nat → Int} {L : Int} (s : Nat) (hfresh : ∀ p, L0 p ≠ L) :
    GrowInv mesh dists T L0 L s [s]
      { labels := L0, size := 0, center := (0, 0, 0), total := 0 } := by
  have hM : Members mesh.npts L0 L = ∅ := by
    ext q; simp [Members, hfresh q]
  refine ⟨fun p => Or.inr rfl, fun p hp => absurd hp (hfresh p), ?_,
    fun p q hp _ => absurd hp (hfresh p), Or.inr (List.mem_singleton_self _), ?_, ?_, ?_⟩
  · intro q hq
    rw [List.mem_singleton.mp hq]
    exact Relation.ReflTransGen.refl
  · simp [hM]
  · simp [hM]
  · simp [hM]

/-- What `GrowCluster` returns and leaves in the label array when it grows the fresh label
`L` from an unlabelled distant seed whose component is unlabelled. -/
theorem GrowCluster_spec {mesh : Mesh α} {dists : Nat → α} {T : WithTop α}
    {L0 : Nat → Int} {L : Int} {s : Nat}
    (hwf : mesh.WellFormed) (hs : Distant mesh dists T s)
    (hC : ∀ q, Connected mesh dists T s q → L0 q = -1) (hfresh : ∀ p, L0 p ≠ L) :
    ∃ (F : Nat) (g : GrowResult α),
      (∀ f, F ≤ f → GrowCluster mesh s L dists L0 T f = some g) ∧
      (∀ p, Connected mesh dists T s p → g.labels p = L) ∧
      (∀ p, ¬ Connected mesh dists T s p → g.labels p = L0 p) ∧
      g.size = ((Members mesh.npts g.labels L).card : Int) ∧
      0 < g.size ∧
      g.total = ∑ p in Members mesh.npts g.labels L, dists p ∧
      g.center =
        ((∑ p in Members mesh.npts g.labels L, (mesh.point p).1) / (g.size : α),
         (∑ p in Members mesh.npts g.labels L, (mesh.point p).2.1) / (g.size : α),
         (∑ p in Members mesh.npts g.labels L, (mesh.point p).2.2) / (g.size : α)) := by
  obtain ⟨F, st', hF, hinv⟩ := GrowLoop_terminates hwf hs hC _ _ _ rfl
    (GrowInv.init mesh dists T s hfresh)
  have hseed : st'.labels s = L := by
    rcases hinv.seed with h | h
    · exact h
    · simp at h
  have hall : ∀ p, Connected mesh dists T s p → st'.labels p = L := by
    intro p hp
    induction hp with
    | refl => exact hseed
    | tail _ hbc ih =>
      rcases hinv.closed _ _ ih hbc with h | h
      · exact h
      · simp at h
  have hpos : 0 < st'.size := by
    rw [hinv.size]
    have : s ∈ Members mesh.npts st'.labels L := by
      simp [Members, hs.1, hseed]
    exact_mod_cast Finset.card_pos.mpr ⟨s, this⟩
  refine ⟨F, _, fun f hf => by rw [GrowCluster, hF f hf]; rfl, hall, ?_, hinv.size, hpos,
    hinv.total, ?_⟩
  · intro p hp
    rcases hinv.only p with h | h
    · exact absurd (hinv.inC p h) hp
    · exact h
  · dsimp only
    rw [if_pos hpos, hinv.center]

end Growth

end SelectRois

namespace SelectRois

/-! ## The clustering loop -/

section ClusterLoopProofs

set_option linter.unusedSectionVars false

variable {α : Type} [LinearOrderedField α]

theorem NextSeed_none {dists : Nat → α} {labels : Nat → Int} {S : WithTop α} :
    ∀ (stack : List Nat) (stack' : List Nat),
      stack.Pairwise (fun a b => dists b ≤ dists a) →
      NextSeed dists labels S stack = (none, stack') →
      ∀ p ∈ stack, S ≤ (dists p : WithTop α) → labels p ≠ -1 := by
  intro stack
  induction stack with
  | nil => intro _ _ _ p hp; simp at hp
  | cons seed seeds ih =>
    intro stack' hsorted hnext p hp hS
    rw [List.pairwise_cons] at hsorted
    unfold NextSeed at hnext
    by_cases h1 : (dists seed : WithTop α) < S
    · exfalso
      have hle : dists p ≤ dists seed := by
        rcases List.mem_cons.mp hp with rfl | hp
        · exact le_rfl
        · exact hsorted.1 p hp
      have : (dists p : WithTop α) ≤ (dists seed : WithTop α) := WithTop.coe_le_coe.mpr hle
      exact absurd (lt_of_le_of_lt (hS.trans this) h1) (lt_irrefl _)
    · rw [if_neg h1] at hnext
      by_cases h2 : labels seed = -1
      · rw [if_pos h2] at hnext
        simp at hnext
      · rw [if_neg h2] at hnext
        rcases List.mem_cons.mp hp with rfl | hp
        · exact h2
        · exact ih stack' hsorted.2 hnext p hp hS

theorem NextSeed_some {dists : Nat → α} {labels : Nat → Int} {S : WithTop α} :
    ∀ (stack : List Nat) (seed : Nat) (stack' : List Nat),
      NextSeed dists labels S stack = (some seed, stack') →
      ∃ popped rest, stack = popped ++ stack' ∧ stack' = seed :: rest ∧
        (∀ p ∈ popped, labels p ≠ -1) ∧ labels seed = -1 ∧ S ≤ (dists seed : WithTop α) := by
  intro stack
  induction stack with
  | nil => intro seed stack' h; simp [NextSeed] at h
  | cons top seeds ih =>
    intro seed stack' hnext
    unfold NextSeed at hnext
    by_cases h1 : (dists top : WithTop α) < S
    · rw [if_pos h1] at hnext; simp at hnext
    · rw [if_neg h1] at hnext
      by_cases h2 : labels top = -1
      · rw [if_pos h2] at hnext
        simp only [Prod.mk.injEq, Option.some.injEq] at hnext
        obtain ⟨rfl, rfl⟩ := hnext
        exact ⟨[], seeds, rfl, rfl, by simp, h2, not_lt.mp h1⟩
      · rw [if_neg h2] at hnext
        obtain ⟨popped, rest, h3, h4, h5, h6, h7⟩ := ih seed stack' hnext
        refine ⟨top :: popped, rest, by rw [h3]; rfl, h4, ?_, h6, h7⟩
        intro p hp
        rcases List.mem_cons.mp hp with rfl | hp
        · exact h2
        · exact h5 p hp

theorem Members_congr (n : Nat) (labels labels' : Nat → Int) (L : Int)
    (h : ∀ p, labels' p = L ↔ labels p = L) : Members n labels' L = Members n labels L := by
  ext q
  simp [Members, h q]

theorem ClusterOK.congr {mesh : Mesh α} {dists : Nat → α} {T S : WithTop α} {min_size : Int}
    {labels labels' : Nat → Int} {c : Cluster α}
    (hc : ClusterOK mesh dists T S min_size labels c)
    (h : ∀ p, labels' p = c.label ↔ labels p = c.label) :
    ClusterOK mesh dists T S min_size labels' c := by
  have hM := Members_congr mesh.npts labels labels' c.label h
  refine ⟨hc.seedNat, hc.seedLt, hc.seedDist, fun p => (h p).trans (hc.members p), ?_,
    hc.sizeMin, hc.sizePos, ?_, ?_⟩
  · rw [hM]; exact hc.size
  · rw [hM]; exact hc.total
  · rw [hM]; exact hc.center

theorem Connected.of_adjacent_iff {mesh : Mesh α} {dists : Nat → α} {T : WithTop α}
    {s p q : Nat} (h : Adjacent mesh dists T p q) :
    Connected mesh dists T s p ↔ Connected mesh dists T s q :=
  ⟨fun hp => Relation.ReflTransGen.tail hp h, fun hq => Relation.ReflTransGen.tail hq h.swap⟩

theorem ClusterInv.component_unlabelled {mesh : Mesh α} {dists : Nat → α} {T S : WithTop α}
    {min_size start : Int} {st : ClusterState α}
    (inv : ClusterInv mesh dists T S min_size start st) {s : Nat} (hs : st.labels s = -1) :
    ∀ q, Connected mesh dists T s q → st.labels q = -1 := by
  intro q hq
  induction hq with
  | refl => exact hs
  | tail _ hbc ih => rw [← inv.uniform _ _ hbc]; exact ih

theorem ClusterInv.label_pos {mesh : Mesh α} {dists : Nat → α} {T S : WithTop α}
    {min_size start : Int} {st : ClusterState α}
    (inv : ClusterInv mesh dists T S min_size start st) (hstart : 1 ≤ start) : 1 ≤ st.label := by
  rw [inv.next]
  have : (0 : Int) ≤ (st.clusters.length : Int) := Int.natCast_nonneg _
  omega

theorem ClusterInv.cluster_label {mesh : Mesh α} {dists : Nat → α} {T S : WithTop α}
    {min_size start : Int} {st : ClusterState α}
    (inv : ClusterInv mesh dists T S min_size start st) (hstart : 1 ≤ start)
    {c : Cluster α} (hc : c ∈ st.clusters) : 1 ≤ c.label ∧ c.label < st.label := by
  obtain ⟨i, hi⟩ := List.mem_iff_get.mp hc
  have h1 := inv.labelAt i.1 i.2
  rw [show st.clusters.get ⟨i.1, i.2⟩ = c from hi] at h1
  rw [h1, inv.next]
  have h2 : (i.1 : Int) < (st.clusters.length : Int) := by exact_mod_cast i.2
  have h3 : (0 : Int) ≤ (i.1 : Int) := Int.natCast_nonneg _
  omega

/-- Fields of the loop invariant that hold again after the component of the seed `s` got the
value `v` and the stack lost the entries above `s`. -/
theorem ClusterInv.relabel {mesh : Mesh α} {dists : Nat → α} {T S : WithTop α}
    {min_size start : Int} {st : ClusterState α}
    (inv : ClusterInv mesh dists T S min_size start st) (hT : T ≤ S)
    {s : Nat} {popped rest : List Nat} (hsplit : st.seeds = popped ++ s :: rest)
    (hpop : ∀ p ∈ popped, st.labels p ≠ -1) (hs : st.labels s = -1)
    (hS : S ≤ (dists s : WithTop α)) (v : Int) (hv : v ≠ -1) (labels' : Nat → Int)
    (hin : ∀ p, Connected mesh dists T s p → labels' p = v)
    (hout : ∀ p, ¬ Connected mesh dists T s p → labels' p = st.labels p)
    (hvc : ∀ c ∈ st.clusters, c.label ≠ v ∧ c.label ≠ -1) :
    (∀ p q, Adjacent mesh dists T p q → labels' p = labels' q) ∧
    (∀ p, labels' p ≠ -1 → Distant mesh dists T p) ∧
    (∀ c ∈ st.clusters, ClusterOK mesh dists T S min_size labels' c) ∧
    (∀ p ∈ s :: rest, p < mesh.npts) ∧
    (s :: rest).Pairwise (fun a b => dists b ≤ dists a) ∧
    (∀ p, p < mesh.npts → S ≤ (dists p : WithTop α) → p ∈ s :: rest ∨ labels' p ≠ -1) ∧
    Distant mesh dists T s := by
  have hsN : s < mesh.npts := inv.stackLt s (by rw [hsplit]; simp)
  have hsD : Distant mesh dists T s := ⟨hsN, hT.trans hS⟩
  have hold := inv.component_unlabelled hs
  refine ⟨?_, ?_, ?_, ?_, ?_, ?_, hsD⟩
  · intro p q hpq
    by_cases hp : Connected mesh dists T s p
    · rw [hin p hp, hin q ((Connected.of_adjacent_iff hpq).mp hp)]
    · rw [hout p hp, hout q (fun hq => hp ((Connected.of_adjacent_iff hpq).mpr hq))]
      exact inv.uniform p q hpq
  · intro p hp
    by_cases hc : Connected mesh dists T s p
    · exact hc.distant hsD
    · rw [hout p hc] at hp
      exact inv.distant p hp
  · intro c hc
    apply (inv.cluster c hc).congr
    intro p
    by_cases hp : Connected mesh dists T s p
    · rw [hin p hp, hold p hp]
      constructor
      · intro h; exact absurd h.symm (hvc c hc).1
      · intro h; exact absurd h.symm (hvc c hc).2
    · rw [hout p hp]
  · intro p hp
    exact inv.stackLt p (by rw [hsplit]; exact List.mem_append_right _ hp)
  · have := inv.sorted
    rw [hsplit, List.pairwise_append] at this
    exact this.2.1
  · intro p hpN hpS
    by_cases hc : Connected mesh dists T s p
    · right; rw [hin p hc]; exact hv
    · rw [hout p hc]
      rcases inv.covered p hpN hpS with h | h
      · rw [hsplit] at h
        rcases List.mem_append.mp h with h | h
        · exact Or.inr (hpop p h)
        · exact Or.inl h
      · exact Or.inr h

theorem grown_label_iff {mesh : Mesh α} {dists : Nat → α} {T S : WithTop α}
    {min_size start : Int} {st : ClusterState α}
    (inv : ClusterInv mesh dists T S min_size start st) {s : Nat} {labels' : Nat → Int}
    (hin : ∀ p, Connected mesh dists T s p → labels' p = st.label)
    (hout : ∀ p, ¬ Connected mesh dists T s p → labels' p = st.labels p) (p : Nat) :
    labels' p = st.label ↔ Connected mesh dists T s p := by
  constructor
  · intro h
    by_contra hc
    rw [hout p hc] at h
    exact absurd h (ne_of_lt (inv.range p).2)
  · exact hin p

theorem ClusterInv.discard {mesh : Mesh α} {dists : Nat → α} {T S : WithTop α}
    {min_size start : Int} {st : ClusterState α}
    (inv : ClusterInv mesh dists T S min_size start st) (hT : T ≤ S) (hstart : 1 ≤ start)
    {s : Nat} {popped rest : List Nat} (hsplit : st.seeds = popped ++ s :: rest)
    (hpop : ∀ p ∈ popped, st.labels p ≠ -1) (hs : st.labels s = -1)
    (hS : S ≤ (dists s : WithTop α)) (g : GrowResult α)
    (hin : ∀ p, Connected mesh dists T s p → g.labels p = st.label)
    (hout : ∀ p, ¬ Connected mesh dists T s p → g.labels p = st.labels p)
    (hsize : g.size = ((Members mesh.npts g.labels st.label).card : Int))
    (hlt : g.size < min_size) :
    ClusterInv mesh dists T S min_size start
      { seeds := s :: rest
        labels := DiscardCluster mesh.npts g.labels st.label
        clusters := st.clusters
        label := st.label } := by
  have hL := inv.label_pos hstart
  have hsN : s < mesh.npts := inv.stackLt s (by rw [hsplit]; simp)
  have hsD : Distant mesh dists T s := ⟨hsN, hT.trans hS⟩
  have hL0 : st.label ≠ 0 := by omega
  have hin' : ∀ p, Connected mesh dists T s p →
      DiscardCluster mesh.npts g.labels st.label p = 0 := by
    intro p hp
    simp only [DiscardCluster, hL0, ne_eq, not_false_eq_true, if_true]
    rw [if_pos ⟨(hp.distant hsD).1, hin p hp⟩]
  have hout' : ∀ p, ¬ Connected mesh dists T s p →
      DiscardCluster mesh.npts g.labels st.label p = st.labels p := by
    intro p hp
    simp only [DiscardCluster, hL0, ne_eq, not_false_eq_true, if_true]
    rw [if_neg, hout p hp]
    rintro ⟨_, h⟩
    exact hp ((grown_label_iff inv hin hout p).mp h)
  obtain ⟨h1, h2, h3, h4, h5, h6, -⟩ := inv.relabel hT hsplit hpop hs hS 0 (by decide) _ hin' hout'
    (fun c hc => by have := inv.cluster_label hstart hc; constructor <;> omega)
  refine ⟨h1, h2, ?_, ?_, inv.next, inv.labelAt, h3, ?_, h4, h5, h6⟩
  · intro p
    dsimp only
    by_cases hp : Connected mesh dists T s p
    · rw [hin' p hp]; constructor <;> omega
    · rw [hout' p hp]; exact inv.range p
  · intro p
    dsimp only
    by_cases hp : Connected mesh dists T s p
    · rw [hin' p hp]; exact Or.inr (Or.inl rfl)
    · rw [hout' p hp]; exact inv.values p
  · intro p hp C hC
    dsimp only at hp
    by_cases hc : Connected mesh dists T s p
    · have hCM : C = Members mesh.npts g.labels st.label := by
        ext q
        rw [hC q]
        simp only [Members, Finset.mem_filter, Finset.mem_range]
        rw [grown_label_iff inv hin hout q]
        constructor
        · intro hq
          exact ⟨((hc.trans hq).distant hsD).1, hc.trans hq⟩
        · rintro ⟨_, hq⟩
          exact hc.symm.trans hq
      rw [hCM, ← hsize]
      exact hlt
    · rw [hout' p hc] at hp
      exact inv.small p hp C hC

theorem ClusterInv.keep {mesh : Mesh α} {dists : Nat → α} {T S : WithTop α}
    {min_size start : Int} {st : ClusterState α}
    (inv : ClusterInv mesh dists T S min_size start st) (hT : T ≤ S) (hstart : 1 ≤ start)
    {s : Nat} {popped rest : List Nat} (hsplit : st.seeds = popped ++ s :: rest)
    (hpop : ∀ p ∈ popped, st.labels p ≠ -1) (hs : st.labels s = -1)
    (hS : S ≤ (dists s : WithTop α)) (g : GrowResult α)
    (hin : ∀ p, Connected mesh dists T s p → g.labels p = st.label)
    (hout : ∀ p, ¬ Connected mesh dists T s p → g.labels p = st.labels p)
    (hsize : g.size = ((Members mesh.npts g.labels st.label).card : Int))
    (hpos : 0 < g.size)
    (htotal : g.total = ∑ p in Members mesh.npts g.labels st.label, dists p)
    (hcenter : g.center =
        ((∑ p in Members mesh.npts g.labels st.label, (mesh.point p).1) / (g.size : α),
         (∑ p in Members mesh.npts g.labels st.label, (mesh.point p).2.1) / (g.size : α),
         (∑ p in Members mesh.npts g.labels st.label, (mesh.point p).2.2) / (g.size : α)))
    (hge : ¬ g.size < min_size) :
    ClusterInv mesh dists T S min_size start
      { seeds := s :: rest
        labels := g.labels
        clusters := st.clusters ++
          [{ label := st.label, seed := (s : Int), size := g.size,
             center := g.center, total := g.total }]
        label := st.label + 1 } := by
  have hL := inv.label_pos hstart
  have hsN : s < mesh.npts := inv.stackLt s (by rw [hsplit]; simp)
  obtain ⟨h1, h2, h3, h4, h5, h6, -⟩ := inv.relabel hT hsplit hpop hs hS st.label (by omega) _
    hin hout
    (fun c hc => by have := inv.cluster_label hstart hc; constructor <;> omega)
  refine ⟨h1, h2, ?_, ?_, ?_, ?_, ?_, ?_, h4, h5, h6⟩
  · intro p
    dsimp only
    by_cases hp : Connected mesh dists T s p
    · rw [hin p hp]; constructor <;> omega
    · rw [hout p hp]; have := inv.range p; constructor <;> omega
  · intro p
    dsimp only
    by_cases hp : Connected mesh dists T s p
    · rw [hin p hp, inv.next]
      have : (0 : Int) ≤ (st.clusters.length : Int) := Int.natCast_nonneg _
      right; right; omega
    · rw [hout p hp]; exact inv.values p
  · dsimp only
    rw [inv.next, List.length_append, List.length_singleton]
    push_cast
    ring
  · intro i hi
    dsimp only at hi ⊢
    rw [List.length_append, List.length_singleton] at hi
    by_cases h : i < st.clusters.length
    · rw [List.get_eq_getElem, List.getElem_append_left h]
      exact inv.labelAt i h
    · have : i = st.clusters.length := by omega
      subst this
      rw [List.get_eq_getElem, List.getElem_append_right (le_refl _)]
      simp [inv.next]
  · intro c hc
    dsimp only at hc ⊢
    rcases List.mem_append.mp hc with hc | hc
    · exact h3 c hc
    · rw [List.mem_singleton] at hc
      subst hc
      refine ⟨by simp, by simpa using hsN, by simpa using hS, ?_, hsize, not_lt.mp hge, hpos,
        htotal, hcenter⟩
      intro p
      simpa using grown_label_iff inv hin hout p
  · intro p hp C hC
    dsimp only at hp
    have hc : ¬ Connected mesh dists T s p := by
      intro hc
      rw [hin p hc] at hp
      omega
    rw [hout p hc] at hp
    exact inv.small p hp C hC

theorem countP_unlabelled_lt (labels labels' : Nat → Int) (s : Nat) (popped rest : List Nat)
    (h1 : labels' s ≠ -1) (h2 : labels s = -1) (h3 : ∀ p, labels' p = -1 → labels p = -1) :
    List.countP (fun p => decide (labels' p = -1)) (s :: rest) <
      List.countP (fun p => decide (labels p = -1)) (popped ++ s :: rest) := by
  rw [List.countP_append, List.countP_cons_of_neg _ _ (by simpa using h1),
    List.countP_cons_of_pos _ _ (by simpa using h2)]
  have : List.countP (fun p => decide (labels' p = -1)) rest ≤
      List.countP (fun p => decide (labels p = -1)) rest := by
    apply List.countP_mono_left
    intro p _ hp
    simpa using h3 p (by simpa using hp)
  omega

/-- The loop of `DistantClusters` ends, given enough fuel, in a state that satisfies the loop
invariant with an empty seed stack. -/
theorem ClusterLoop_spec {mesh : Mesh α} {dists : Nat → α} {T S : WithTop α}
    {min_size start : Int} (hwf : mesh.WellFormed) (hT : T ≤ S) (hstart : 1 ≤ start) :
    ∀ (m : Nat) (st : ClusterState α),
      List.countP (fun p => decide (st.labels p = -1)) st.seeds = m →
      ClusterInv mesh dists T S min_size start st →
      ∃ (F : Nat) (r : ClusterResult α),
        (∀ f, F ≤ f → ClusterLoop mesh dists min_size S T f st = some r) ∧
        ClusterInv mesh dists T S min_size start
          { seeds := [], labels := r.labels, clusters := r.clusters
            label := start + (r.clusters.length : Int) } := by
  intro m
  induction m using Nat.strong_induction_on with
  | _ m ih =>
    intro st hm inv
    rcases hnext : NextSeed dists st.labels S st.seeds with ⟨o, stack'⟩
    cases o with
    | none =>
      refine ⟨1, { clusters := st.clusters, labels := st.labels }, ?_, ?_⟩
      · intro f hf
        obtain ⟨f0, rfl⟩ : ∃ f0, f = f0 + 1 := ⟨f - 1, by omega⟩
        simp only [ClusterLoop, hnext]
      · refine ⟨inv.uniform, inv.distant, ?_, inv.values, rfl, inv.labelAt, inv.cluster, inv.small,
          by simp, List.Pairwise.nil, ?_⟩
        · intro p
          have := inv.range p
          rw [inv.next] at this
          exact this
        · intro p hpN hpS
          rcases inv.covered p hpN hpS with h | h
          · exact Or.inr (NextSeed_none _ _ inv.sorted hnext p h hpS)
          · exact Or.inr h
    | some s =>
      obtain ⟨popped, rest, hsplit, hstack, hpop, hs, hS⟩ := NextSeed_some _ _ _ hnext
      subst hstack
      have hsN : s < mesh.npts := inv.stackLt s (by rw [hsplit]; simp)
      have hsD : Distant mesh dists T s := ⟨hsN, hT.trans hS⟩
      have hL := inv.label_pos hstart
      obtain ⟨Fg, g, hFg, hin, hout, hsize, hpos, htotal, hcenter⟩ :=
        @GrowCluster_spec α _ mesh dists T st.labels st.label s hwf hsD (inv.component_unlabelled hs)
          (fun p => ne_of_lt (inv.range p).2)
      by_cases hlt : g.size < min_size
      · have inv1 := inv.discard hT hstart hsplit hpop hs hS g hin hout hsize hlt
        have hdec : List.countP
            (fun p => decide (DiscardCluster mesh.npts g.labels st.label p = -1)) (s :: rest)
              < m := by
          rw [← hm, hsplit]
          apply countP_unlabelled_lt
          · intro h
            exact absurd (inv1.distant s) (by
              intro _
              have h0 : DiscardCluster mesh.npts g.labels st.label s = 0 := by
                have hL0 : st.label ≠ 0 := by omega
                simp only [DiscardCluster, hL0, ne_eq, not_false_eq_true, if_true]
                rw [if_pos ⟨hsN, hin s Relation.ReflTransGen.refl⟩]
              rw [h0] at h
              exact absurd h (by decide))
          · exact hs
          · intro p hp
            by_contra hne
            have hL0 : st.label ≠ 0 := by omega
            simp only [DiscardCluster, hL0, ne_eq, not_false_eq_true, if_true] at hp
            by_cases hc : Connected mesh dists T s p
            · rw [if_pos ⟨(hc.distant hsD).1, hin p hc⟩] at hp
              exact absurd hp (by decide)
            · split at hp
              · exact absurd hp (by decide)
              · rw [hout p hc] at hp; exact hne hp
        obtain ⟨F1, r, hF1, hr⟩ := ih _ hdec _ rfl inv1
        refine ⟨max Fg F1 + 1, r, ?_, hr⟩
        intro f hf
        obtain ⟨f0, rfl⟩ : ∃ f0, f = f0 + 1 := ⟨f - 1, by omega⟩
        have h1 : Fg ≤ f0 := by have := le_max_left Fg F1; omega
        have h2 : F1 ≤ f0 := by have := le_max_right Fg F1; omega
        simp only [ClusterLoop, hnext, hFg f0 h1, hlt, if_true]
        exact hF1 f0 h2
      · have inv1 := inv.keep hT hstart hsplit hpop hs hS g hin hout hsize hpos htotal hcenter hlt
        have hdec : List.countP (fun p => decide (g.labels p = -1)) (s :: rest) < m := by
          rw [← hm, hsplit]
          apply countP_unlabelled_lt
          · rw [hin s Relation.ReflTransGen.refl]; omega
          · exact hs
          · intro p hp
            by_cases hc : Connected mesh dists T s p
            · rw [hin p hc] at hp; omega
            · rw [hout p hc] at hp; exact hp
        obtain ⟨F1, r, hF1, hr⟩ := ih _ hdec _ rfl inv1
        refine ⟨max Fg F1 + 1, r, ?_, hr⟩
        intro f hf
        obtain ⟨f0, rfl⟩ : ∃ f0, f = f0 + 1 := ⟨f - 1, by omega⟩
        have h1 : Fg ≤ f0 := by have := le_max_left Fg F1; omega
        have h2 : F1 ≤ f0 := by have := le_max_right Fg F1; omega
        simp only [ClusterLoop, hnext, hFg f0 h1, hlt, if_false]
        exact hF1 f0 h2

theorem EffectiveThreshold_le_SeedDist (min_seed_dist : α) (T : WithTop α) :
    T ≤ EffectiveSeedDist min_seed_dist T := by
  unfold EffectiveSeedDist
  split
  · exact le_rfl
  · exact not_lt.mp ‹_›

theorem InitSeeds_perm (n : Nat) (dists : Nat → α) : (InitSeeds n dists).Perm (List.range n) :=
  List.perm_insertionSort _ _

theorem InitSeeds_sorted (n : Nat) (dists : Nat → α) :
    (InitSeeds n dists).Pairwise (fun i j => dists i ≤ dists j) := by
  have hT : IsTotal Nat (fun i j => dists i ≤ dists j) := ⟨fun i j => le_total _ _⟩
  have hR : IsTrans Nat (fun i j => dists i ≤ dists j) := ⟨fun i j k h1 h2 => le_trans h1 h2⟩
  exact List.sorted_insertionSort (fun i j => dists i ≤ dists j) (List.range n)

theorem ClusterInv.initial {mesh : Mesh α} {dists : Nat → α} {T S : WithTop α}
    {min_size start : Int} (hstart : 1 ≤ start) :
    ClusterInv mesh dists T S min_size start
      { seeds := (InitSeeds mesh.npts dists).reverse
        labels := fun _ => -1
        clusters := []
        label := start } := by
  refine ⟨fun _ _ _ => rfl, fun p hp => absurd rfl hp, fun p => ⟨le_rfl, by dsimp only; omega⟩,
    fun p => Or.inl rfl, by simp, fun i hi => by simp at hi, fun c hc => by simp at hc,
    fun p hp => by simp at hp, ?_, ?_, ?_⟩
  · intro p hp
    have := (InitSeeds_perm mesh.npts dists).mem_iff.mp (List.mem_reverse.mp hp)
    exact List.mem_range.mp this
  · dsimp only
    rw [List.pairwise_reverse]
    exact InitSeeds_sorted mesh.npts dists
  · intro p hp _
    left
    exact List.mem_reverse.mpr ((InitSeeds_perm mesh.npts dists).mem_iff.mpr (List.mem_range.mpr hp))

/-- With enough fuel `DistantClusters` returns, and what it returns satisfies the loop
invariant for the effective threshold and seed bound. -/
theorem DistantClusters_spec [FloorRing α] (surface : Mesh α) (ndists : Nat) (dists : Nat → α)
    (min_size : Int) (min_seed_dist min_threshold : α) (dists_percentile start_label : Int)
    (hwf : surface.WellFormed) (hn : ndists = surface.npts) (hstart : 1 ≤ start_label) :
    ∃ (F : Nat) (r : ClusterResult α),
      (∀ f, F ≤ f → DistantClusters surface ndists dists min_size min_seed_dist min_threshold
        dists_percentile start_label f = some r) ∧
      ClusterInv surface dists (EffectiveThreshold ndists dists min_threshold dists_percentile)
        (EffectiveSeedDist min_seed_dist
          (EffectiveThreshold ndists dists min_threshold dists_percentile))
        min_size start_label
        { seeds := [], labels := r.labels, clusters := r.clusters
          label := start_label + (r.clusters.length : Int) } := by
  subst hn
  obtain ⟨F, r, hF, hr⟩ := @ClusterLoop_spec α _ surface dists _ _ min_size start_label hwf
    (EffectiveThreshold_le_SeedDist min_seed_dist
      (EffectiveThreshold surface.npts dists min_threshold dists_percentile)) hstart _ _ rfl
    (@ClusterInv.initial α _ surface dists _ _ min_size start_label hstart)
  exact ⟨F, r, fun f hf => hF f hf, hr⟩

end ClusterLoopProofs

end SelectRois

namespace SelectRois

/-! ## Fuel -/

section Fuel

set_option linter.unusedSectionVars false

variable {α : Type} [LinearOrderedField α]

theorem GrowLoop_succ (mesh : Mesh α) (L : Int) (dists : Nat → α) (T : WithTop α) :
    ∀ (f : Nat) (queue : List Nat) (st r : GrowState α),
      GrowLoop mesh L dists T f queue st = some r →
      GrowLoop mesh L dists T (f + 1) queue st = some r := by
  intro f
  induction f with
  | zero =>
    intro queue st r h
    cases queue with
    | nil => simpa [GrowLoop] using h
    | cons p rest => simp [GrowLoop] at h
  | succ f ih =>
    intro queue st r h
    cases queue with
    | nil => simpa [GrowLoop] using h
    | cons p rest =>
      rw [GrowLoop] at h ⊢
      split
      · rw [if_pos ‹_›] at h
        exact ih _ _ _ h
      · rw [if_neg ‹_›] at h
        exact ih _ _ _ h

theorem GrowCluster_succ (mesh : Mesh α) (s : Nat) (L : Int) (dists : Nat → α)
    (labels : Nat → Int) (T : WithTop α) (f : Nat) (g : GrowResult α)
    (h : GrowCluster mesh s L dists labels T f = some g) :
    GrowCluster mesh s L dists labels T (f + 1) = some g := by
  unfold GrowCluster at h ⊢
  rw [Option.map_eq_some'] at h
  obtain ⟨st, hst, hg⟩ := h
  rw [GrowLoop_succ mesh L dists T f _ _ st hst]
  simpa using hg

theorem ClusterLoop_succ (mesh : Mesh α) (dists : Nat → α) (min_size : Int) (S T : WithTop α) :
    ∀ (f : Nat) (st : ClusterState α) (r : ClusterResult α),
      ClusterLoop mesh dists min_size S T f st = some r →
      ClusterLoop mesh dists min_size S T (f + 1) st = some r := by
  intro f
  induction f with
  | zero => intro st r h; simp [ClusterLoop] at h
  | succ f ih =>
    intro st r h
    rw [ClusterLoop] at h ⊢
    rcases hnext : NextSeed dists st.labels S st.seeds with ⟨o, stack'⟩
    rw [hnext] at h
    cases o with
    | none => simpa using h
    | some s =>
      dsimp only at h ⊢
      cases hg : GrowCluster mesh s st.label dists st.labels T f with
      | none => rw [hg] at h; simp at h
      | some g =>
        rw [hg] at h
        rw [GrowCluster_succ mesh s st.label dists st.labels T f g hg]
        dsimp only at h ⊢
        split
        · rw [if_pos ‹_›] at h; exact ih _ _ h
        · rw [if_neg ‹_›] at h; exact ih _ _ h

theorem ClusterLoop_mono (mesh : Mesh α) (dists : Nat → α) (min_size : Int) (S T : WithTop α)
    (f f' : Nat) (hf : f ≤ f') (st : ClusterState α) (r : ClusterResult α)
    (h : ClusterLoop mesh dists min_size S T f st = some r) :
    ClusterLoop mesh dists min_size S T f' st = some r := by
  induction hf with
  | refl => exact h
  | step _ ih => exact ClusterLoop_succ mesh dists min_size S T _ st r ih

/-- Some fuel makes `DistantClusters` return, and whatever it returns, with any fuel,
satisfies the loop invariant for the effective threshold and seed bound. -/
theorem DistantClusters_total [FloorRing α] (surface : Mesh α) (ndists : Nat) (dists : Nat → α)
    (min_size : Int) (min_seed_dist min_threshold : α) (dists_percentile start_label : Int)
    (hwf : surface.WellFormed) (hn : ndists = surface.npts) (hstart : 1 ≤ start_label) :
    (∃ (fuel : Nat) (r : ClusterResult α),
      DistantClusters surface ndists dists min_size min_seed_dist min_threshold
        dists_percentile start_label fuel = some r) ∧
    ∀ (fuel : Nat) (r : ClusterResult α),
      DistantClusters surface ndists dists min_size min_seed_dist min_threshold
        dists_percentile start_label fuel = some r →
      ClusterInv surface dists (EffectiveThreshold ndists dists min_threshold dists_percentile)
        (EffectiveSeedDist min_seed_dist
          (EffectiveThreshold ndists dists min_threshold dists_percentile))
        min_size start_label
        { seeds := [], labels := r.labels, clusters := r.clusters
          label := start_label + (r.clusters.length : Int) } := by
  obtain ⟨F, r, hF, hr⟩ := DistantClusters_spec surface ndists dists min_size min_seed_dist
    min_threshold dists_percentile start_label hwf hn hstart
  refine ⟨⟨F, r, hF F le_rfl⟩, ?_⟩
  intro fuel r' h'
  have h1 := hF (max fuel F) (le_max_right _ _)
  have h2 : DistantClusters surface ndists dists min_size min_seed_dist min_threshold
      dists_percentile start_label (max fuel F) = some r' :=
    ClusterLoop_mono _ _ _ _ _ fuel (max fuel F) (le_max_left _ _) _ r' h'
  rw [h1] at h2
  cases h2
  exact hr

end Fuel

end SelectRois

namespace SelectRois

/-! ## Line sweep: the intersected set and the accumulated sum -/

section SweepAbstract

set_option linter.unusedSectionVars false

variable {α : Type} [LinearOrderedField α]

theorem sweepStep_fold_set (G : Finset Nat → α) (P : List (LineSweepEvent α))
    (st : α × α × Finset Nat) :
    (P.foldl (sweepStep G) st).2.2 = P.foldl setStep st.2.2 := by
  induction P generalizing st with
  | nil => rfl
  | cons e P ih => simp only [List.foldl_cons]; rw [ih]; rfl

/-- After a prefix `P` of the events, the intersected set holds the intervals whose enter
event is in `P` and whose exit event is not. -/
theorem SweepEvents.set_prefix {A : Finset Nat} {lo hi : Nat → α}
    {E : List (LineSweepEvent α)} (h : SweepEvents A lo hi E) :
    ∀ (P Q : List (LineSweepEvent α)), E = P ++ Q → ∀ i,
      i ∈ P.foldl setStep ∅ ↔
        i ∈ A ∧ (⟨i, lo i, true⟩ : LineSweepEvent α) ∈ P ∧
          (⟨i, hi i, false⟩ : LineSweepEvent α) ∉ P := by
  intro P
  induction P using List.reverseRecOn with
  | nil => intro Q _ i; simp
  | append_singleton P e ih =>
    intro Q hE i
    have hE' : E = P ++ (e :: Q) := by rw [hE]; simp
    have ihP := ih (e :: Q) hE'
    have hnd := h.nodup
    rw [hE', List.nodup_append] at hnd
    have heP : e ∉ P := fun he => hnd.2.2 he (List.mem_cons_self _ _)
    have hsorted := h.sorted
    rw [hE', List.pairwise_append] at hsorted
    have hle : ∀ a ∈ P, a.coord ≤ e.coord := fun a ha => hsorted.2.2 a ha e (List.mem_cons_self _ _)
    have heE : e ∈ E := by rw [hE']; simp
    obtain ⟨i0, hi0, he⟩ := h.sound e heE
    rw [List.foldl_append, List.foldl_cons, List.foldl_nil]
    rcases he with he | he
    · -- an enter event
      have hexit : (⟨i0, hi i0, false⟩ : LineSweepEvent α) ∉ P := by
        intro hx
        have := hle _ hx
        rw [he] at this
        exact absurd (h.lt i0 hi0) (not_lt.mpr this)
      subst he
      simp only [setStep, if_true, Finset.mem_insert, List.mem_append, List.mem_singleton,
        LineSweepEvent.mk.injEq, and_true]
      by_cases hii : i = i0
      · subst hii
        simp [hi0, hexit]
      · rw [ihP i]
        simp [hii]
    · -- an exit event
      subst he
      simp only [setStep, Bool.false_eq_true, if_false, Finset.mem_erase, List.mem_append,
        List.mem_singleton, LineSweepEvent.mk.injEq, and_true]
      by_cases hii : i = i0
      · subst hii
        simp
      · rw [ihP i]
        simp [hii]

/-- The enter event of an interval comes before its exit event. -/
theorem SweepEvents.enter_before_exit {A : Finset Nat} {lo hi : Nat → α}
    {E : List (LineSweepEvent α)} (h : SweepEvents A lo hi E)
    (P Q : List (LineSweepEvent α)) (hE : E = P ++ Q) (i : Nat) (hi' : i ∈ A)
    (hx : (⟨i, hi i, false⟩ : LineSweepEvent α) ∈ P) :
    (⟨i, lo i, true⟩ : LineSweepEvent α) ∈ P := by
  have hin := (h.complete i hi').1
  rw [hE] at hin
  rcases List.mem_append.mp hin with hin | hin
  · exact hin
  · exfalso
    have hsorted := h.sorted
    rw [hE, List.pairwise_append] at hsorted
    have := hsorted.2.2 _ hx _ hin
    exact absurd (h.lt i hi') (not_lt.mpr this)

/-- The sum accumulated over a prefix of the events is the value, at the coordinate of the
last event of the prefix, of any function `F` that vanishes left of all intervals and grows
by `(c - t) * G S` across a gap `[t, c)` free of interval ends and covered by the intervals
of `S`. -/
theorem SweepEvents.sum_prefix {A : Finset Nat} {lo hi : Nat → α}
    {E : List (LineSweepEvent α)} (h : SweepEvents A lo hi E)
    (G : Finset Nat → α) (hG0 : ∀ S, 0 ≤ G S) (hGe : G ∅ = 0) (F : α → α)
    (F0 : ∀ t, (∀ i ∈ A, t ≤ lo i) → F t = 0)
    (F1 : ∀ (t c : α) (S : Finset Nat), t < c →
      (∀ i, i ∈ S ↔ i ∈ A ∧ lo i ≤ t ∧ c ≤ hi i) →
      (∀ i ∈ A, (lo i ≤ t ∨ c ≤ lo i) ∧ (hi i ≤ t ∨ c ≤ hi i)) →
      F c = F t + (c - t) * G S) :
    ∀ (P Q : List (LineSweepEvent α)), E = P ++ Q →
      (P = [] → (P.foldl (sweepStep G) (0, 0, ∅)).1 = 0) ∧
      (∀ e, P.getLast? = some e →
        (P.foldl (sweepStep G) (0, 0, ∅)).2.1 = e.coord ∧
        (P.foldl (sweepStep G) (0, 0, ∅)).1 = F e.coord) := by
  intro P
  induction P using List.reverseRecOn with
  | nil => intro Q _; exact ⟨fun _ => rfl, fun e he => by simp at he⟩
  | append_singleton P e ih =>
    intro Q hE
    have hE' : E = P ++ (e :: Q) := by rw [hE]; simp
    obtain ⟨ih0, ih1⟩ := ih (e :: Q) hE'
    have hset := h.set_prefix P (e :: Q) hE'
    have hsorted := h.sorted
    rw [hE', List.pairwise_append, List.pairwise_cons] at hsorted
    obtain ⟨hsP, ⟨heQ, _⟩, hPQ⟩ := hsorted
    refine ⟨fun hnil => by simp at hnil, ?_⟩
    intro e1 he1
    have hl : (P ++ [e]).getLast? = some e := by simp
    rw [hl, Option.some.injEq] at he1
    subst he1
    rw [List.foldl_append, List.foldl_cons, List.foldl_nil]
    refine ⟨rfl, ?_⟩
    have hSt : (P.foldl (sweepStep G) (0, 0, ∅)).2.2 = P.foldl setStep ∅ :=
      sweepStep_fold_set G P _
    have hafter : ∀ a ∈ e :: Q, e.coord ≤ a.coord := by
      intro a ha
      rcases List.mem_cons.mp ha with rfl | ha
      · exact le_rfl
      · exact heQ a ha
    rcases List.eq_nil_or_concat P with hP | ⟨P', e', hP⟩
    rotate_left
    · rw [List.concat_eq_append] at hP
      -- a later event
      have hlast : P.getLast? = some e' := by rw [hP]; simp
      obtain ⟨ht, hacc⟩ := ih1 e' hlast
      have hbefore : ∀ a ∈ P, a.coord ≤ e'.coord := by
        intro a ha
        rw [hP, List.pairwise_append] at hsP
        rw [hP] at ha
        rcases List.mem_append.mp ha with ha | ha
        · exact hsP.2.2 a ha e' (by simp)
        · rw [List.mem_singleton.mp ha]
      have hle : e'.coord ≤ e.coord := hPQ e' (by rw [hP]; simp) e (List.mem_cons_self _ _)
      simp only [sweepStep]
      rw [hSt, ht, hacc]
      rcases hle.eq_or_lt with heq | hlt
      · rw [heq]; simp
      · have hchar : ∀ i, i ∈ P.foldl setStep ∅ ↔ i ∈ A ∧ lo i ≤ e'.coord ∧ e.coord ≤ hi i := by
          intro i
          rw [hset i]
          constructor
          · rintro ⟨hiA, hen, hex⟩
            refine ⟨hiA, hbefore _ hen, ?_⟩
            have := (h.complete i hiA).2
            rw [hE'] at this
            rcases List.mem_append.mp this with hx | hx
            · exact absurd hx hex
            · exact hafter _ hx
          · rintro ⟨hiA, h1, h2⟩
            refine ⟨hiA, ?_, ?_⟩
            · have := (h.complete i hiA).1
              rw [hE'] at this
              rcases List.mem_append.mp this with hx | hx
              · exact hx
              · exact absurd (lt_of_le_of_lt ((hafter _ hx).trans h1) hlt) (lt_irrefl _)
            · intro hx
              exact absurd (lt_of_lt_of_le hlt (h2.trans (hbefore _ hx))) (lt_irrefl _)
        have hgap : ∀ i ∈ A, (lo i ≤ e'.coord ∨ e.coord ≤ lo i) ∧
            (hi i ≤ e'.coord ∨ e.coord ≤ hi i) := by
          intro i hiA
          have h1 := (h.complete i hiA).1
          have h2 := (h.complete i hiA).2
          rw [hE'] at h1 h2
          constructor
          · rcases List.mem_append.mp h1 with hx | hx
            · exact Or.inl (hbefore _ hx)
            · exact Or.inr (hafter _ hx)
          · rcases List.mem_append.mp h2 with hx | hx
            · exact Or.inl (hbefore _ hx)
            · exact Or.inr (hafter _ hx)
        have hF := F1 e'.coord e.coord _ hlt hchar hgap
        rw [hF]
        split
        · rfl
        · have : G (P.foldl setStep ∅) = 0 := le_antisymm (not_lt.mp ‹_›) (hG0 _)
          rw [this]; ring
    · -- the first event
      subst hP
      simp only [List.foldl_nil, sweepStep, hGe, lt_irrefl, if_false]
      symm
      apply F0
      intro i hi'
      have := (h.complete i hi').1
      rw [hE'] at this
      simpa using hafter _ (by simpa using this)

/-- Result of a whole sweep: the value of `F` at the coordinate of the last event, or zero
when there is no event. -/
theorem SweepEvents.sum_total {A : Finset Nat} {lo hi : Nat → α}
    {E : List (LineSweepEvent α)} (h : SweepEvents A lo hi E)
    (G : Finset Nat → α) (hG0 : ∀ S, 0 ≤ G S) (hGe : G ∅ = 0) (F : α → α)
    (F0 : ∀ t, (∀ i ∈ A, t ≤ lo i) → F t = 0)
    (F1 : ∀ (t c : α) (S : Finset Nat), t < c →
      (∀ i, i ∈ S ↔ i ∈ A ∧ lo i ≤ t ∧ c ≤ hi i) →
      (∀ i ∈ A, (lo i ≤ t ∨ c ≤ lo i) ∧ (hi i ≤ t ∨ c ≤ hi i)) →
      F c = F t + (c - t) * G S)
    (V : α) (hV0 : A = ∅ → V = 0) (hV : ∀ t, (∀ i ∈ A, hi i ≤ t) → F t = V) :
    (E.foldl (sweepStep G) (0, 0, ∅)).1 = V := by
  obtain ⟨h0, h1⟩ := h.sum_prefix G hG0 hGe F F0 F1 E [] (by simp)
  rcases List.eq_nil_or_concat E with hE | ⟨E', e, hE⟩
  rotate_left
  · rw [List.concat_eq_append] at hE
    obtain ⟨_, hacc⟩ := h1 e (by rw [hE]; simp)
    rw [hacc]
    apply hV
    intro i hi'
    have hx := (h.complete i hi').2
    have hsorted := h.sorted
    rw [hE, List.pairwise_append] at hsorted
    rw [hE] at hx
    rcases List.mem_append.mp hx with hx | hx
    · exact hsorted.2.2 _ hx e (by simp)
    · rw [← List.mem_singleton.mp hx]
  · rw [h0 hE]
    symm
    apply hV0
    by_contra hA
    obtain ⟨i, hi'⟩ := Finset.nonempty_iff_ne_empty.mpr hA
    have := (h.complete i hi').1
    rw [hE] at this
    simp at this

end SweepAbstract

end SelectRois

namespace SelectRois

/-! ## Line sweep: the events pushed by the code -/

section SweepCode

set_option linter.unusedSectionVars false

variable {α : Type} [LinearOrderedField α]

theorem Insert_eq_iv (clusters : List (Cluster α)) (i dim : Nat) (span lb ub : α)
    (hs : 0 < span) :
    Insert clusters i dim span lb ub =
      if ivLo clusters span lb dim i < ivHi clusters span ub dim i then
        [⟨i, ivLo clusters span lb dim i, true⟩, ⟨i, ivHi clusters span ub dim i, false⟩]
      else [] := by
  cases hc : clusters[i]? with
  | none => simp [Insert_none clusters i dim span lb ub hc, ivLo, ivHi, hc]
  | some c => simp only [Insert_eq clusters i dim span lb ub c hs hc, ivLo, ivHi, hc]

theorem mem_pushAll (clusters : List (Cluster α)) (L : List Nat) (dim : Nat) (span lb ub : α)
    (hs : 0 < span) (e : LineSweepEvent α) :
    e ∈ pushAll clusters L dim span lb ub ↔
      ∃ i ∈ L, ivLo clusters span lb dim i < ivHi clusters span ub dim i ∧
        (e = ⟨i, ivLo clusters span lb dim i, true⟩ ∨
         e = ⟨i, ivHi clusters span ub dim i, false⟩) := by
  unfold pushAll
  rw [List.mem_flatMap]
  constructor
  · rintro ⟨i, hi, he⟩
    rw [Insert_eq_iv clusters i dim span lb ub hs] at he
    split at he
    · refine ⟨i, hi, ‹_›, ?_⟩
      simpa using he
    · simp at he
  · rintro ⟨i, hi, hlt, he⟩
    refine ⟨i, hi, ?_⟩
    rw [Insert_eq_iv clusters i dim span lb ub hs, if_pos hlt]
    simpa using he

theorem nodup_pushAll (clusters : List (Cluster α)) (L : List Nat) (hL : L.Nodup) (dim : Nat)
    (span lb ub : α) (hs : 0 < span) : (pushAll clusters L dim span lb ub).Nodup := by
  induction L with
  | nil => simp [pushAll]
  | cons i L ih =>
    rw [List.nodup_cons] at hL
    have hrest := ih hL.2
    unfold pushAll at hrest ⊢
    rw [List.flatMap_cons, List.nodup_append]
    refine ⟨?_, hrest, ?_⟩
    · rw [Insert_eq_iv clusters i dim span lb ub hs]
      split
      · simp
      · simp
    · intro e he1 he2
      have h2 := (mem_pushAll clusters L dim span lb ub hs e).mp he2
      obtain ⟨j, hj, _, hej⟩ := h2
      rw [Insert_eq_iv clusters i dim span lb ub hs] at he1
      split at he1
      · have hidx : e.index = i := by
          rcases List.mem_cons.mp he1 with h | h
          · rw [h]
          · rw [List.mem_singleton.mp h]
        have hidx' : e.index = j := by
          rcases hej with h | h <;> rw [h]
        exact hL.1 (by rw [← hidx, hidx']; exact hj)
      · simp at he1

/-- The events popped by a sweep of the code over the indices of `L` are the events of the
intervals of `L` that are not empty after clipping. -/
theorem SweepEvents.of_pushAll (clusters : List (Cluster α)) (L : List Nat) (hL : L.Nodup)
    (dim : Nat) (span lb ub : α) (hs : 0 < span) :
    SweepEvents
      (L.toFinset.filter (fun i => ivLo clusters span lb dim i < ivHi clusters span ub dim i))
      (ivLo clusters span lb dim) (ivHi clusters span ub dim)
      (popOrder (pushAll clusters L dim span lb ub)) := by
  have hperm : (popOrder (pushAll clusters L dim span lb ub)).Perm
      (pushAll clusters L dim span lb ub) := List.perm_insertionSort _ _
  have hT : IsTotal (LineSweepEvent α) (fun e1 e2 => e1.coord ≤ e2.coord) :=
    ⟨fun a b => le_total _ _⟩
  have hR : IsTrans (LineSweepEvent α) (fun e1 e2 => e1.coord ≤ e2.coord) :=
    ⟨fun a b c h1 h2 => le_trans h1 h2⟩
  refine ⟨?_, ?_, ?_, ?_, ?_⟩
  · intro i hi
    exact (Finset.mem_filter.mp hi).2
  · intro e he
    obtain ⟨i, hi, hlt, hei⟩ := (mem_pushAll clusters L dim span lb ub hs e).mp (hperm.mem_iff.mp he)
    exact ⟨i, Finset.mem_filter.mpr ⟨List.mem_toFinset.mpr hi, hlt⟩, hei⟩
  · intro i hi
    obtain ⟨hiL, hlt⟩ := Finset.mem_filter.mp hi
    constructor
    · exact hperm.mem_iff.mpr ((mem_pushAll clusters L dim span lb ub hs _).mpr
        ⟨i, List.mem_toFinset.mp hiL, hlt, Or.inl rfl⟩)
    · exact hperm.mem_iff.mpr ((mem_pushAll clusters L dim span lb ub hs _).mpr
        ⟨i, List.mem_toFinset.mp hiL, hlt, Or.inr rfl⟩)
  · exact hperm.nodup_iff.mpr (nodup_pushAll clusters L hL dim span lb ub hs)
  · exact List.sorted_insertionSort (fun (e1 e2 : LineSweepEvent α) => e1.coord ≤ e2.coord)
      (pushAll clusters L dim span lb ub)

theorem AreaStep_fold (clusters : List (Cluster α)) (span : α) (bounds : Box α)
    (P : List (LineSweepEvent α)) :
    (P.foldl (AreaStep clusters span bounds) (0, 0, 0, ∅)).1 =
        (P.foldl (sweepStep (fun S => Length clusters S span bounds)) (0, 0, ∅)).1 ∧
    (P.foldl (AreaStep clusters span bounds) (0, 0, 0, ∅)).2.1 =
        (P.foldl (sweepStep (fun S => Length clusters S span bounds)) (0, 0, ∅)).2.1 ∧
    (P.foldl (AreaStep clusters span bounds) (0, 0, 0, ∅)).2.2.2 =
        (P.foldl (sweepStep (fun S => Length clusters S span bounds)) (0, 0, ∅)).2.2 ∧
    (P.foldl (AreaStep clusters span bounds) (0, 0, 0, ∅)).2.2.1 =
        Length clusters (P.foldl (AreaStep clusters span bounds) (0, 0, 0, ∅)).2.2.2 span
          bounds := by
  induction P using List.reverseRecOn with
  | nil => simp [Length]
  | append_singleton P e ih =>
    obtain ⟨h1, h2, h3, h4⟩ := ih
    simp only [List.foldl_append, List.foldl_cons, List.foldl_nil]
    refine ⟨?_, rfl, ?_, rfl⟩
    · simp only [AreaStep, sweepStep]
      rw [h4, h1, h2, h3]
    · simp only [AreaStep, sweepStep, setStep]
      rw [h3]

theorem VolumeStep_fold (clusters : List (Cluster α)) (span : α) (bounds : Box α)
    (P : List (LineSweepEvent α)) :
    (P.foldl (VolumeStep clusters span bounds) (0, 0, 0, ∅)).1 =
        (P.foldl (sweepStep (fun S => Area clusters S span bounds)) (0, 0, ∅)).1 ∧
    (P.foldl (VolumeStep clusters span bounds) (0, 0, 0, ∅)).2.1 =
        (P.foldl (sweepStep (fun S => Area clusters S span bounds)) (0, 0, ∅)).2.1 ∧
    (P.foldl (VolumeStep clusters span bounds) (0, 0, 0, ∅)).2.2.2 =
        (P.foldl (sweepStep (fun S => Area clusters S span bounds)) (0, 0, ∅)).2.2 ∧
    (P.foldl (VolumeStep clusters span bounds) (0, 0, 0, ∅)).2.2.1 =
        Area clusters (P.foldl (VolumeStep clusters span bounds) (0, 0, 0, ∅)).2.2.2 span
          bounds := by
  induction P using List.reverseRecOn with
  | nil => simp [Area]
  | append_singleton P e ih =>
    obtain ⟨h1, h2, h3, h4⟩ := ih
    simp only [List.foldl_append, List.foldl_cons, List.foldl_nil]
    refine ⟨?_, rfl, ?_, rfl⟩
    · simp only [VolumeStep, sweepStep]
      rw [h4, h1, h2, h3]
    · simp only [VolumeStep, sweepStep, setStep]
      rw [h3]

/-- The counter of `Length` is the number of intersected intervals, and its sum is that of
the sweep weighted by 1 on a non-empty intersected set. -/
theorem LengthStep_fold {A : Finset Nat} {lo hi : Nat → α} {E : List (LineSweepEvent α)}
    (h : SweepEvents A lo hi E) :
    ∀ (P Q : List (LineSweepEvent α)), E = P ++ Q →
      (P.foldl LengthStep (0, 0, 0)).1 =
        (P.foldl (sweepStep (fun S => if S.Nonempty then (1 : α) else 0)) (0, 0, ∅)).1 ∧
      (P.foldl LengthStep (0, 0, 0)).2.1 =
        (P.foldl (sweepStep (fun S => if S.Nonempty then (1 : α) else 0)) (0, 0, ∅)).2.1 ∧
      (P.foldl LengthStep (0, 0, 0)).2.2 = ((P.foldl setStep ∅).card : Int) := by
  intro P
  induction P using List.reverseRecOn with
  | nil => intro Q _; simp
  | append_singleton P e ih =>
    intro Q hE
    have hE' : E = P ++ (e :: Q) := by rw [hE]; simp
    obtain ⟨h1, h2, h3⟩ := ih (e :: Q) hE'
    have hset := h.set_prefix P (e :: Q) hE'
    have hSt := sweepStep_fold_set (fun S => if S.Nonempty then (1 : α) else 0) P (0, 0, ∅)
    have hnd := h.nodup
    rw [hE', List.nodup_append] at hnd
    have heP : e ∉ P := fun he => hnd.2.2 he (List.mem_cons_self _ _)
    simp only [List.foldl_append, List.foldl_cons, List.foldl_nil]
    refine ⟨?_, rfl, ?_⟩
    · simp only [LengthStep, sweepStep]
      rw [h1, h2, h3, hSt]
      by_cases hne : (P.foldl setStep ∅).Nonempty
      · have hpos : (0 : Int) < ((P.foldl setStep ∅).card : Int) := by
          exact_mod_cast Finset.card_pos.mpr hne
        simp [hne, hpos]
      · have hzero : (P.foldl setStep ∅).card = 0 := by
          rw [Finset.card_eq_zero]
          exact Finset.not_nonempty_iff_eq_empty.mp hne
        simp [hne, hzero]
    · simp only [LengthStep]
      rw [h3]
      obtain ⟨i0, hi0, he⟩ := h.sound e (by rw [hE']; simp)
      rcases he with he | he
      · have hnot : i0 ∉ P.foldl setStep ∅ := by
          rw [hset i0]
          rintro ⟨_, hen, _⟩
          exact heP (by rw [he]; exact hen)
        subst he
        simp only [setStep, if_true]
        rw [Finset.card_insert_of_not_mem hnot]
        push_cast
        ring
      · have hin : i0 ∈ P.foldl setStep ∅ := by
          rw [hset i0]
          refine ⟨hi0, ?_, fun hx => heP (by rw [he]; exact hx)⟩
          have := h.enter_before_exit (P ++ [e]) Q hE i0 hi0 (by rw [he]; simp)
          rcases List.mem_append.mp this with hx | hx
          · exact hx
          · rw [List.mem_singleton] at hx
            rw [he] at hx
            simp at hx
        subst he
        simp only [setStep, Bool.false_eq_true, if_false]
        rw [Finset.card_erase_of_mem hin]
        have : 1 ≤ (P.foldl setStep ∅).card := Finset.card_pos.mpr ⟨i0, hin⟩
        omega

end SweepCode

end SelectRois

namespace SelectRois

/-! ## Line sweep: the swept sum is a measure -/

section SweepMeasure

open MeasureTheory Set

/-- Measure below a height `c` is the measure below `t` plus the measure of the slab between
`t` and `c`. -/
theorem measure_below_split {Ω : Type} [MeasurableSpace Ω] (μ : Measure Ω) (h : Ω → ℝ)
    (hh : Measurable h) (U : Set Ω) (hU : μ U ≠ ⊤) (t c : ℝ) (htc : t ≤ c) :
    (μ (U ∩ (Set.preimage h (Iio c)))).toReal =
      (μ (U ∩ (Set.preimage h (Iio t)))).toReal + (μ (U ∩ (Set.preimage h (Ico t c)))).toReal := by
  have hm : MeasurableSet ((Set.preimage h (Iio t))) := hh measurableSet_Iio
  have hsplit := @measure_inter_add_diff Ω _ μ _ (U ∩ (Set.preimage h (Iio c))) hm
  have h1 : (U ∩ (Set.preimage h (Iio c))) ∩ (Set.preimage h (Iio t)) = U ∩ (Set.preimage h (Iio t)) := by
    ext x
    simp only [mem_inter_iff, mem_preimage, mem_Iio]
    constructor
    · rintro ⟨⟨hx, _⟩, h2⟩; exact ⟨hx, h2⟩
    · rintro ⟨hx, h2⟩; exact ⟨⟨hx, lt_of_lt_of_le h2 htc⟩, h2⟩
  have h2 : (U ∩ (Set.preimage h (Iio c))) \ (Set.preimage h (Iio t)) = U ∩ (Set.preimage h (Ico t c)) := by
    ext x
    simp only [mem_inter_iff, mem_preimage, mem_Iio, mem_diff, mem_Ico, not_lt]
    constructor
    · rintro ⟨⟨hx, h3⟩, h4⟩; exact ⟨hx, h4, h3⟩
    · rintro ⟨hx, h4, h3⟩; exact ⟨⟨hx, h3⟩, h4⟩
  rw [h1, h2] at hsplit
  have hfin : ∀ V : Set Ω, μ (U ∩ V) ≠ ⊤ := fun V =>
    ne_top_of_le_ne_top hU (measure_mono inter_subset_left)
  rw [← hsplit, ENNReal.toReal_add (hfin _) (hfin _)]

/-- A sweep over events of sets `W i` lying between the heights `lo i` and `hi i` sums to
the measure of their union, when the weight of the intersected set times the width is the
measure of every slab between two neighbouring events. -/
theorem sweep_measure {Ω : Type} [MeasurableSpace Ω] (μ : Measure Ω) (h : Ω → ℝ)
    (hh : Measurable h) (W : Nat → Set Ω) (A : Finset Nat) (lo hi : Nat → ℝ)
    (hW : ∀ i ∈ A, W i ⊆ (Set.preimage h (Ico (lo i) (hi i)))) (hfin : ∀ i ∈ A, μ (W i) < ⊤)
    (G : Finset Nat → ℝ) (hG0 : ∀ S, 0 ≤ G S) (hGe : G ∅ = 0)
    (hslab : ∀ (t c : ℝ) (S : Finset Nat), t < c →
      (∀ i, i ∈ S ↔ i ∈ A ∧ lo i ≤ t ∧ c ≤ hi i) →
      (∀ i ∈ A, (lo i ≤ t ∨ c ≤ lo i) ∧ (hi i ≤ t ∨ c ≤ hi i)) →
      (μ ((⋃ i ∈ A, W i) ∩ (Set.preimage h (Ico t c)))).toReal = (c - t) * G S)
    (E : List (LineSweepEvent ℝ)) (hE : SweepEvents A lo hi E) :
    (E.foldl (sweepStep G) (0, 0, ∅)).1 = (μ (⋃ i ∈ A, W i)).toReal := by
  have hUfin : μ (⋃ i ∈ A, W i) ≠ ⊤ := by
    have := @measure_biUnion_lt_top Ω Nat _ μ (↑A) W A.finite_toSet (fun i hi' => hfin i hi')
    exact ne_of_lt (by simpa using this)
  apply hE.sum_total G hG0 hGe (fun t => (μ ((⋃ i ∈ A, W i) ∩ (Set.preimage h (Iio t)))).toReal)
  · intro t ht
    have : (⋃ i ∈ A, W i) ∩ (Set.preimage h (Iio t)) = ∅ := by
      ext x
      simp only [mem_inter_iff, mem_iUnion, exists_prop, mem_preimage, mem_Iio,
        mem_empty_iff_false, iff_false, not_and, not_lt, forall_exists_index, and_imp]
      intro i hi' hx
      exact (ht i hi').trans (hW i hi' hx).1
    simp only [this, measure_empty, ENNReal.zero_toReal]
  · intro t c S htc hS hgap
    rw [measure_below_split μ h hh _ hUfin t c htc.le, hslab t c S htc hS hgap]
  · intro hA
    simp [hA]
  · intro t ht
    have : (⋃ i ∈ A, W i) ∩ (Set.preimage h (Iio t)) = ⋃ i ∈ A, W i := by
      apply inter_eq_left.mpr
      intro x hx
      simp only [mem_iUnion, exists_prop] at hx
      obtain ⟨i, hi', hx⟩ := hx
      exact lt_of_lt_of_le (hW i hi' hx).2 (ht i hi')
    rw [this]

/-- Sweep along the real line: the weight is 1 where some interval is intersected. -/
theorem sweep_line (A : Finset Nat) (lo hi : Nat → ℝ) (E : List (LineSweepEvent ℝ))
    (hE : SweepEvents A lo hi E) :
    (E.foldl (sweepStep (fun S => if S.Nonempty then (1 : ℝ) else 0)) (0, 0, ∅)).1 =
      (volume (⋃ i ∈ A, Ico (lo i) (hi i))).toReal := by
  apply sweep_measure volume id measurable_id (fun i => Ico (lo i) (hi i)) A lo hi
  · intro i _; simp
  · intro i _; simp [Real.volume_Ico]
  · intro S; dsimp only; split <;> norm_num
  · simp
  · intro t c S htc hS hgap
    by_cases hne : S.Nonempty
    · have : (⋃ i ∈ A, Ico (lo i) (hi i)) ∩ (Set.preimage id (Ico t c)) = Ico t c := by
        apply inter_eq_right.mpr
        intro x hx
        obtain ⟨i, hi'⟩ := hne
        obtain ⟨hiA, h1, h2⟩ := (hS i).mp hi'
        simp only [mem_iUnion, exists_prop]
        exact ⟨i, hiA, h1.trans hx.1, lt_of_lt_of_le hx.2 h2⟩
      rw [this, Real.volume_Ico, ENNReal.toReal_ofReal (by linarith)]
      simp [hne]
    · have : (⋃ i ∈ A, Ico (lo i) (hi i)) ∩ (Set.preimage id (Ico t c)) = ∅ := by
        ext x
        simp only [mem_inter_iff, mem_iUnion, exists_prop, mem_preimage, id, mem_Ico,
          mem_empty_iff_false, iff_false, not_and, forall_exists_index, and_imp]
        intro i hiA h1 h2 h3 h4
        apply hne
        refine ⟨i, (hS i).mpr ⟨hiA, ?_, ?_⟩⟩
        · rcases (hgap i hiA).1 with h | h
          · exact h
          · exact absurd (lt_of_le_of_lt (h.trans h1) h4) (lt_irrefl _)
        · rcases (hgap i hiA).2 with h | h
          · exact absurd (lt_of_le_of_lt h3 (lt_of_lt_of_le h2 h)) (lt_irrefl _)
          · exact h
      rw [this]
      simp [hne]
  · exact hE

/-- Sweep along the last coordinate of a product: the weight of an intersected set is the
measure of the union of its base sets. -/
theorem sweep_prod {β : Type} [MeasurableSpace β] (ν : Measure β) [SFinite ν]
    (B : Nat → Set β) (A : Finset Nat) (lo hi : Nat → ℝ) (hfin : ∀ i ∈ A, ν (B i) < ⊤)
    (G : Finset Nat → ℝ) (hG : ∀ S, S ⊆ A → G S = (ν (⋃ i ∈ S, B i)).toReal)
    (hG0 : ∀ S, 0 ≤ G S) (hGe : G ∅ = 0)
    (E : List (LineSweepEvent ℝ)) (hE : SweepEvents A lo hi E) :
    (E.foldl (sweepStep G) (0, 0, ∅)).1 =
      ((ν.prod volume) (⋃ i ∈ A, B i ×ˢ Ico (lo i) (hi i))).toReal := by
  apply sweep_measure (ν.prod volume) Prod.snd measurable_snd
    (fun i => B i ×ˢ Ico (lo i) (hi i)) A lo hi
  · intro i _ x hx
    exact hx.2
  · intro i hi'
    rw [Measure.prod_prod, Real.volume_Ico]
    exact ENNReal.mul_lt_top (hfin i hi') ENNReal.ofReal_lt_top
  · exact hG0
  · exact hGe
  · intro t c S htc hS hgap
    have hsub : S ⊆ A := fun i hi' => ((hS i).mp hi').1
    have : (⋃ i ∈ A, B i ×ˢ Ico (lo i) (hi i)) ∩ (Set.preimage Prod.snd (Ico t c)) =
        (⋃ i ∈ S, B i) ×ˢ Ico t c := by
      ext x
      simp only [mem_inter_iff, mem_iUnion, exists_prop, mem_preimage, mem_prod, mem_Ico]
      constructor
      · rintro ⟨⟨i, hiA, hb, h1, h2⟩, h3, h4⟩
        refine ⟨⟨i, (hS i).mpr ⟨hiA, ?_, ?_⟩, hb⟩, h3, h4⟩
        · rcases (hgap i hiA).1 with h | h
          · exact h
          · exact absurd (lt_of_le_of_lt (h.trans h1) h4) (lt_irrefl _)
        · rcases (hgap i hiA).2 with h | h
          · exact absurd (lt_of_le_of_lt h3 (lt_of_lt_of_le h2 h)) (lt_irrefl _)
          · exact h
      · rintro ⟨⟨i, hiS, hb⟩, h3, h4⟩
        obtain ⟨hiA, h1, h2⟩ := (hS i).mp hiS
        exact ⟨⟨i, hiA, hb, h1.trans h3, lt_of_lt_of_le h4 h2⟩, h3, h4⟩
    rw [this, Measure.prod_prod, Real.volume_Ico, ENNReal.toReal_mul,
      ENNReal.toReal_ofReal (by linarith), hG S hsub]
    ring
  · exact hE

end SweepMeasure

end SelectRois

namespace SelectRois

/-! ## Length, Area and Volume as measures of unions of half-open boxes -/

section SweepLevels

open MeasureTheory Set

theorem biUnion_filter_Ico {Ω : Type} (S : Finset Nat) (lo hi : Nat → ℝ) (W : Nat → Set Ω)
    (hW : ∀ i, ¬ lo i < hi i → W i = ∅) :
    (⋃ i ∈ S.filter (fun i => lo i < hi i), W i) = ⋃ i ∈ S, W i := by
  ext x
  simp only [mem_iUnion, exists_prop, Finset.mem_filter]
  constructor
  · rintro ⟨i, ⟨hiS, _⟩, hx⟩; exact ⟨i, hiS, hx⟩
  · rintro ⟨i, hiS, hx⟩
    refine ⟨i, ⟨hiS, ?_⟩, hx⟩
    by_contra hlt
    rw [hW i hlt] at hx
    exact hx

/-- Function `Length` returns the length of the union of the clipped first-axis intervals
of the active clusters. -/
theorem Length_eq_measure (clusters : List (Cluster ℝ)) (S : Finset Nat) (span : ℝ)
    (bounds : Box ℝ) (hs : 0 < span) :
    Length clusters S span bounds =
      (volume (⋃ i ∈ S, Ico (ivLo clusters span bounds.b0 0 i)
        (ivHi clusters span bounds.b1 0 i))).toReal := by
  by_cases hS : S = ∅
  · subst hS
    simp [Length]
  · unfold Length
    rw [if_neg hS]
    dsimp only
    have hE := SweepEvents.of_pushAll clusters (S.sort (· ≤ ·)) (Finset.sort_nodup _ _) 0 span
      bounds.b0 bounds.b1 hs
    rw [Finset.sort_toFinset] at hE
    rw [(LengthStep_fold hE _ [] (by simp)).1, sweep_line _ _ _ _ hE]
    rw [biUnion_filter_Ico S _ _ (fun i => Ico (ivLo clusters span bounds.b0 0 i)
        (ivHi clusters span bounds.b1 0 i)) (fun i hlt => Ico_eq_empty hlt)]

theorem Length_nonneg (clusters : List (Cluster ℝ)) (S : Finset Nat) (span : ℝ)
    (bounds : Box ℝ) (hs : 0 < span) : 0 ≤ Length clusters S span bounds := by
  rw [Length_eq_measure clusters S span bounds hs]
  exact ENNReal.toReal_nonneg

/-- Function `Area` returns the area of the union of the clipped rectangles of the active
clusters over the first two axes. -/
theorem Area_eq_measure (clusters : List (Cluster ℝ)) (S : Finset Nat) (span : ℝ)
    (bounds : Box ℝ) (hs : 0 < span) :
    Area clusters S span bounds =
      ((volume : Measure (ℝ × ℝ)) (⋃ i ∈ S,
        Ico (ivLo clusters span bounds.b0 0 i) (ivHi clusters span bounds.b1 0 i) ×ˢ
        Ico (ivLo clusters span bounds.b2 1 i) (ivHi clusters span bounds.b3 1 i))).toReal := by
  by_cases hS : S = ∅
  · subst hS
    simp [Area]
  · unfold Area
    rw [if_neg hS]
    dsimp only
    have hE := SweepEvents.of_pushAll clusters (S.sort (· ≤ ·)) (Finset.sort_nodup _ _) 1 span
      bounds.b2 bounds.b3 hs
    rw [Finset.sort_toFinset] at hE
    rw [(AreaStep_fold clusters span bounds _).1]
    rw [sweep_prod volume
      (fun i => Ico (ivLo clusters span bounds.b0 0 i) (ivHi clusters span bounds.b1 0 i))
      _ _ _ (fun i _ => by simp [Real.volume_Ico])
      (fun S' => Length clusters S' span bounds)
      (fun S' _ => Length_eq_measure clusters S' span bounds hs)
      (fun S' => Length_nonneg clusters S' span bounds hs) (by simp [Length]) _ hE]
    rw [biUnion_filter_Ico S _ _ (fun i =>
        Ico (ivLo clusters span bounds.b0 0 i) (ivHi clusters span bounds.b1 0 i) ×ˢ
        Ico (ivLo clusters span bounds.b2 1 i) (ivHi clusters span bounds.b3 1 i))
        (fun i hlt => by dsimp only; rw [Ico_eq_empty hlt, prod_empty])]
    rfl

theorem Area_nonneg (clusters : List (Cluster ℝ)) (S : Finset Nat) (span : ℝ)
    (bounds : Box ℝ) (hs : 0 < span) : 0 ≤ Area clusters S span bounds := by
  rw [Area_eq_measure clusters S span bounds hs]
  exact ENNReal.toReal_nonneg

/-- Function `Volume` returns the volume of the union of the clipped boxes of the clusters,
taken half-open and with the third axis last. -/
theorem Volume_eq_measure (clusters : List (Cluster ℝ)) (span : ℝ) (bounds : Box ℝ)
    (hs : 0 < span) :
    Volume clusters span bounds =
      ((volume : Measure ((ℝ × ℝ) × ℝ)) (⋃ i ∈ Finset.range clusters.length,
        (Ico (ivLo clusters span bounds.b0 0 i) (ivHi clusters span bounds.b1 0 i) ×ˢ
         Ico (ivLo clusters span bounds.b2 1 i) (ivHi clusters span bounds.b3 1 i)) ×ˢ
        Ico (ivLo clusters span bounds.b4 2 i) (ivHi clusters span bounds.b5 2 i))).toReal := by
  unfold Volume
  dsimp only
  have hE := SweepEvents.of_pushAll clusters (List.range clusters.length) (List.nodup_range _) 2
    span bounds.b4 bounds.b5 hs
  have hrange : (List.range clusters.length).toFinset = Finset.range clusters.length := by
    ext i; simp
  rw [hrange] at hE
  rw [(VolumeStep_fold clusters span bounds _).1]
  rw [sweep_prod (volume : Measure (ℝ × ℝ))
    (fun i => Ico (ivLo clusters span bounds.b0 0 i) (ivHi clusters span bounds.b1 0 i) ×ˢ
      Ico (ivLo clusters span bounds.b2 1 i) (ivHi clusters span bounds.b3 1 i))
    _ _ _ (fun i _ => by
      rw [Measure.volume_eq_prod, Measure.prod_prod, Real.volume_Ico, Real.volume_Ico]
      exact ENNReal.mul_lt_top ENNReal.ofReal_lt_top ENNReal.ofReal_lt_top)
    (fun S' => Area clusters S' span bounds)
    (fun S' _ => Area_eq_measure clusters S' span bounds hs)
    (fun S' => Area_nonneg clusters S' span bounds hs) (by simp [Area]) _ hE]
  rw [biUnion_filter_Ico (Finset.range clusters.length) _ _ (fun i =>
      (Ico (ivLo clusters span bounds.b0 0 i) (ivHi clusters span bounds.b1 0 i) ×ˢ
       Ico (ivLo clusters span bounds.b2 1 i) (ivHi clusters span bounds.b3 1 i)) ×ˢ
      Ico (ivLo clusters span bounds.b4 2 i) (ivHi clusters span bounds.b5 2 i))
      (fun i hlt => by dsimp only; rw [Ico_eq_empty hlt, prod_empty])]
  rfl

end SweepLevels

end SelectRois

namespace SelectRois

/-! ## Volume of the covered part of a box -/

section Covered

open MeasureTheory Set

theorem ivLo_some (clusters : List (Cluster ℝ)) (span lb : ℝ) (dim i : Nat) (c : Cluster ℝ)
    (hc : clusters[i]? = some c) :
    ivLo clusters span lb dim i = max lb (comp dim c.center - span / 2) := by
  simp [ivLo, hc]

theorem ivHi_some (clusters : List (Cluster ℝ)) (span ub : ℝ) (dim i : Nat) (c : Cluster ℝ)
    (hc : clusters[i]? = some c) :
    ivHi clusters span ub dim i = min ub (comp dim c.center + span / 2) := by
  simp [ivHi, hc]

/-- The covered part of the box is the union of the clipped closed boxes of the clusters. -/
theorem coveredSet_eq_iUnion (clusters : List (Cluster ℝ)) (span : ℝ) (box : Box ℝ) :
    coveredSet clusters span box =
      ⋃ i ∈ Finset.range clusters.length,
        Icc (ivLo clusters span box.b0 0 i) (ivHi clusters span box.b1 0 i) ×ˢ
          (Icc (ivLo clusters span box.b2 1 i) (ivHi clusters span box.b3 1 i) ×ˢ
           Icc (ivLo clusters span box.b4 2 i) (ivHi clusters span box.b5 2 i)) := by
  ext p
  simp only [coveredSet, boxSet, cubeSet, mem_inter_iff, mem_iUnion, exists_prop, mem_prod,
    mem_Icc, Finset.mem_range]
  constructor
  · rintro ⟨⟨⟨h1, h2⟩, ⟨h3, h4⟩, h5, h6⟩, c, hc, ⟨h7, h8⟩, ⟨h9, h10⟩, h11, h12⟩
    obtain ⟨i, hi, hci⟩ := List.getElem_of_mem hc
    have hget : clusters[i]? = some c := by rw [List.getElem?_eq_getElem hi, hci]
    refine ⟨i, hi, ?_⟩
    simp only [ivLo_some _ _ _ _ _ c hget, ivHi_some _ _ _ _ _ c hget, comp, max_le_iff,
      le_min_iff]
    exact ⟨⟨⟨h1, h7⟩, h2, h8⟩, ⟨⟨h3, h9⟩, h4, h10⟩, ⟨h5, h11⟩, h6, h12⟩
  · rintro ⟨i, hi, hp⟩
    have hget : clusters[i]? = some clusters[i] := List.getElem?_eq_getElem hi
    simp only [ivLo_some _ _ _ _ _ _ hget, ivHi_some _ _ _ _ _ _ hget, comp, max_le_iff,
      le_min_iff] at hp
    obtain ⟨⟨⟨h1, h7⟩, h2, h8⟩, ⟨⟨h3, h9⟩, h4, h10⟩, ⟨h5, h11⟩, h6, h12⟩ := hp
    exact ⟨⟨⟨h1, h2⟩, ⟨h3, h4⟩, h5, h6⟩, clusters[i], List.getElem_mem _, ⟨h7, h8⟩,
      ⟨h9, h10⟩, h11, h12⟩

theorem volume_box_Icc_eq_Ico (S : Finset Nat) (a0 b0 a1 b1 a2 b2 : Nat → ℝ) :
    (volume : Measure (ℝ × ℝ × ℝ))
        (⋃ i ∈ S, Icc (a0 i) (b0 i) ×ˢ (Icc (a1 i) (b1 i) ×ˢ Icc (a2 i) (b2 i))) =
      (volume : Measure ((ℝ × ℝ) × ℝ))
        (⋃ i ∈ S, (Ico (a0 i) (b0 i) ×ˢ Ico (a1 i) (b1 i)) ×ˢ Ico (a2 i) (b2 i)) := by
  have hae : (⋃ i ∈ S, Icc (a0 i) (b0 i) ×ˢ (Icc (a1 i) (b1 i) ×ˢ Icc (a2 i) (b2 i)))
      =ᵐ[(volume : Measure (ℝ × ℝ × ℝ))]
      (⋃ i ∈ S, Ico (a0 i) (b0 i) ×ˢ (Ico (a1 i) (b1 i) ×ˢ Ico (a2 i) (b2 i))) := by
    apply EventuallyEq.countable_iUnion
    intro i
    apply EventuallyEq.countable_iUnion
    intro _
    rw [Measure.volume_eq_prod ℝ (ℝ × ℝ), Measure.volume_eq_prod ℝ ℝ]
    exact Measure.set_prod_ae_eq Ico_ae_eq_Icc.symm
      (Measure.set_prod_ae_eq Ico_ae_eq_Icc.symm Ico_ae_eq_Icc.symm)
  rw [measure_congr hae]
  have hpre : Set.preimage (MeasurableEquiv.prodAssoc : (ℝ × ℝ) × ℝ ≃ᵐ ℝ × ℝ × ℝ)
      (⋃ i ∈ S, Ico (a0 i) (b0 i) ×ˢ (Ico (a1 i) (b1 i) ×ˢ Ico (a2 i) (b2 i))) =
      ⋃ i ∈ S, (Ico (a0 i) (b0 i) ×ˢ Ico (a1 i) (b1 i)) ×ˢ Ico (a2 i) (b2 i) := by
    ext p
    simp only [mem_preimage, mem_iUnion, exists_prop, mem_prod, MeasurableEquiv.prodAssoc,
      MeasurableEquiv.coe_mk, Equiv.prodAssoc_apply, and_assoc]
  rw [← hpre]
  have hmp := measurePreserving_prodAssoc (volume : Measure ℝ) (volume : Measure ℝ)
    (volume : Measure ℝ)
  exact (hmp.measure_preimage_equiv _).symm

/-- Function `Volume` returns the volume of the part of the box covered by the cubes. -/
theorem Volume_eq_covered (clusters : List (Cluster ℝ)) (span : ℝ) (box : Box ℝ)
    (hs : 0 < span) :
    Volume clusters span box = (volume (coveredSet clusters span box)).toReal := by
  rw [Volume_eq_measure clusters span box hs, coveredSet_eq_iUnion, volume_box_Icc_eq_Ico]

theorem volume_boxSet (box : Box ℝ) (h0 : box.b0 ≤ box.b1) (h1 : box.b2 ≤ box.b3)
    (h2 : box.b4 ≤ box.b5) : (volume (boxSet box)).toReal = BoxVolume box := by
  unfold boxSet BoxVolume
  rw [Measure.volume_eq_prod ℝ (ℝ × ℝ), Measure.prod_prod, Measure.volume_eq_prod ℝ ℝ,
    Measure.prod_prod, Real.volume_Icc, Real.volume_Icc, Real.volume_Icc, ENNReal.toReal_mul,
    ENNReal.toReal_mul, ENNReal.toReal_ofReal (by linarith), ENNReal.toReal_ofReal (by linarith),
    ENNReal.toReal_ofReal (by linarith)]
  ring

end Covered

end SelectRois

namespace SelectRois

/-! ## Mask erosion -/

section Erosion

set_option linter.unusedSectionVars false

variable {α : Type} [LinearOrderedField α]

theorem ErodePass_lt (mesh : Mesh α) (input output : Nat → Nat) (p : Nat)
    (hp : p < mesh.npts) :
    ErodePass mesh input output p =
      if (mesh.GetPointCells p).any (fun cellId =>
          (mesh.GetCellPoints cellId).any (fun q => decide (input q = 0))) then 0 else 1 := by
  simp only [ErodePass, if_pos hp]

/-- Value written by a pass at a point: 1 exactly when no point of a cell of the point is 0
in the input. -/
theorem ErodePass_eq_one_iff (mesh : Mesh α) (input output : Nat → Nat) (p : Nat)
    (hp : p < mesh.npts) :
    ErodePass mesh input output p ≠ 0 ↔
      ∀ cell ∈ mesh.cells, p ∈ cell → ∀ q ∈ cell, input q ≠ 0 := by
  rw [ErodePass_lt mesh input output p hp]
  constructor
  · intro h cell hcell hpc q hq hzero
    apply h
    rw [if_pos]
    rw [List.any_eq_true]
    obtain ⟨i, hi⟩ := List.mem_iff_get.mp hcell
    refine ⟨i.1, ?_, ?_⟩
    · simp only [Mesh.GetPointCells, List.mem_filter, List.mem_range, decide_eq_true_eq]
      refine ⟨i.2, ?_⟩
      simp only [Mesh.GetCellPoints, List.getD_eq_getElem _ _ i.2]
      rw [← List.get_eq_getElem, hi]
      exact hpc
    · rw [List.any_eq_true]
      refine ⟨q, ?_, by simpa using hzero⟩
      simp only [Mesh.GetCellPoints, List.getD_eq_getElem _ _ i.2]
      rw [← List.get_eq_getElem, hi]
      exact hq
  · intro h
    rw [if_neg]
    · decide
    · intro hany
      rw [List.any_eq_true] at hany
      obtain ⟨c, hc, hany⟩ := hany
      rw [List.any_eq_true] at hany
      obtain ⟨q, hq, hzero⟩ := hany
      simp only [Mesh.GetPointCells, List.mem_filter, List.mem_range, decide_eq_true_eq] at hc
      obtain ⟨hlt, hpc⟩ := hc
      simp only [Mesh.GetCellPoints, List.getD_eq_getElem _ _ hlt] at hpc hq
      exact h _ (List.getElem_mem hlt) hpc q hq (by simpa using hzero)

theorem ErodePass_congr (mesh : Mesh α) (hwf : mesh.WellFormed) (input input' output output' :
    Nat → Nat) (h : ∀ q, q < mesh.npts → input q = input' q) (p : Nat) (hp : p < mesh.npts) :
    ErodePass mesh input output p = ErodePass mesh input' output' p := by
  have h1 := ErodePass_eq_one_iff mesh input output p hp
  have h2 := ErodePass_eq_one_iff mesh input' output' p hp
  have hiff : ErodePass mesh input output p ≠ 0 ↔ ErodePass mesh input' output' p ≠ 0 := by
    rw [h1, h2]
    constructor
    · intro hh cell hcell hpc q hq
      rw [← h q (hwf cell hcell q hq)]
      exact hh cell hcell hpc q hq
    · intro hh cell hcell hpc q hq
      rw [h q (hwf cell hcell q hq)]
      exact hh cell hcell hpc q hq
  have hval : ∀ (i o : Nat → Nat), ErodePass mesh i o p = 0 ∨ ErodePass mesh i o p = 1 := by
    intro i o
    rw [ErodePass_lt mesh i o p hp]
    split
    · exact Or.inl rfl
    · exact Or.inr rfl
  rcases hval input output with ha | ha <;> rcases hval input' output' with hb | hb
  · rw [ha, hb]
  · exfalso; rw [ha, hb] at hiff; simp at hiff
  · exfalso; rw [ha, hb] at hiff; simp at hiff
  · rw [ha, hb]

/-- After `j + 1` rounds of the loop of `ErodePointMask` the output buffer holds, at the points
of the mesh, the `j + 1`-fold erosion of the mask and the input buffer the `j`-fold one. -/
theorem ErodeIter_fold (mesh : Mesh α) (hwf : mesh.WellFormed) (mask : Nat → Nat) (j : Nat) :
    (∀ p, p < mesh.npts →
      ((List.range (j + 1)).foldl (ErodeIter mesh) (mask, newMaskArray)).2 p =
        ((fun m => ErodePass mesh m newMaskArray)^[j + 1] mask) p) ∧
    (∀ p, p < mesh.npts →
      ((List.range (j + 1)).foldl (ErodeIter mesh) (mask, newMaskArray)).1 p =
        ((fun m => ErodePass mesh m newMaskArray)^[j] mask) p) := by
  induction j with
  | zero =>
    have h1 : List.range (0 + 1) = [0] := rfl
    rw [h1]
    exact ⟨fun p _ => rfl, fun p _ => rfl⟩
  | succ j ih =>
    obtain ⟨ih2, ih1⟩ := ih
    rw [List.range_succ, List.foldl_append, List.foldl_cons, List.foldl_nil]
    have hbuf : ∀ st : (Nat → Nat) × (Nat → Nat),
        (ErodeIter mesh st (j + 1)).1 = st.2 ∧
        ∃ o, (ErodeIter mesh st (j + 1)).2 = ErodePass mesh st.2 o := by
      intro st
      unfold ErodeIter
      by_cases h1 : j + 1 = 1
      · rw [if_pos h1]
        exact ⟨rfl, _, rfl⟩
      · have h2 : 1 < j + 1 := by omega
        rw [if_neg h1, if_pos h2]
        exact ⟨rfl, _, rfl⟩
    obtain ⟨hb1, o, hb2⟩ := hbuf ((List.range (j + 1)).foldl (ErodeIter mesh) (mask, newMaskArray))
    constructor
    · intro p hp
      rw [hb2, Function.iterate_succ_apply']
      exact ErodePass_congr mesh hwf _ _ _ _ ih2 p hp
    · intro p hp
      rw [hb1]
      exact ih2 p hp

/-- For an iteration count `k` of at least 2 the array `ErodePointMask` returns holds, at the
points of the mesh, the `k`-fold erosion of the mask. -/
theorem ErodePointMask_iterate (mesh : Mesh α) (hwf : mesh.WellFormed) (mask : Nat → Nat)
    (k : Nat) (hk : 2 ≤ k) (p : Nat) (hp : p < mesh.npts) :
    ErodePointMask mesh mask (k : Int) p =
      ((fun m => ErodePass mesh m newMaskArray)^[k] mask) p := by
  obtain ⟨j, rfl⟩ : ∃ j, k = j + 1 := ⟨k - 1, by omega⟩
  unfold ErodePointMask
  rw [if_pos (by omega), Int.toNat_natCast]
  exact (ErodeIter_fold mesh hwf mask j).1 p hp

/-- One erosion of an array that is itself the result of an erosion only removes valid
points; so does one erosion of any array on a mesh whose every point has a cell. -/
theorem ErodePass_shrinks (mesh : Mesh α) (m o : Nat → Nat) (p : Nat) (hp : p < mesh.npts)
    (hcell : (∃ cell ∈ mesh.cells, p ∈ cell) ∨ m p ≠ 0)
    (h : ErodePass mesh m o p ≠ 0) : m p ≠ 0 := by
  rcases hcell with ⟨cell, hc, hpc⟩ | hm
  · exact (ErodePass_eq_one_iff mesh m o p hp).mp h cell hc hpc p hpc
  · exact hm

end Erosion

end SelectRois

namespace SelectRois

section GeometryClaims

variable {α : Type} [LinearOrderedField α]

theorem ReduceClusters_append (cs : List (Cluster α)) (c : Cluster α) (span max_overlap : α) :
    ReduceClusters (cs ++ [c]) span max_overlap =
      if (OverlapRatio (ReduceClusters cs span max_overlap) span (Bounds c.center span)).le
          max_overlap then
        ReduceClusters cs span max_overlap ++ [c]
      else ReduceClusters cs span max_overlap := by
  simp only [ReduceClusters, List.foldl_append, List.foldl_cons, List.foldl_nil, ReduceStep]

theorem ReduceClusters_nil (span max_overlap : α) :
    ReduceClusters ([] : List (Cluster α)) span max_overlap = [] := rfl

theorem ReduceFold_sublist (span max_overlap : α) (post sel : List (Cluster α)) :
    ∃ rest, List.Sublist rest post ∧
      post.foldl (ReduceStep span max_overlap) sel = sel ++ rest := by
  induction post generalizing sel with
  | nil => exact ⟨[], List.Sublist.refl _, by simp⟩
  | cons c post ih =>
    simp only [List.foldl_cons]
    by_cases h : (OverlapRatio sel span (Bounds c.center span)).le max_overlap = true
    · obtain ⟨rest, hsub, heq⟩ := ih (sel ++ [c])
      refine ⟨c :: rest, hsub.cons₂ c, ?_⟩
      simp only [ReduceStep, h, if_true]
      rw [heq]
      simp
    · obtain ⟨rest, hsub, heq⟩ := ih sel
      refine ⟨rest, hsub.cons c, ?_⟩
      simp only [ReduceStep, h]
      simpa using heq

theorem ReduceClusters_enum (clusters : List (Cluster α)) (span max_overlap : α) :
    ReduceClusters clusters span max_overlap =
      (clusters.enum.filter (fun p =>
        (OverlapRatio (ReduceClusters (clusters.take p.1) span max_overlap) span
          (Bounds p.2.center span)).le max_overlap)).map Prod.snd := by
  induction clusters using List.reverseRecOn with
  | nil => rfl
  | append_singleton cs c ih =>
    rw [ReduceClusters_append, List.enum_append, List.filter_append, List.map_append]
    have h1 : (cs.enum.filter (fun p =>
        (OverlapRatio (ReduceClusters ((cs ++ [c]).take p.1) span max_overlap) span
          (Bounds p.2.center span)).le max_overlap)) =
        (cs.enum.filter (fun p =>
        (OverlapRatio (ReduceClusters (cs.take p.1) span max_overlap) span
          (Bounds p.2.center span)).le max_overlap)) := by
      apply List.filter_congr
      intro p hp
      have hlt : p.1 < cs.length := by
        have := List.fst_lt_of_mem_enum hp
        exact this
      rw [List.take_append_of_le_length hlt.le]
    rw [h1, ← ih]
    have h2 : (cs ++ [c]).take cs.length = cs := by simp
    simp only [List.enum, List.enumFrom_cons, List.enumFrom_nil, List.filter_cons,
      List.filter_nil, zero_add, h2]
    split <;> simp

/-- C3: `ReduceClusters` returns a subsequence of its input in the input's order; the cluster
at position `i` is in the result exactly when the `OverlapRatio` of its box against the
clusters accepted from the positions before `i` is at most `max_overlap`; what was accepted
from a prefix stays accepted, and what was rejected is not looked at again. -/
theorem ReduceClusters_subsequence (clusters : List (Cluster α)) (span max_overlap : α) :
    List.Sublist (ReduceClusters clusters span max_overlap) clusters ∧
    ReduceClusters clusters span max_overlap =
      (clusters.enum.filter (fun p =>
        (OverlapRatio (ReduceClusters (clusters.take p.1) span max_overlap) span
          (Bounds p.2.center span)).le max_overlap)).map Prod.snd ∧
    ∀ pre post : List (Cluster α), clusters = pre ++ post →
      ∃ rest, List.Sublist rest post ∧
        ReduceClusters clusters span max_overlap = ReduceClusters pre span max_overlap ++ rest := by
  refine ⟨?_, ReduceClusters_enum clusters span max_overlap, ?_⟩
  · obtain ⟨rest, hsub, heq⟩ := ReduceFold_sublist span max_overlap clusters []
    have : ReduceClusters clusters span max_overlap = rest := by
      simpa [ReduceClusters] using heq
    rw [this]
    exact hsub
  · intro pre post hcs
    subst hcs
    obtain ⟨rest, hsub, heq⟩ :=
      ReduceFold_sublist span max_overlap post (ReduceClusters pre span max_overlap)
    refine ⟨rest, hsub, ?_⟩
    rw [← heq]
    simp only [ReduceClusters, List.foldl_append]

end GeometryClaims

end SelectRois

namespace SelectRois

section RelabelClaims

variable {α : Type}

theorem RelabelFold_append (n : Nat) (old_labels : Nat → Int) (cs : List (Cluster α))
    (c : Cluster α) (st : Int × List (Cluster α) × (Nat → Int)) :
    (cs ++ [c]).foldl (RelabelStep n old_labels) st =
      RelabelStep n old_labels (cs.foldl (RelabelStep n old_labels) st) c := by
  simp [List.foldl_append]

theorem RelabelFold_fst (n : Nat) (old_labels : Nat → Int) (cs : List (Cluster α))
    (labels : Nat → Int) :
    (cs.foldl (RelabelStep n old_labels) (0, [], labels)).1 = (cs.length : Int) := by
  induction cs using List.reverseRecOn with
  | nil => rfl
  | append_singleton cs c ih =>
    rw [RelabelFold_append]
    simp [RelabelStep, ih]

theorem Relabel_clusters (n : Nat) (cs : List (Cluster α)) (labels : Nat → Int) :
    (Relabel n cs labels).1 =
      cs.enum.map (fun p => { p.2 with label := (p.1 : Int) + 1 }) := by
  unfold Relabel
  induction cs using List.reverseRecOn with
  | nil => rfl
  | append_singleton cs c ih =>
    rw [RelabelFold_append]
    simp only [RelabelStep, ih, RelabelFold_fst, List.enum_append, List.map_append]
    simp [List.enum]

theorem Relabel_labels_append (n : Nat) (cs : List (Cluster α)) (c : Cluster α)
    (labels : Nat → Int) (ptId : Nat) :
    (Relabel n (cs ++ [c]) labels).2 ptId =
      if ptId < n ∧ labels ptId = c.label then (cs.length : Int) + 1
      else (Relabel n cs labels).2 ptId := by
  unfold Relabel
  rw [RelabelFold_append]
  simp only [RelabelStep, RelabelFold_fst]

theorem Relabel_labels_last (n : Nat) (cs : List (Cluster α)) (labels : Nat → Int) (ptId : Nat)
    (i : Nat) (hi : i < cs.length) (hp : ptId < n) (hl : labels ptId = cs[i].label)
    (hlast : ∀ j (hj : j < cs.length), i < j → cs[j].label ≠ labels ptId) :
    (Relabel n cs labels).2 ptId = (i : Int) + 1 := by
  induction cs using List.reverseRecOn with
  | nil => simp at hi
  | append_singleton cs c ih =>
    rw [Relabel_labels_append]
    rw [List.length_append, List.length_singleton] at hi
    rcases Nat.lt_succ_iff_lt_or_eq.mp hi with h | h
    · have hc : c.label ≠ labels ptId := by
        have := hlast cs.length (by simp) h
        simpa using this
      rw [if_neg (fun hh => hc hh.2.symm)]
      apply ih h
      · rw [hl, List.getElem_append_left h]
      · intro j hj hij
        have := hlast j (by simp; omega) hij
        rwa [List.getElem_append_left hj] at this
    · subst h
      have : labels ptId = c.label := by simpa using hl
      rw [if_pos ⟨hp, this⟩]

theorem Relabel_labels_keep (n : Nat) (cs : List (Cluster α)) (labels : Nat → Int) (ptId : Nat)
    (h : ¬ ptId < n ∨ ∀ c ∈ cs, c.label ≠ labels ptId) :
    (Relabel n cs labels).2 ptId = labels ptId := by
  induction cs using List.reverseRecOn with
  | nil => rfl
  | append_singleton cs c ih =>
    rw [Relabel_labels_append, if_neg, ih]
    · rcases h with h | h
      · exact Or.inl h
      · exact Or.inr (fun c' hc' => h c' (by simp [hc']))
    · rintro ⟨h1, h2⟩
      rcases h with h | h
      · exact h h1
      · exact h c (by simp) h2.symm

theorem Relabel_labels_cases (n : Nat) (cs : List (Cluster α)) (labels : Nat → Int) (ptId : Nat) :
    ((Relabel n cs labels).2 ptId = labels ptId ∧
      (¬ ptId < n ∨ ∀ c ∈ cs, c.label ≠ labels ptId)) ∨
    (1 ≤ (Relabel n cs labels).2 ptId ∧ (Relabel n cs labels).2 ptId ≤ (cs.length : Int)) := by
  induction cs using List.reverseRecOn with
  | nil => left; exact ⟨rfl, Or.inr (by simp)⟩
  | append_singleton cs c ih =>
    rw [Relabel_labels_append]
    by_cases h : ptId < n ∧ labels ptId = c.label
    · rw [if_pos h]
      right
      rw [List.length_append, List.length_singleton]
      push_cast
      constructor <;> omega
    · rw [if_neg h]
      rcases ih with ⟨h1, h2⟩ | ⟨h1, h2⟩
      · left
        refine ⟨h1, ?_⟩
        rcases h2 with h2 | h2
        · exact Or.inl h2
        · by_cases hn : ptId < n
          · right
            intro c' hc'
            rcases List.mem_append.mp hc' with hc' | hc'
            · exact h2 c' hc'
            · rw [List.mem_singleton.mp hc']
              intro hcl
              exact h ⟨hn, hcl.symm⟩
          · exact Or.inl hn
      · right
        rw [List.length_append, List.length_singleton]
        push_cast
        constructor <;> omega

/-- Two clusters with the same old label `0` and one point carrying that label. -/
theorem Relabel_duplicate_labels :
    ¬ ∀ (n : Nat) (cs : List (Cluster ℚ)) (labels : Nat → Int) (i : Nat) (hi : i < cs.length)
        (ptId : Nat), ptId < n → labels ptId = (cs.get ⟨i, hi⟩).label →
        (Relabel n cs labels).2 ptId = (i : Int) + 1 := by
  intro h
  have := h 1 [⟨0, 0, 1, (0, 0, 0), 0⟩, ⟨0, 1, 1, (1, 1, 1), 0⟩] (fun _ => 0) 0 (by decide) 0
    (by decide) rfl
  revert this
  decide!

/-- What `Relabel` does to any list: the i-th cluster gets the label i, a point of the array
whose old label is the old label of clusters of the list gets the new label of the last of
them in list order, and every other point keeps its label. -/
theorem Relabel_dense_last_match (n : Nat) (cs : List (Cluster α)) (labels : Nat → Int) :
    (Relabel n cs labels).1 = cs.enum.map (fun p => { p.2 with label := (p.1 : Int) + 1 }) ∧
    ∀ ptId : Nat,
      (∀ (i : Nat) (hi : i < cs.length), ptId < n → labels ptId = (cs.get ⟨i, hi⟩).label →
        (∀ (j : Nat) (hj : j < cs.length), i < j → (cs.get ⟨j, hj⟩).label ≠ labels ptId) →
        (Relabel n cs labels).2 ptId = (i : Int) + 1) ∧
      ((¬ ptId < n ∨ ∀ c ∈ cs, c.label ≠ labels ptId) →
        (Relabel n cs labels).2 ptId = labels ptId) := by
  refine ⟨Relabel_clusters n cs labels, fun ptId => ⟨?_, Relabel_labels_keep n cs labels ptId⟩⟩
  intro i hi hp hl hlast
  exact Relabel_labels_last n cs labels ptId i hi hp hl hlast

end RelabelClaims

end SelectRois

namespace SelectRois

/-! ## Results of `DistantClusters` -/

section ClusterClaims

set_option linter.unusedSectionVars false

variable {α : Type} [LinearOrderedField α]

theorem ClusterOK.seed_distant {mesh : Mesh α} {dists : Nat → α} {T S : WithTop α}
    {min_size : Int} {labels : Nat → Int} {c : Cluster α}
    (hc : ClusterOK mesh dists T S min_size labels c) (hT : T ≤ S) :
    Distant mesh dists T c.seed.toNat :=
  ⟨hc.seedLt, hT.trans hc.seedDist⟩

theorem ClusterOK.mem_Members {mesh : Mesh α} {dists : Nat → α} {T S : WithTop α}
    {min_size : Int} {labels : Nat → Int} {c : Cluster α}
    (hc : ClusterOK mesh dists T S min_size labels c) (hT : T ≤ S) (q : Nat) :
    q ∈ Members mesh.npts labels c.label ↔ Connected mesh dists T c.seed.toNat q := by
  simp only [Members, Finset.mem_filter, Finset.mem_range]
  rw [hc.members q]
  exact ⟨fun h => h.2, fun h => ⟨(h.distant (hc.seed_distant hT)).1, h⟩⟩

theorem ClusterOK.members_eq {mesh : Mesh α} {dists : Nat → α} {T S : WithTop α}
    {min_size : Int} {labels : Nat → Int} {c : Cluster α}
    (hc : ClusterOK mesh dists T S min_size labels c) (hT : T ≤ S) :
    (↑(Members mesh.npts labels c.label) : Set Nat) =
      {q | Connected mesh dists T c.seed.toNat q} := by
  ext q
  simp only [Finset.mem_coe, Set.mem_setOf_eq]
  exact hc.mem_Members hT q

/-- C1: with enough fuel `DistantClusters` returns; the member set of every returned cluster
is a connected component of the distant region (distance at least the effective threshold,
adjacency by a shared cell) that contains a point at or above the effective seed bound and
has at least `min_size` points, and every such component is the member set of exactly one
returned cluster. -/
theorem DistantClusters_components [FloorRing α] (surface : Mesh α) (ndists : Nat)
    (dists : Nat → α) (min_size : Int) (min_seed_dist min_threshold : α)
    (dists_percentile start_label : Int)
    (hwf : surface.WellFormed) (hn : ndists = surface.npts) (hstart : 1 ≤ start_label) :
    (∃ (fuel : Nat) (r : ClusterResult α),
      DistantClusters surface ndists dists min_size min_seed_dist min_threshold
        dists_percentile start_label fuel = some r) ∧
    ∀ (fuel : Nat) (r : ClusterResult α),
      DistantClusters surface ndists dists min_size min_seed_dist min_threshold
        dists_percentile start_label fuel = some r →
      EffectiveThreshold ndists dists min_threshold dists_percentile ≤
        EffectiveSeedDist min_seed_dist
          (EffectiveThreshold ndists dists min_threshold dists_percentile) ∧
      (∀ c ∈ r.clusters,
        IsComponent surface dists
          (EffectiveThreshold ndists dists min_threshold dists_percentile)
          (↑(Members surface.npts r.labels c.label) : Set Nat) ∧
        (∃ p ∈ Members surface.npts r.labels c.label,
          EffectiveSeedDist min_seed_dist
            (EffectiveThreshold ndists dists min_threshold dists_percentile) ≤
              (dists p : WithTop α)) ∧
        min_size ≤ ((Members surface.npts r.labels c.label).card : Int)) ∧
      (∀ C : Set Nat,
        IsComponent surface dists
          (EffectiveThreshold ndists dists min_threshold dists_percentile) C →
        (∃ p ∈ C, EffectiveSeedDist min_seed_dist
            (EffectiveThreshold ndists dists min_threshold dists_percentile) ≤
              (dists p : WithTop α)) →
        min_size ≤ (C.ncard : Int) →
        ∃! i : Fin r.clusters.length,
          (↑(Members surface.npts r.labels (r.clusters.get i).label) : Set Nat) = C) := by
  obtain ⟨hex, hall⟩ := DistantClusters_total surface ndists dists min_size min_seed_dist
    min_threshold dists_percentile start_label hwf hn hstart
  refine ⟨hex, ?_⟩
  intro fuel r hr
  have inv := hall fuel r hr
  have hT := EffectiveThreshold_le_SeedDist min_seed_dist
    (EffectiveThreshold ndists dists min_threshold dists_percentile)
  refine ⟨hT, ?_, ?_⟩
  · intro c hc
    have hok := inv.cluster c hc
    refine ⟨⟨c.seed.toNat, hok.seed_distant hT, hok.members_eq hT⟩, ?_, ?_⟩
    · exact ⟨c.seed.toNat, (hok.mem_Members hT _).mpr Relation.ReflTransGen.refl, hok.seedDist⟩
    · rw [← hok.size]; exact hok.sizeMin
  · rintro C ⟨p0, hp0, rfl⟩ ⟨p, hp, hpS⟩ hmin
    have hp' : Connected surface dists _ p0 p := hp
    have hpD := hp'.distant hp0
    have hlab : r.labels p ≠ -1 := by
      rcases inv.covered p hpD.1 hpS with h | h
      · simp at h
      · exact h
    have hcomp : ∀ q, Connected surface dists
        (EffectiveThreshold ndists dists min_threshold dists_percentile) p q ↔
        Connected surface dists
        (EffectiveThreshold ndists dists min_threshold dists_percentile) p0 q :=
      fun q => ⟨fun h => hp'.trans h, fun h => hp'.symm.trans h⟩
    have hlab0 : r.labels p ≠ 0 := by
      intro h0
      classical
      let C' : Finset Nat := (Finset.range surface.npts).filter
        (fun q => Connected surface dists
          (EffectiveThreshold ndists dists min_threshold dists_percentile) p q)
      have hC' : ∀ q, q ∈ C' ↔ Connected surface dists
          (EffectiveThreshold ndists dists min_threshold dists_percentile) p q := by
        intro q
        simp only [C', Finset.mem_filter, Finset.mem_range]
        exact ⟨fun h => h.2, fun h => ⟨(h.distant hpD).1, h⟩⟩
      have hsmall := inv.small p h0 C' hC'
      have hset : {q | Connected surface dists
          (EffectiveThreshold ndists dists min_threshold dists_percentile) p0 q} =
          (↑C' : Set Nat) := by
        ext q
        simp only [Set.mem_setOf_eq, Finset.mem_coe]
        rw [hC' q, hcomp q]
      rw [hset, Set.ncard_coe_Finset] at hmin
      omega
    have hge : start_label ≤ r.labels p := by
      rcases inv.values p with h | h | h
      · exact absurd h hlab
      · exact absurd h hlab0
      · exact h
    have hlt := (inv.range p).2
    dsimp only at hlt
    have hidx : (r.labels p - start_label).toNat < r.clusters.length := by
      omega
    have hlabel := inv.labelAt _ hidx
    dsimp only at hlabel
    have hlabel' : (r.clusters.get ⟨_, hidx⟩).label = r.labels p := by
      rw [hlabel]; omega
    have hok := inv.cluster _ (List.get_mem r.clusters _ hidx)
    have hseed : Connected surface dists
        (EffectiveThreshold ndists dists min_threshold dists_percentile)
        (r.clusters.get ⟨_, hidx⟩).seed.toNat p := (hok.members p).mp hlabel'.symm
    refine ⟨⟨_, hidx⟩, ?_, ?_⟩
    · dsimp only
      rw [hok.members_eq hT]
      ext q
      simp only [Set.mem_setOf_eq]
      rw [← hcomp q]
      exact ⟨fun h => hseed.symm.trans h, fun h => hseed.trans h⟩
    · intro j hj
      have hokj := inv.cluster _ (List.get_mem r.clusters j.1 j.2)
      have hpj : p ∈ (↑(Members surface.npts r.labels (r.clusters.get j).label) : Set Nat) := by
        rw [hj]; exact hp
      simp only [Finset.mem_coe, Members, Finset.mem_filter, Finset.mem_range] at hpj
      have hlj : (r.clusters.get j).label = start_label + (j.1 : Int) := inv.labelAt j.1 j.2
      apply Fin.ext
      show j.1 = (r.labels p - start_label).toNat
      omega

theorem islandMesh_wellFormed : islandMesh.WellFormed := by
  unfold Mesh.WellFormed islandMesh
  decide

theorem pairMesh_wellFormed : pairMesh.WellFormed := by
  unfold Mesh.WellFormed pairMesh
  decide

theorem DistantClusters_components_witness :
    islandMesh.WellFormed ∧ 10 = islandMesh.npts ∧ (1 : Int) ≤ 1 ∧
    ((∃ (fuel : Nat) (r : ClusterResult ℚ),
      DistantClusters islandMesh 10 islandDists 3 2 1 0 1 fuel = some r) ∧
    ∀ (fuel : Nat) (r : ClusterResult ℚ),
      DistantClusters islandMesh 10 islandDists 3 2 1 0 1 fuel = some r →
      EffectiveThreshold 10 islandDists 1 0 ≤
        EffectiveSeedDist 2 (EffectiveThreshold 10 islandDists 1 0) ∧
      (∀ c ∈ r.clusters,
        IsComponent islandMesh islandDists (EffectiveThreshold 10 islandDists 1 0)
          (↑(Members islandMesh.npts r.labels c.label) : Set Nat) ∧
        (∃ p ∈ Members islandMesh.npts r.labels c.label,
          EffectiveSeedDist 2 (EffectiveThreshold 10 islandDists 1 0) ≤
            (islandDists p : WithTop ℚ)) ∧
        (3 : Int) ≤ ((Members islandMesh.npts r.labels c.label).card : Int)) ∧
      (∀ C : Set Nat,
        IsComponent islandMesh islandDists (EffectiveThreshold 10 islandDists 1 0) C →
        (∃ p ∈ C, EffectiveSeedDist 2 (EffectiveThreshold 10 islandDists 1 0) ≤
            (islandDists p : WithTop ℚ)) →
        (3 : Int) ≤ (C.ncard : Int) →
        ∃! i : Fin r.clusters.length,
          (↑(Members islandMesh.npts r.labels (r.clusters.get i).label) : Set Nat) = C)) ∧
    (DistantClusters islandMesh 10 islandDists 3 2 1 0 1 100).map
      (fun r => r.clusters.map (fun c => (c.size, c.total / (c.size : ℚ)))) = some [(5, 10)] :=
  ⟨islandMesh_wellFormed, rfl, by decide,
    DistantClusters_components islandMesh 10 islandDists 3 2 1 0 1 islandMesh_wellFormed rfl
      (by decide),
    by decide!⟩

/-- C5: with enough fuel `DistantClusters` returns, and every point that carries the label of
a returned cluster, the seed included, has a distance at or above the effective threshold
used for the growth. -/
theorem DistantClusters_members_distant [FloorRing α] (surface : Mesh α) (ndists : Nat)
    (dists : Nat → α) (min_size : Int) (min_seed_dist min_threshold : α)
    (dists_percentile start_label : Int)
    (hwf : surface.WellFormed) (hn : ndists = surface.npts) (hstart : 1 ≤ start_label) :
    (∃ (fuel : Nat) (r : ClusterResult α),
      DistantClusters surface ndists dists min_size min_seed_dist min_threshold
        dists_percentile start_label fuel = some r) ∧
    ∀ (fuel : Nat) (r : ClusterResult α),
      DistantClusters surface ndists dists min_size min_seed_dist min_threshold
        dists_percentile start_label fuel = some r →
      ∀ c ∈ r.clusters, ∀ p, r.labels p = c.label →
        p < surface.npts ∧
        EffectiveThreshold ndists dists min_threshold dists_percentile ≤
          (dists p : WithTop α) := by
  obtain ⟨hex, hall⟩ := DistantClusters_total surface ndists dists min_size min_seed_dist
    min_threshold dists_percentile start_label hwf hn hstart
  refine ⟨hex, ?_⟩
  intro fuel r hr c hc p hp
  have inv := hall fuel r hr
  have hT := EffectiveThreshold_le_SeedDist min_seed_dist
    (EffectiveThreshold ndists dists min_threshold dists_percentile)
  have hok := inv.cluster c hc
  exact ((hok.members p).mp hp).distant (hok.seed_distant hT)

theorem DistantClusters_members_distant_witness :
    islandMesh.WellFormed ∧ 10 = islandMesh.npts ∧ (1 : Int) ≤ 1 ∧
    ((∃ (fuel : Nat) (r : ClusterResult ℚ),
      DistantClusters islandMesh 10 islandDists 3 2 1 0 1 fuel = some r) ∧
    ∀ (fuel : Nat) (r : ClusterResult ℚ),
      DistantClusters islandMesh 10 islandDists 3 2 1 0 1 fuel = some r →
      ∀ c ∈ r.clusters, ∀ p, r.labels p = c.label →
        p < islandMesh.npts ∧
        EffectiveThreshold 10 islandDists 1 0 ≤ (islandDists p : WithTop ℚ)) :=
  ⟨islandMesh_wellFormed, rfl, by decide,
    DistantClusters_members_distant islandMesh 10 islandDists 3 2 1 0 1 islandMesh_wellFormed rfl
      (by decide)⟩

/-- C6: with enough fuel `DistantClusters` (first label at least 1) returns, and for every
returned cluster the size is the number of points carrying its label and is at least 1, the
total is the sum of their distances, the centre is the mean of their coordinates, and the
reported average `total / size` is the mean distance of the members. -/
theorem DistantClusters_accumulators [FloorRing α] (surface : Mesh α) (ndists : Nat)
    (dists : Nat → α) (min_size : Int) (min_seed_dist min_threshold : α)
    (dists_percentile start_label : Int)
    (hwf : surface.WellFormed) (hn : ndists = surface.npts) (hstart : 1 ≤ start_label) :
    (∃ (fuel : Nat) (r : ClusterResult α),
      DistantClusters surface ndists dists min_size min_seed_dist min_threshold
        dists_percentile start_label fuel = some r) ∧
    ∀ (fuel : Nat) (r : ClusterResult α),
      DistantClusters surface ndists dists min_size min_seed_dist min_threshold
        dists_percentile start_label fuel = some r →
      ∀ c ∈ r.clusters,
        c.size = ((Members surface.npts r.labels c.label).card : Int) ∧
        1 ≤ c.size ∧
        c.total = ∑ p in Members surface.npts r.labels c.label, dists p ∧
        c.center =
          ((∑ p in Members surface.npts r.labels c.label, (surface.point p).1) /
              ((Members surface.npts r.labels c.label).card : α),
           (∑ p in Members surface.npts r.labels c.label, (surface.point p).2.1) /
              ((Members surface.npts r.labels c.label).card : α),
           (∑ p in Members surface.npts r.labels c.label, (surface.point p).2.2) /
              ((Members surface.npts r.labels c.label).card : α)) ∧
        (c.size : α) ≠ 0 ∧
        c.total / (c.size : α) =
          (∑ p in Members surface.npts r.labels c.label, dists p) /
            ((Members surface.npts r.labels c.label).card : α) := by
  obtain ⟨hex, hall⟩ := DistantClusters_total surface ndists dists min_size min_seed_dist
    min_threshold dists_percentile start_label hwf hn hstart
  refine ⟨hex, ?_⟩
  intro fuel r hr c hc
  have inv := hall fuel r hr
  have hok := inv.cluster c hc
  have hcast : (c.size : α) = ((Members surface.npts r.labels c.label).card : α) := by
    rw [hok.size]; simp
  have hne : (c.size : α) ≠ 0 := by
    have := hok.sizePos
    exact_mod_cast (ne_of_gt this)
  refine ⟨hok.size, by have := hok.sizePos; omega, hok.total, ?_, hne, ?_⟩
  · rw [← hcast]; exact hok.center
  · rw [← hcast, ← hok.total]

theorem DistantClusters_accumulators_witness :
    pairMesh.WellFormed ∧ 3 = pairMesh.npts ∧ (1 : Int) ≤ 1 ∧
    ((∃ (fuel : Nat) (r : ClusterResult ℚ),
      DistantClusters pairMesh 3 pairDists 1 2 1 0 1 fuel = some r) ∧
    ∀ (fuel : Nat) (r : ClusterResult ℚ),
      DistantClusters pairMesh 3 pairDists 1 2 1 0 1 fuel = some r →
      ∀ c ∈ r.clusters,
        c.size = ((Members pairMesh.npts r.labels c.label).card : Int) ∧
        1 ≤ c.size ∧
        c.total = ∑ p in Members pairMesh.npts r.labels c.label, pairDists p ∧
        c.center =
          ((∑ p in Members pairMesh.npts r.labels c.label, (pairMesh.point p).1) /
              ((Members pairMesh.npts r.labels c.label).card : ℚ),
           (∑ p in Members pairMesh.npts r.labels c.label, (pairMesh.point p).2.1) /
              ((Members pairMesh.npts r.labels c.label).card : ℚ),
           (∑ p in Members pairMesh.npts r.labels c.label, (pairMesh.point p).2.2) /
              ((Members pairMesh.npts r.labels c.label).card : ℚ)) ∧
        (c.size : ℚ) ≠ 0 ∧
        c.total / (c.size : ℚ) =
          (∑ p in Members pairMesh.npts r.labels c.label, pairDists p) /
            ((Members pairMesh.npts r.labels c.label).card : ℚ)) :=
  ⟨pairMesh_wellFormed, rfl, by decide,
    DistantClusters_accumulators pairMesh 3 pairDists 1 2 1 0 1 pairMesh_wellFormed rfl
      (by decide)⟩

/-- On `pairMesh` the two near points become the clusters 1 and 2, the reduction with span 4
and no allowed overlap keeps the first only (K = 1), and after `Relabel` the three points
carry the labels 1, 2 and -1: two of them lie outside 0..K. -/
theorem final_labels_outside_range :
    (DistantClusters pairMesh 3 pairDists 1 2 1 0 1 10).map
      (fun r =>
        ((ReduceClusters r.clusters 4 0).length,
         (Relabel 3 (ReduceClusters r.clusters 4 0) r.labels).2 0,
         (Relabel 3 (ReduceClusters r.clusters 4 0) r.labels).2 1,
         (Relabel 3 (ReduceClusters r.clusters 4 0) r.labels).2 2)) =
      some (1, 1, 2, -1) := by
  decide!

/-- C4 (amended): after `DistantClusters` (first label at least 1) and `Relabel` over any list
of K kept clusters, the final label of every point is -1 (never assigned), 0 (discarded), a
label in 1..K, or the unchanged label of a returned cluster whose label no kept cluster
carries; the points carrying two distinct labels are disjoint. -/
theorem final_labels_after_Relabel [FloorRing α] (surface : Mesh α) (ndists : Nat)
    (dists : Nat → α) (min_size : Int) (min_seed_dist min_threshold : α)
    (dists_percentile start_label : Int)
    (hwf : surface.WellFormed) (hn : ndists = surface.npts) (hstart : 1 ≤ start_label) :
    (∃ (fuel : Nat) (r : ClusterResult α),
      DistantClusters surface ndists dists min_size min_seed_dist min_threshold
        dists_percentile start_label fuel = some r) ∧
    ∀ (fuel : Nat) (r : ClusterResult α),
      DistantClusters surface ndists dists min_size min_seed_dist min_threshold
        dists_percentile start_label fuel = some r →
      ∀ kept : List (Cluster α),
        (∀ p : Nat,
          (Relabel surface.npts kept r.labels).2 p = -1 ∨
          (Relabel surface.npts kept r.labels).2 p = 0 ∨
          (1 ≤ (Relabel surface.npts kept r.labels).2 p ∧
            (Relabel surface.npts kept r.labels).2 p ≤ (kept.length : Int)) ∨
          ((Relabel surface.npts kept r.labels).2 p = r.labels p ∧
            (∃ c ∈ r.clusters, c.label = r.labels p) ∧
            ∀ c ∈ kept, c.label ≠ r.labels p)) ∧
        ∀ a b : Int, a ≠ b →
          Disjoint (Members surface.npts (Relabel surface.npts kept r.labels).2 a)
            (Members surface.npts (Relabel surface.npts kept r.labels).2 b) := by
  obtain ⟨hex, hall⟩ := DistantClusters_total surface ndists dists min_size min_seed_dist
    min_threshold dists_percentile start_label hwf hn hstart
  refine ⟨hex, ?_⟩
  intro fuel r hr kept
  have inv := hall fuel r hr
  constructor
  · intro p
    rcases Relabel_labels_cases surface.npts kept r.labels p with ⟨h1, h2⟩ | h
    · rw [h1]
      have hv : r.labels p = -1 ∨ r.labels p = 0 ∨ start_label ≤ r.labels p := inv.values p
      rcases hv with h | h | h
      · exact Or.inl h
      · exact Or.inr (Or.inl h)
      · right; right; right
        have hlt : r.labels p < start_label + (r.clusters.length : Int) := (inv.range p).2
        have hidx : (r.labels p - start_label).toNat < r.clusters.length := by omega
        have hlabel : (r.clusters.get ⟨_, hidx⟩).label =
            start_label + ((r.labels p - start_label).toNat : Int) := inv.labelAt _ hidx
        refine ⟨rfl, ⟨_, List.get_mem r.clusters _ hidx, by rw [hlabel]; omega⟩, ?_⟩
        rcases h2 with h2 | h2
        · exfalso
          apply h2
          have hne : r.labels p ≠ -1 := by omega
          exact (inv.distant p hne).1
        · exact h2
    · exact Or.inr (Or.inr (Or.inl h))
  · intro a b hab
    rw [Finset.disjoint_left]
    intro p ha hb
    simp only [Members, Finset.mem_filter] at ha hb
    exact hab (ha.2.symm.trans hb.2)

theorem final_labels_after_Relabel_witness :
    pairMesh.WellFormed ∧ 3 = pairMesh.npts ∧ (1 : Int) ≤ 1 ∧
    ((∃ (fuel : Nat) (r : ClusterResult ℚ),
      DistantClusters pairMesh 3 pairDists 1 2 1 0 1 fuel = some r) ∧
    ∀ (fuel : Nat) (r : ClusterResult ℚ),
      DistantClusters pairMesh 3 pairDists 1 2 1 0 1 fuel = some r →
      ∀ kept : List (Cluster ℚ),
        (∀ p : Nat,
          (Relabel pairMesh.npts kept r.labels).2 p = -1 ∨
          (Relabel pairMesh.npts kept r.labels).2 p = 0 ∨
          (1 ≤ (Relabel pairMesh.npts kept r.labels).2 p ∧
            (Relabel pairMesh.npts kept r.labels).2 p ≤ (kept.length : Int)) ∨
          ((Relabel pairMesh.npts kept r.labels).2 p = r.labels p ∧
            (∃ c ∈ r.clusters, c.label = r.labels p) ∧
            ∀ c ∈ kept, c.label ≠ r.labels p)) ∧
        ∀ a b : Int, a ≠ b →
          Disjoint (Members pairMesh.npts (Relabel pairMesh.npts kept r.labels).2 a)
            (Members pairMesh.npts (Relabel pairMesh.npts kept r.labels).2 b)) :=
  ⟨pairMesh_wellFormed, rfl, by decide,
    final_labels_after_Relabel pairMesh 3 pairDists 1 2 1 0 1 pairMesh_wellFormed rfl
      (by decide)⟩

end ClusterClaims

end SelectRois

namespace SelectRois

/-! ## Covered volume and overlap-free selection -/

section CoveredClaims

open MeasureTheory Set

/-- C2: for every positive span, every list of clusters and every box with lower bounds at
most the upper bounds, `Volume` is the volume of the part of the box covered by the union of
the cubes of edge length `span` centred at the clusters' centres, and `OverlapRatio` is that
volume divided by the volume of the box (a finite quotient when the box has volume). -/
theorem Volume_covered_and_ratio (clusters : List (Cluster ℝ)) (span : ℝ) (box : Box ℝ)
    (hs : 0 < span) (h0 : box.b0 ≤ box.b1) (h1 : box.b2 ≤ box.b3) (h2 : box.b4 ≤ box.b5) :
    Volume clusters span box = (volume (coveredSet clusters span box)).toReal ∧
    OverlapRatio clusters span box =
      fdiv (volume (coveredSet clusters span box)).toReal (volume (boxSet box)).toReal ∧
    ((volume (boxSet box)).toReal ≠ 0 →
      OverlapRatio clusters span box =
        FloatQuot.finite ((volume (coveredSet clusters span box)).toReal /
          (volume (boxSet box)).toReal)) := by
  have hV := Volume_eq_covered clusters span box hs
  have hB := volume_boxSet box h0 h1 h2
  refine ⟨hV, ?_, ?_⟩
  · rw [OverlapRatio, hV, hB]
  · intro hne
    rw [OverlapRatio, hV, ← hB, fdiv, if_pos hne]

theorem Volume_covered_and_ratio_witness :
    (0 : ℝ) < 1 ∧ (Bounds ((1 / 2 : ℝ), (0 : ℝ), (0 : ℝ)) 1).b0 ≤ (Bounds (1 / 2, 0, 0) 1).b1 ∧
    (Bounds ((1 / 2 : ℝ), (0 : ℝ), (0 : ℝ)) 1).b2 ≤ (Bounds (1 / 2, 0, 0) 1).b3 ∧
    (Bounds ((1 / 2 : ℝ), (0 : ℝ), (0 : ℝ)) 1).b4 ≤ (Bounds (1 / 2, 0, 0) 1).b5 ∧
    (Volume [⟨1, 0, 1, (0, 0, 0), 0⟩] 1 (Bounds ((1 / 2 : ℝ), (0 : ℝ), (0 : ℝ)) 1) =
      (volume (coveredSet [⟨1, 0, 1, (0, 0, 0), 0⟩] 1
        (Bounds ((1 / 2 : ℝ), (0 : ℝ), (0 : ℝ)) 1))).toReal ∧
    OverlapRatio [⟨1, 0, 1, (0, 0, 0), 0⟩] 1 (Bounds ((1 / 2 : ℝ), (0 : ℝ), (0 : ℝ)) 1) =
      fdiv (volume (coveredSet [⟨1, 0, 1, (0, 0, 0), 0⟩] 1
          (Bounds ((1 / 2 : ℝ), (0 : ℝ), (0 : ℝ)) 1))).toReal
        (volume (boxSet (Bounds ((1 / 2 : ℝ), (0 : ℝ), (0 : ℝ)) 1))).toReal ∧
    ((volume (boxSet (Bounds ((1 / 2 : ℝ), (0 : ℝ), (0 : ℝ)) 1))).toReal ≠ 0 →
      OverlapRatio [⟨1, 0, 1, (0, 0, 0), 0⟩] 1 (Bounds ((1 / 2 : ℝ), (0 : ℝ), (0 : ℝ)) 1) =
        FloatQuot.finite ((volume (coveredSet [⟨1, 0, 1, (0, 0, 0), 0⟩] 1
            (Bounds ((1 / 2 : ℝ), (0 : ℝ), (0 : ℝ)) 1))).toReal /
          (volume (boxSet (Bounds ((1 / 2 : ℝ), (0 : ℝ), (0 : ℝ)) 1))).toReal))) :=
  ⟨one_pos, by norm_num [Bounds], by norm_num [Bounds], by norm_num [Bounds],
    Volume_covered_and_ratio [⟨1, 0, 1, (0, 0, 0), 0⟩] 1 (Bounds (1 / 2, 0, 0) 1) one_pos
      (by norm_num [Bounds]) (by norm_num [Bounds]) (by norm_num [Bounds])⟩

end CoveredClaims

end SelectRois

namespace SelectRois

/-! ## A distance field below the seed bound -/

section NoSeed

set_option linter.unusedSectionVars false

variable {α : Type} [LinearOrderedField α]

theorem NextSeed_below {dists : Nat → α} {labels : Nat → Int} {S : WithTop α}
    (stack : List Nat) (h : ∀ p ∈ stack, (dists p : WithTop α) < S) :
    NextSeed dists labels S stack = (none, []) := by
  cases stack with
  | nil => rfl
  | cons seed seeds =>
    unfold NextSeed
    rw [if_pos (h seed (List.mem_cons_self _ _))]

theorem mem_InitSeeds_reverse (n : Nat) (dists : Nat → α) (p : Nat)
    (hp : p ∈ (InitSeeds n dists).reverse) : p < n :=
  List.mem_range.mp ((InitSeeds_perm n dists).mem_iff.mp (List.mem_reverse.mp hp))

/-- C11: when the distance of every point is below the effective seed bound, `DistantClusters`
returns (with any fuel for one look at the seed stack) no cluster and a label array that is
-1 everywhere; so does a distance field that is 0 everywhere with a positive
`min_seed_dist`. -/
theorem DistantClusters_no_seed [FloorRing α] (surface : Mesh α) (ndists : Nat)
    (dists : Nat → α) (min_size : Int) (min_seed_dist min_threshold : α)
    (dists_percentile start_label : Int) (fuel : Nat) :
    ((∀ p, p < ndists → (dists p : WithTop α) <
        EffectiveSeedDist min_seed_dist
          (EffectiveThreshold ndists dists min_threshold dists_percentile)) →
      ∃ r, DistantClusters surface ndists dists min_size min_seed_dist min_threshold
          dists_percentile start_label (fuel + 1) = some r ∧
        r.clusters = [] ∧ ∀ p, r.labels p = -1) ∧
    (0 < min_seed_dist →
      ∃ r, DistantClusters surface ndists (fun _ => 0) min_size min_seed_dist min_threshold
          dists_percentile start_label (fuel + 1) = some r ∧
        r.clusters = [] ∧ ∀ p, r.labels p = -1) := by
  have key : ∀ d : Nat → α, (∀ p, p < ndists → (d p : WithTop α) <
        EffectiveSeedDist min_seed_dist
          (EffectiveThreshold ndists d min_threshold dists_percentile)) →
      ∃ r, DistantClusters surface ndists d min_size min_seed_dist min_threshold
          dists_percentile start_label (fuel + 1) = some r ∧
        r.clusters = [] ∧ ∀ p, r.labels p = -1 := by
    intro d h
    refine ⟨{ clusters := [], labels := fun _ => -1 }, ?_, rfl, fun _ => rfl⟩
    unfold DistantClusters
    dsimp only
    rw [ClusterLoop]
    rw [NextSeed_below _ (fun p hp => h p (mem_InitSeeds_reverse ndists d p hp))]
  refine ⟨key dists, ?_⟩
  intro hpos
  apply key
  intro p _
  have h1 : ((0 : α) : WithTop α) < (min_seed_dist : WithTop α) := WithTop.coe_lt_coe.mpr hpos
  have h2 : (min_seed_dist : WithTop α) ≤ EffectiveSeedDist min_seed_dist
      (EffectiveThreshold ndists (fun _ => (0 : α)) min_threshold dists_percentile) := by
    unfold EffectiveSeedDist
    split
    · exact le_of_lt ‹_›
    · exact le_rfl
  exact lt_of_lt_of_le h1 h2

end NoSeed

end SelectRois

namespace SelectRois

/-! ## Claims on mask erosion -/

section ErosionClaims

set_option linter.unusedSectionVars false

variable {α : Type} [LinearOrderedField α]

theorem ErodePointMask_le_one (mesh : Mesh α) (mask : Nat → Nat) (niter : Int)
    (h : niter ≤ 1) : ErodePointMask mesh mask niter = mask := by
  unfold ErodePointMask
  rw [if_neg (not_lt.mpr h)]

/-- On a well-formed mesh the valid points after `k >= 1` iterations are among the valid
points after `k - 1` iterations when every point of the mesh has a cell, and for `k >= 3`
on every mesh. -/
theorem ErodePointMask_subset (mesh : Mesh α) (hwf : mesh.WellFormed) (mask : Nat → Nat)
    (k : Nat) (hk : 1 ≤ k)
    (hcells : (∀ p, p < mesh.npts → ∃ cell ∈ mesh.cells, p ∈ cell) ∨ 3 ≤ k) :
    validPoints mesh (ErodePointMask mesh mask (k : Int)) ⊆
      validPoints mesh (ErodePointMask mesh mask ((k : Int) - 1)) := by
  intro p hp
  simp only [validPoints, Finset.mem_filter, Finset.mem_range] at hp ⊢
  obtain ⟨hpN, hv⟩ := hp
  refine ⟨hpN, ?_⟩
  rcases Nat.lt_or_ge k 2 with h1 | h2
  · have hk1 : k = 1 := by omega
    subst hk1
    rw [ErodePointMask_le_one mesh mask _ (by norm_num)] at hv
    rw [ErodePointMask_le_one mesh mask _ (by norm_num)]
    exact hv
  · rw [ErodePointMask_iterate mesh hwf mask k h2 p hpN] at hv
    obtain ⟨j, rfl⟩ : ∃ j, k = j + 1 := ⟨k - 1, by omega⟩
    rw [Function.iterate_succ_apply'] at hv
    have hsimp : ((j + 1 : Nat) : Int) - 1 = (j : Int) := by push_cast; ring
    rw [hsimp]
    rcases Nat.lt_or_ge j 2 with hj | hj
    · have hj1 : j = 1 := by omega
      subst hj1
      have hc : ∀ q, q < mesh.npts → ∃ cell ∈ mesh.cells, q ∈ cell := by
        rcases hcells with h | h
        · exact h
        · omega
      rw [ErodePointMask_le_one mesh mask _ (by norm_num)]
      have h1 := ErodePass_shrinks mesh _ _ p hpN (Or.inl (hc p hpN)) hv
      rw [Function.iterate_one] at h1
      exact ErodePass_shrinks mesh _ _ p hpN (Or.inl (hc p hpN)) h1
    · rw [ErodePointMask_iterate mesh hwf mask j hj p hpN]
      apply ErodePass_shrinks mesh _ newMaskArray p hpN _ hv
      by_cases hex : ∃ cell ∈ mesh.cells, p ∈ cell
      · exact Or.inl hex
      · right
        obtain ⟨i, rfl⟩ : ∃ i, j = i + 1 := ⟨j - 1, by omega⟩
        rw [Function.iterate_succ_apply']
        rw [ErodePass_eq_one_iff mesh _ _ p hpN]
        intro cell hcell hpc
        exact absurd ⟨cell, hcell, hpc⟩ hex

/-- C12 (failing input): on the mesh of one point that no cell uses, with the point invalid
in the mask, `ErodePointMask` leaves the point invalid for one iteration and returns it
valid for two, so the valid points of two iterations are not among those of one. -/
theorem ErodePointMask_lone_point :
    ErodePointMask loneMesh (fun _ => 0) 1 0 = 0 ∧
    ErodePointMask loneMesh (fun _ => 0) 2 0 = 1 ∧
    ¬ (validPoints loneMesh (ErodePointMask loneMesh (fun _ => 0) 2) ⊆
        validPoints loneMesh (ErodePointMask loneMesh (fun _ => 0) 1)) := by
  decide

/-- C13: `ErodePointMask` with an iteration count of 0 or of 1 returns the mask it was
given. -/
theorem ErodePointMask_identity (mesh : Mesh α) (mask : Nat → Nat) :
    ErodePointMask mesh mask 0 = mask ∧ ErodePointMask mesh mask 1 = mask :=
  ⟨ErodePointMask_le_one mesh mask 0 (by norm_num),
   ErodePointMask_le_one mesh mask 1 (by norm_num)⟩

end ErosionClaims

end SelectRois

namespace SelectRois

/-! ## Random sampling: what is appended -/

section SamplingClaims

set_option linter.unusedSectionVars false

variable {α : Type} [LinearOrderedField α]

/-- One sampling pass appends `k` clusters that carry the label and size of the cluster
variable, and stops at the latest when `m + k` reaches `n`. -/
theorem SamplePoints_appends (closest : α × α × α → Nat) (dists : Option (Nat → α))
    (offset : Nat) (span max_overlap : α) (n m : Int) :
    ∀ (points : List (α × α × α)) (ptId : Nat) (st : SampleState α), m + st.k < n →
      ∃ app : List (Cluster α),
        (SamplePoints closest dists offset span max_overlap n m points ptId st).clusters =
          st.clusters ++ app ∧
        (app.length : Int) =
          (SamplePoints closest dists offset span max_overlap n m points ptId st).k - st.k ∧
        m + (SamplePoints closest dists offset span max_overlap n m points ptId st).k ≤ n ∧
        (SamplePoints closest dists offset span max_overlap n m points ptId st).cluster.label =
          st.cluster.label ∧
        (SamplePoints closest dists offset span max_overlap n m points ptId st).cluster.size =
          st.cluster.size ∧
        ∀ c ∈ app, c.label = st.cluster.label ∧ c.size = st.cluster.size := by
  intro points
  induction points with
  | nil =>
    intro ptId st hk
    refine ⟨[], by simp [SamplePoints], by simp [SamplePoints], ?_, rfl, rfl, by simp⟩
    simp only [SamplePoints]
    omega
  | cons p points ih =>
    intro ptId st hk
    simp only [SamplePoints]
    split
    · obtain ⟨app, h1, h2, h3, h4, h5, h6⟩ := ih (ptId + 1)
        { clusters := st.clusters
          cluster := SampleCluster st.cluster p dists ptId offset
          k := st.k } hk
      exact ⟨app, h1, h2, h3, h4, h5, h6⟩
    · split
      · refine ⟨[_], rfl, ?_, ?_, rfl, rfl, ?_⟩
        · simp
        · dsimp only; omega
        · intro c hc
          rw [List.mem_singleton.mp hc]
          exact ⟨rfl, rfl⟩
      · obtain ⟨app, h1, h2, h3, h4, h5, h6⟩ := ih (ptId + 1)
          { clusters := st.clusters ++
              [SampleSeed (SampleCluster st.cluster p dists ptId offset) (closest p + offset)]
            cluster := SampleSeed (SampleCluster st.cluster p dists ptId offset)
              (closest p + offset)
            k := st.k + 1 } (by dsimp only; omega)
        refine ⟨SampleSeed (SampleCluster st.cluster p dists ptId offset)
          (closest p + offset) :: app, ?_, ?_, h3, h4.trans rfl, h5.trans rfl, ?_⟩
        · rw [h1]; simp
        · rw [List.length_cons]
          push_cast
          dsimp only at h2
          omega
        · intro c hc
          rcases List.mem_cons.mp hc with rfl | hc
          · exact ⟨rfl, rfl⟩
          · exact ⟨(h6 c hc).1.trans rfl, (h6 c hc).2.trans rfl⟩

/-- When the loop of `AppendRandomSamples` ends it has appended what was missing up to `n`
clusters, each with the label and the size of the cluster variable. -/
theorem SampleLoop_appends (sampler : Nat → List (α × α × α)) (closest : α × α × α → Nat)
    (dists : Option (Nat → α)) (offset : Nat) (span : α) (n : Int) :
    ∀ (fuel pass : Nat) (m : Int) (max_overlap : α) (clusters : List (Cluster α))
      (cluster : Cluster α) (result : List (Cluster α)),
      0 ≤ m → m ≤ max n 0 →
      SampleLoop sampler closest dists offset span n fuel pass m max_overlap clusters cluster =
        some result →
      ∃ app : List (Cluster α), result = clusters ++ app ∧
        (app.length : Int) = max n 0 - m ∧
        ∀ c ∈ app, c.label = cluster.label ∧ c.size = cluster.size := by
  intro fuel
  induction fuel with
  | zero =>
    intro pass m max_overlap clusters cluster result h0 hm h
    rw [SampleLoop] at h
    split at h
    · simp at h
    · rw [Option.some.injEq] at h
      refine ⟨[], by simp [h], ?_, by simp⟩
      have : max n 0 = n ∨ max n 0 = 0 := by
        rcases le_total n 0 with h1 | h1
        · exact Or.inr (max_eq_right h1)
        · exact Or.inl (max_eq_left h1)
      simp only [List.length_nil, Nat.cast_zero]
      omega
  | succ fuel ih =>
    intro pass m max_overlap clusters cluster result h0 hm h
    rw [SampleLoop] at h
    split at h
    · rename_i hlt
      dsimp only at h
      obtain ⟨app, h1, h2, h3, h4, h5, h6⟩ := SamplePoints_appends closest dists offset span
        max_overlap n m (sampler pass) 0 { clusters := clusters, cluster := cluster, k := 0 }
        (by dsimp only; omega)
      dsimp only at h1 h2 h3 h4 h5 h6
      have hn : max n 0 = n := max_eq_left (by omega)
      split at h
      · rename_i hk
        obtain ⟨app', g1, g2, g3⟩ := ih _ _ _ _ _ result h0 hm h
        refine ⟨app ++ app', ?_, ?_, ?_⟩
        · rw [g1, h1, List.append_assoc]
        · rw [List.length_append]
          push_cast
          rw [hk] at h2
          omega
        · intro c hc
          rcases List.mem_append.mp hc with hc | hc
          · exact h6 c hc
          · rw [← h4, ← h5]; exact g3 c hc
      · rename_i hk
        have hknn : 0 ≤ (SamplePoints closest dists offset span max_overlap n m (sampler pass) 0
            { clusters := clusters, cluster := cluster, k := 0 }).k := by
          have : (0 : Int) ≤ (app.length : Int) := Int.natCast_nonneg _
          omega
        obtain ⟨app', g1, g2, g3⟩ := ih _ _ _ _ _ result (by omega) (by rw [hn]; exact h3) h
        refine ⟨app ++ app', ?_, ?_, ?_⟩
        · rw [g1, h1, List.append_assoc]
        · rw [List.length_append]
          push_cast
          omega
        · intro c hc
          rcases List.mem_append.mp hc with hc | hc
          · exact h6 c hc
          · rw [← h4, ← h5]; exact g3 c hc
    · rename_i hge
      rw [Option.some.injEq] at h
      refine ⟨[], by simp [h], ?_, by simp⟩
      have : max n 0 = n ∨ max n 0 = 0 := by
        rcases le_total n 0 with h1 | h1
        · exact Or.inr (max_eq_right h1)
        · exact Or.inl (max_eq_left h1)
      simp only [List.length_nil, Nat.cast_zero]
      omega

end SamplingClaims

end SelectRois

namespace SelectRois

/-! ## Sorting, degenerate spans, mask promotion and point distances -/

section MiscClaims

set_option linter.unusedSectionVars false

variable {α : Type} [LinearOrderedField α]

/-- The sort of `main` orders the clusters by descending total. -/
theorem SortReverse_descending_total (clusters : List (Cluster α)) :
    (SortReverse clusters).Perm clusters ∧
    (SortReverse clusters).Pairwise (fun a b => b.total ≤ a.total) := by
  constructor
  · unfold SortReverse
    exact (List.reverse_perm _).trans ((List.perm_insertionSort _ _).trans (List.reverse_perm _))
  · unfold SortReverse
    rw [List.pairwise_reverse]
    have hT : IsTotal (Cluster α) (fun a b => Cluster.less b a = false) :=
      ⟨fun a b => by
        simp only [Cluster.less, decide_eq_false_iff_not, not_lt]
        exact le_total _ _⟩
    have hR : IsTrans (Cluster α) (fun a b => Cluster.less b a = false) :=
      ⟨fun a b c h1 h2 => by
        simp only [Cluster.less, decide_eq_false_iff_not, not_lt] at h1 h2 ⊢
        exact le_trans h1 h2⟩
    have hs := List.sorted_insertionSort (fun (a b : Cluster α) => Cluster.less b a = false)
      clusters.reverse
    apply List.Pairwise.imp _ hs
    intro a b hab
    simpa only [Cluster.less, decide_eq_false_iff_not, not_lt] using hab

/-- C15 (failing input): on `sizeMesh` with the distances 3, 3 and 10 `DistantClusters`
returns a cluster of one point with total 10 and a cluster of two points with total 6; the
sort of `main` puts the cluster of one point first. -/
theorem SortReverse_smaller_first :
    (DistantClusters sizeMesh 3 sizeDists 1 2 1 0 1 10).map
      (fun r => (SortReverse r.clusters).map (fun c => (c.size, c.total))) =
      some [(1, 10), (2, 6)] := by
  decide!

theorem mem_GetPointCells (mesh : Mesh α) (ptId cellId : Nat) :
    cellId ∈ mesh.GetPointCells ptId ↔
      ∃ h : cellId < mesh.cells.length, ptId ∈ mesh.cells.get ⟨cellId, h⟩ := by
  simp only [Mesh.GetPointCells, List.mem_filter, List.mem_range, decide_eq_true_eq]
  constructor
  · rintro ⟨_, hp⟩
    exact (mem_GetCellPoints_iff mesh cellId ptId).mp hp
  · rintro ⟨h, hp⟩
    exact ⟨h, (mem_GetCellPoints_iff mesh cellId ptId).mpr ⟨h, hp⟩⟩

/-- C17: `CellMaskToPointData` returns one value per point; the value of a point is 1 if and
only if a cell that uses the point has a non-zero cell mask value, it is 0 otherwise, and it
is 0 for a point that no cell uses. -/
theorem CellMaskToPointData_any_cell (mesh : Mesh α) (mask : Nat → α) :
    (CellMaskToPointData mesh mask).length = mesh.npts ∧
    ∀ (ptId : Nat), ptId < mesh.npts →
      ∃ v, (CellMaskToPointData mesh mask)[ptId]? = some v ∧
        (v = 1 ↔ ∃ (cellId : Nat) (h : cellId < mesh.cells.length),
          ptId ∈ mesh.cells.get ⟨cellId, h⟩ ∧ mask cellId ≠ 0) ∧
        (v = 0 ↔ ¬ ∃ (cellId : Nat) (h : cellId < mesh.cells.length),
          ptId ∈ mesh.cells.get ⟨cellId, h⟩ ∧ mask cellId ≠ 0) ∧
        ((∀ cell ∈ mesh.cells, ptId ∉ cell) → v = 0) := by
  constructor
  · simp [CellMaskToPointData]
  · intro ptId hp
    have hiff : (mesh.GetPointCells ptId).any (fun cellId => decide (mask cellId ≠ 0)) = true ↔
        ∃ (cellId : Nat) (h : cellId < mesh.cells.length),
          ptId ∈ mesh.cells.get ⟨cellId, h⟩ ∧ mask cellId ≠ 0 := by
      rw [List.any_eq_true]
      constructor
      · rintro ⟨c, hc, hm⟩
        obtain ⟨h, hpc⟩ := (mem_GetPointCells mesh ptId c).mp hc
        exact ⟨c, h, hpc, by simpa using hm⟩
      · rintro ⟨c, h, hpc, hm⟩
        exact ⟨c, (mem_GetPointCells mesh ptId c).mpr ⟨h, hpc⟩, by simpa using hm⟩
    refine ⟨if (mesh.GetPointCells ptId).any (fun cellId => decide (mask cellId ≠ 0)) then 1
      else 0, ?_, ?_, ?_, ?_⟩
    · simp only [CellMaskToPointData, List.getElem?_map, List.getElem?_range hp, Option.map_some']
    · rw [← hiff]
      by_cases hany : (mesh.GetPointCells ptId).any (fun cellId => decide (mask cellId ≠ 0)) = true
      · rw [if_pos hany]; exact ⟨fun _ => hany, fun _ => rfl⟩
      · rw [if_neg hany]
        exact ⟨fun h => absurd h zero_ne_one, fun h => absurd h hany⟩
    · rw [← hiff]
      by_cases hany : (mesh.GetPointCells ptId).any (fun cellId => decide (mask cellId ≠ 0)) = true
      · rw [if_pos hany]
        exact ⟨fun h => absurd h one_ne_zero, fun h => absurd hany h⟩
      · rw [if_neg hany]; exact ⟨fun _ => hany, fun _ => rfl⟩
    · intro hno
      rw [if_neg]
      rw [hiff]
      rintro ⟨c, h, hpc, _⟩
      exact hno _ (List.get_mem _ _ _) hpc

/-- C18: `PointToSurfaceDistances` returns one value per point of the mesh, in point order:
0 for a point whose mask value is 0, and otherwise the square root of the squared distance
that the nearest-point query returns for the point; the values are non-negative when the
square root and the squared distances are. -/
theorem PointToSurfaceDistances_values (surface : Mesh α) (closestDist2 : α × α × α → α)
    (sqrt : α → α) (mask : Option (Nat → Nat)) :
    (PointToSurfaceDistances surface closestDist2 sqrt mask).length = surface.npts ∧
    (∀ (ptId : Nat), ptId < surface.npts →
      ((∃ m, mask = some m ∧ m ptId = 0) →
        (PointToSurfaceDistances surface closestDist2 sqrt mask)[ptId]? = some 0) ∧
      ((¬ ∃ m, mask = some m ∧ m ptId = 0) →
        (PointToSurfaceDistances surface closestDist2 sqrt mask)[ptId]? =
          some (sqrt (closestDist2 (surface.point ptId))))) ∧
    ((∀ x, 0 ≤ x → 0 ≤ sqrt x) → (∀ p, 0 ≤ closestDist2 p) →
      ∀ v ∈ PointToSurfaceDistances surface closestDist2 sqrt mask, 0 ≤ v) := by
  refine ⟨by simp [PointToSurfaceDistances], ?_, ?_⟩
  · intro ptId hp
    constructor
    · rintro ⟨m, rfl, hm⟩
      simp [PointToSurfaceDistances, List.getElem?_range hp, hm]
    · intro hno
      cases mask with
      | none => simp [PointToSurfaceDistances, List.getElem?_range hp]
      | some m =>
        have hm : m ptId ≠ 0 := fun h => hno ⟨m, rfl, h⟩
        simp [PointToSurfaceDistances, List.getElem?_range hp, hm]
  · intro hsqrt hd v hv
    simp only [PointToSurfaceDistances, List.mem_map, List.mem_range] at hv
    obtain ⟨ptId, _, rfl⟩ := hv
    split
    · exact le_rfl
    · exact hsqrt _ (hd _)

end MiscClaims

end SelectRois


namespace SelectRois

variable {α : Type} [LinearOrderedField α]

/-! ## Percentile threshold -/

theorem getD_map_dists (dists : Nat → α) (l : List Nat) (i : Nat) (h : i < l.length) :
    (l.map dists).getD i 0 = dists (l.getD i 0) := by
  rw [List.getD_eq_getElem _ _ (by simpa using h), List.getD_eq_getElem _ _ h, List.getElem_map]

theorem InitSeeds_length (n : Nat) (dists : Nat → α) : (InitSeeds n dists).length = n := by
  rw [(InitSeeds_perm n dists).length_eq, List.length_range]

/-- The minimum scan of the `k == 0` branch over a list of point ids. -/
theorem min_scan (dists : Nat → α) (l : List Nat) (t0 : WithTop α) :
    let r := l.foldl
      (fun threshold ptId => if (dists ptId : WithTop α) < threshold then (dists ptId : WithTop α)
        else threshold) t0
    r ≤ t0 ∧ (∀ p ∈ l, r ≤ (dists p : WithTop α)) ∧
      (r = t0 ∨ ∃ p ∈ l, r = (dists p : WithTop α)) := by
  induction l generalizing t0 with
  | nil => simp
  | cons a l ih =>
    simp only [List.foldl_cons]
    by_cases h : (dists a : WithTop α) < t0
    · rw [if_pos h]
      obtain ⟨h1, h2, h3⟩ := ih (dists a : WithTop α)
      refine ⟨le_trans h1 h.le, ?_, ?_⟩
      · intro p hp
        rcases List.mem_cons.mp hp with rfl | hp
        · exact h1
        · exact h2 p hp
      · right
        rcases h3 with h3 | ⟨p, hp, h3⟩
        · exact ⟨a, List.mem_cons_self _ _, h3⟩
        · exact ⟨p, List.mem_cons_of_mem _ hp, h3⟩
    · rw [if_neg h]
      obtain ⟨h1, h2, h3⟩ := ih t0
      refine ⟨h1, ?_, ?_⟩
      · intro p hp
        rcases List.mem_cons.mp hp with rfl | hp
        · exact le_trans h1 (not_lt.mp h)
        · exact h2 p hp
      · rcases h3 with h3 | ⟨p, hp, h3⟩
        · exact Or.inl h3
        · exact Or.inr ⟨p, List.mem_cons_of_mem _ hp, h3⟩

/-- The maximum scan of the `k >= n` branch over a list of point ids. -/
theorem max_scan (dists : Nat → α) (l : List Nat) (t0 : α) :
    let r := l.foldl
      (fun threshold ptId => if threshold < dists ptId then dists ptId else threshold) t0
    t0 ≤ r ∧ (∀ p ∈ l, dists p ≤ r) ∧ (r = t0 ∨ ∃ p ∈ l, r = dists p) := by
  induction l generalizing t0 with
  | nil => simp
  | cons a l ih =>
    simp only [List.foldl_cons]
    by_cases h : t0 < dists a
    · rw [if_pos h]
      obtain ⟨h1, h2, h3⟩ := ih (dists a)
      refine ⟨le_trans h.le h1, ?_, ?_⟩
      · intro p hp
        rcases List.mem_cons.mp hp with rfl | hp
        · exact h1
        · exact h2 p hp
      · right
        rcases h3 with h3 | ⟨p, hp, h3⟩
        · exact ⟨a, List.mem_cons_self _ _, h3⟩
        · exact ⟨p, List.mem_cons_of_mem _ hp, h3⟩
    · rw [if_neg h]
      obtain ⟨h1, h2, h3⟩ := ih t0
      refine ⟨h1, ?_, ?_⟩
      · intro p hp
        rcases List.mem_cons.mp hp with rfl | hp
        · exact le_trans (not_lt.mp h) h1
        · exact h2 p hp
      · rcases h3 with h3 | ⟨p, hp, h3⟩
        · exact Or.inl h3
        · exact Or.inr ⟨p, List.mem_cons_of_mem _ hp, h3⟩

/-- C19 (counterexample). Three points at distances 1, 2, 4 and percentile 60: rank = 2.4 and
k = 2, the threshold of `DistantClusters` before the clamp is 2 + 0.4 * (4 - 2) = 14/5, while
the interpolation between the first and the second smallest distance is 1 + 0.4 * (2 - 1) =
7/5. -/
theorem PercentileValue_not_lower_pair :
    ⌊((60 : Int) : ℚ) / 100 * (((3 : Int) + 1 : Int) : ℚ)⌋ = 2 ∧
    PercentileValue 3 stepDists (InitSeeds 3 stepDists) 60 = ((14 / 5 : ℚ) : WithTop ℚ) ∧
    kthSmallest 3 stepDists (2 - 1) +
        (((60 : Int) : ℚ) / 100 * (((3 : Int) + 1 : Int) : ℚ) - 2) *
          (kthSmallest 3 stepDists 2 - kthSmallest 3 stepDists (2 - 1)) = 7 / 5 ∧
    PercentileValue 3 stepDists (InitSeeds 3 stepDists) 60 ≠
      ((kthSmallest 3 stepDists (2 - 1) +
        (((60 : Int) : ℚ) / 100 * (((3 : Int) + 1 : Int) : ℚ) - 2) *
          (kthSmallest 3 stepDists 2 - kthSmallest 3 stepDists (2 - 1)) : ℚ) : WithTop ℚ) := by
  decide!

/-- C19 (amended). For `n` points, rank = (P/100) * (n+1) and k = floor(rank) with
0 < k < n, the percentile threshold computed by `DistantClusters` before the clamp is
d(k) + (rank - k) * (d(k+1) - d(k)), where d(i) is the i-th smallest distance counted from 1:
the i-th entry of the distances listed in ascending order, a rearrangement of the distance
array. -/
theorem PercentileValue_interpolation [FloorRing α] (n : Nat) (dists : Nat → α) (P : Int)
    (hk0 : 0 < ⌊((P : α) / 100) * (((n : Int) + 1 : Int) : α)⌋)
    (hkn : ⌊((P : α) / 100) * (((n : Int) + 1 : Int) : α)⌋ < (n : Int)) :
    PercentileValue n dists (InitSeeds n dists) P =
      ((kthSmallest n dists ⌊((P : α) / 100) * (((n : Int) + 1 : Int) : α)⌋.toNat +
          (((P : α) / 100) * (((n : Int) + 1 : Int) : α) -
              ((⌊((P : α) / 100) * (((n : Int) + 1 : Int) : α)⌋ : Int) : α)) *
            (kthSmallest n dists (⌊((P : α) / 100) * (((n : Int) + 1 : Int) : α)⌋.toNat + 1) -
              kthSmallest n dists ⌊((P : α) / 100) * (((n : Int) + 1 : Int) : α)⌋.toNat) : α) :
        WithTop α) ∧
    ((InitSeeds n dists).map dists).Pairwise (fun a b => a ≤ b) ∧
    ((InitSeeds n dists).map dists).Perm ((List.range n).map dists) := by
  refine ⟨?_, ?_, (InitSeeds_perm n dists).map dists⟩
  · generalize hk : ⌊((P : α) / 100) * (((n : Int) + 1 : Int) : α)⌋ = k at hk0 hkn
    have hlen := InitSeeds_length n dists
    have e1 : kthSmallest n dists k.toNat = dists ((InitSeeds n dists).getD (k - 1).toNat 0) := by
      unfold kthSmallest
      rw [getD_map_dists _ _ _ (by omega)]
      congr 2
      omega
    have e2 : kthSmallest n dists (k.toNat + 1) =
        dists ((InitSeeds n dists).getD k.toNat 0) := by
      unfold kthSmallest
      rw [getD_map_dists _ _ _ (by omega)]
      rfl
    rw [e1, e2]
    unfold PercentileValue
    simp only [hk]
    rw [if_neg (by omega), if_neg (by omega)]
  · exact List.pairwise_map.mpr (InitSeeds_sorted n dists)

/-- Witness of `PercentileValue_interpolation`: distances 1, 2, 4 and percentile 60. -/
theorem PercentileValue_interpolation_witness :
    (0 < ⌊((60 : Int) : ℚ) / 100 * (((3 : Nat) : Int) + 1 : Int)⌋ ∧
      ⌊((60 : Int) : ℚ) / 100 * (((3 : Nat) : Int) + 1 : Int)⌋ < ((3 : Nat) : Int)) ∧
    PercentileValue 3 stepDists (InitSeeds 3 stepDists) 60 = ((14 / 5 : ℚ) : WithTop ℚ) :=
  ⟨by decide!, (PercentileValue_interpolation 3 stepDists 60 (by decide!) (by decide!)).1.trans
    (by decide!)⟩

/-- C20. For a field of `n >= 1` distances, rank = (P/100) * (n+1) and k = floor(rank): if
k = 0 the percentile threshold before the clamp is the global minimum distance (the distance
of some point, at most every point's distance), and if k >= n and the distances are
non-negative it is the global maximum distance. -/
theorem PercentileValue_min_max [FloorRing α] (n : Nat) (dists : Nat → α) (seeds : List Nat)
    (P : Int) (hn : 0 < n) :
    (⌊((P : α) / 100) * (((n : Int) + 1 : Int) : α)⌋ = 0 →
      ∃ p, p < n ∧ PercentileValue n dists seeds P = (dists p : WithTop α) ∧
        ∀ q, q < n → dists p ≤ dists q) ∧
    ((n : Int) ≤ ⌊((P : α) / 100) * (((n : Int) + 1 : Int) : α)⌋ →
      (∀ q, q < n → 0 ≤ dists q) →
      ∃ p, p < n ∧ PercentileValue n dists seeds P = (dists p : WithTop α) ∧
        ∀ q, q < n → dists q ≤ dists p) := by
  constructor
  · intro hk
    unfold PercentileValue
    simp only [hk]
    rw [if_pos trivial]
    obtain ⟨-, h2, h3⟩ := min_scan dists (List.range n) ⊤
    rcases h3 with h3 | ⟨p, hp, h3⟩
    · have := h2 0 (List.mem_range.mpr hn)
      rw [h3] at this
      exact absurd (top_le_iff.mp this) (WithTop.coe_ne_top)
    · refine ⟨p, List.mem_range.mp hp, h3, fun q hq => ?_⟩
      have := h2 q (List.mem_range.mpr hq)
      rw [h3] at this
      exact WithTop.coe_le_coe.mp this
  · intro hk hnn
    unfold PercentileValue
    rw [if_neg (by omega), if_pos (by simpa using hk)]
    obtain ⟨h1, h2, h3⟩ := max_scan dists (List.range n) 0
    rcases h3 with h3 | ⟨p, hp, h3⟩
    · have h0 : dists 0 = 0 := le_antisymm (h3 ▸ h2 0 (List.mem_range.mpr hn)) (hnn 0 hn)
      refine ⟨0, hn, ?_, fun q hq => ?_⟩
      · rw [h3, h0]
      · rw [h0, ← h3]
        exact h2 q (List.mem_range.mpr hq)
    · refine ⟨p, List.mem_range.mp hp, by rw [h3], fun q hq => ?_⟩
      rw [← h3]
      exact h2 q (List.mem_range.mpr hq)

/-- Witness of `PercentileValue_min_max`: distances 1, 2, 4; percentile 10 gives the minimum 1
and percentile 100 the maximum 4. -/
theorem PercentileValue_min_max_witness :
    0 < 3 ∧
    PercentileValue 3 stepDists (InitSeeds 3 stepDists) 10 = ((1 : ℚ) : WithTop ℚ) ∧
    PercentileValue 3 stepDists (InitSeeds 3 stepDists) 100 = ((4 : ℚ) : WithTop ℚ) ∧
    ((⌊((10 : Int) : ℚ) / 100 * (((3 : Nat) : Int) + 1 : Int)⌋ = 0 →
      ∃ p, p < 3 ∧ PercentileValue 3 stepDists (InitSeeds 3 stepDists) 10 =
          (stepDists p : WithTop ℚ) ∧
        ∀ q, q < 3 → stepDists p ≤ stepDists q)) :=
  ⟨by decide, by decide!, by decide!,
    (PercentileValue_min_max 3 stepDists (InitSeeds 3 stepDists) 10 (by decide)).1⟩

end SelectRois

namespace SelectRois

/-! ## Clamped thresholds and the seed stack -/

section SeedClaims

set_option linter.unusedSectionVars false

variable {α : Type} [LinearOrderedField α]

theorem ite_lt_eq_max {β : Type} [LinearOrder β] (a b : β) :
    (if a < b then b else a) = max a b := by
  by_cases h : a < b
  · rw [if_pos h, max_eq_right h.le]
  · rw [if_neg h, max_eq_left (not_lt.mp h)]

/-- C21: the growth threshold that `DistantClusters` hands to its loop is the maximum of the
percentile value (0 when the percentile is not positive) and `min_threshold`, the seed bound
is the maximum of `min_seed_dist` and that threshold, and so
seed bound >= threshold >= `min_threshold` for all inputs. -/
theorem EffectiveThreshold_max [FloorRing α] (surface : Mesh α) (ndists : Nat)
    (dists : Nat → α) (min_size : Int) (min_seed_dist min_threshold : α)
    (dists_percentile start_label : Int) (fuel : Nat) :
    EffectiveThreshold ndists dists min_threshold dists_percentile =
      max (if 0 < dists_percentile then
          PercentileValue ndists dists (InitSeeds ndists dists) dists_percentile
        else ((0 : α) : WithTop α)) (min_threshold : WithTop α) ∧
    EffectiveSeedDist min_seed_dist
        (EffectiveThreshold ndists dists min_threshold dists_percentile) =
      max (min_seed_dist : WithTop α)
        (EffectiveThreshold ndists dists min_threshold dists_percentile) ∧
    (min_threshold : WithTop α) ≤
      EffectiveThreshold ndists dists min_threshold dists_percentile ∧
    EffectiveThreshold ndists dists min_threshold dists_percentile ≤
      EffectiveSeedDist min_seed_dist
        (EffectiveThreshold ndists dists min_threshold dists_percentile) ∧
    DistantClusters surface ndists dists min_size min_seed_dist min_threshold
        dists_percentile start_label fuel =
      ClusterLoop surface dists min_size
        (EffectiveSeedDist min_seed_dist
          (EffectiveThreshold ndists dists min_threshold dists_percentile))
        (EffectiveThreshold ndists dists min_threshold dists_percentile) fuel
        (ClusterInit ndists dists start_label) := by
  have h1 : EffectiveThreshold ndists dists min_threshold dists_percentile =
      max (if 0 < dists_percentile then
          PercentileValue ndists dists (InitSeeds ndists dists) dists_percentile
        else ((0 : α) : WithTop α)) (min_threshold : WithTop α) := by
    unfold EffectiveThreshold
    exact ite_lt_eq_max _ _
  have h2 : ∀ T : WithTop α, EffectiveSeedDist min_seed_dist T =
      max (min_seed_dist : WithTop α) T := by
    intro T
    unfold EffectiveSeedDist
    exact ite_lt_eq_max _ _
  refine ⟨h1, h2 _, ?_, ?_, rfl⟩
  · rw [h1]; exact le_max_right _ _
  · rw [h2]; exact le_max_right _ _

theorem NextSeed_none_nil {dists : Nat → α} {labels : Nat → Int} {S : WithTop α} :
    ∀ (stack stack2 : List Nat), NextSeed dists labels S stack = (none, stack2) →
      stack2 = [] := by
  intro stack
  induction stack with
  | nil => intro stack2 h; simp [NextSeed] at h; exact h
  | cons top seeds ih =>
    intro stack2 h
    unfold NextSeed at h
    by_cases h1 : (dists top : WithTop α) < S
    · rw [if_pos h1] at h
      simp only [Prod.mk.injEq, true_and] at h
      exact h.symm
    · rw [if_neg h1] at h
      by_cases h2 : labels top = -1
      · rw [if_pos h2] at h; simp at h
      · rw [if_neg h2] at h
        exact ih stack2 h

/-- C22: for a stack (listed from its top) whose distances do not increase from the top
down, `NextSeed` returns -1 and leaves the stack empty when no stacked index is unassigned
and at or above the seed bound; otherwise it pops indices with a label other than -1 only and
returns, and leaves on top, the unassigned index nearest the top, which is at or above the
seed bound and at least as distant as every unassigned stacked index. -/
theorem NextSeed_top_unassigned (dists : Nat → α) (labels : Nat → Int) (S : WithTop α)
    (stack : List Nat) (hsorted : stack.Pairwise (fun a b => dists b ≤ dists a)) :
    ((¬ ∃ q ∈ stack, labels q = -1 ∧ S ≤ (dists q : WithTop α)) →
      NextSeed dists labels S stack = (none, [])) ∧
    ((∃ q ∈ stack, labels q = -1 ∧ S ≤ (dists q : WithTop α)) →
      ∃ popped seed rest, stack = popped ++ seed :: rest ∧
        NextSeed dists labels S stack = (some seed, seed :: rest) ∧
        (∀ q ∈ popped, labels q ≠ -1) ∧ labels seed = -1 ∧
        S ≤ (dists seed : WithTop α) ∧
        ∀ q ∈ stack, labels q = -1 → dists q ≤ dists seed) := by
  constructor
  · intro hno
    rcases h : NextSeed dists labels S stack with ⟨_ | seed, stack2⟩
    · rw [NextSeed_none_nil stack stack2 h]
    · exfalso
      obtain ⟨popped, rest, h1, h2, _, h4, h5⟩ := NextSeed_some stack seed stack2 h
      exact hno ⟨seed, by rw [h1, h2]; simp, h4, h5⟩
  · rintro ⟨q, hq, hq1, hq2⟩
    rcases h : NextSeed dists labels S stack with ⟨_ | seed, stack2⟩
    · exact absurd hq1 (NextSeed_none stack stack2 hsorted h q hq hq2)
    · obtain ⟨popped, rest, h1, h2, h3, h4, h5⟩ := NextSeed_some stack seed stack2 h
      subst h2
      refine ⟨popped, seed, rest, h1, rfl, h3, h4, h5, ?_⟩
      intro p hp hp1
      rw [h1] at hp hsorted
      rcases List.mem_append.mp hp with hp | hp
      · exact absurd hp1 (h3 p hp)
      · rcases List.mem_cons.mp hp with rfl | hp
        · exact le_rfl
        · exact (List.pairwise_cons.mp (List.pairwise_append.mp hsorted).2.1).1 p hp

/-- Witness of `NextSeed_top_unassigned`: the stack 2, 1, 0 over the distances 4, 2, 1 with
point 2 assigned and the seed bound 2. -/
theorem NextSeed_top_unassigned_witness :
    [2, 1, 0].Pairwise (fun a b => stepDists b ≤ stepDists a) ∧
    NextSeed stepDists (fun i => if i = 2 then 1 else -1) ((2 : ℚ) : WithTop ℚ) [2, 1, 0] =
      (some 1, [1, 0]) ∧
    ((∃ q ∈ [2, 1, 0], (fun i => if i = 2 then (1 : Int) else -1) q = -1 ∧
        ((2 : ℚ) : WithTop ℚ) ≤ (stepDists q : WithTop ℚ)) →
      ∃ popped seed rest, [2, 1, 0] = popped ++ seed :: rest ∧
        NextSeed stepDists (fun i => if i = 2 then 1 else -1) ((2 : ℚ) : WithTop ℚ)
          [2, 1, 0] = (some seed, seed :: rest) ∧
        (∀ q ∈ popped, (fun i => if i = 2 then (1 : Int) else -1) q ≠ -1) ∧
        (fun i => if i = 2 then (1 : Int) else -1) seed = -1 ∧
        ((2 : ℚ) : WithTop ℚ) ≤ (stepDists seed : WithTop ℚ) ∧
        ∀ q ∈ [2, 1, 0], (fun i => if i = 2 then (1 : Int) else -1) q = -1 →
          stepDists q ≤ stepDists seed) :=
  ⟨by decide!, by decide!,
    (NextSeed_top_unassigned stepDists (fun i => if i = 2 then 1 else -1) ((2 : ℚ) : WithTop ℚ)
      [2, 1, 0] (by decide!)).2⟩

end SeedClaims

end SelectRois

namespace SelectRois

/-! ## Labels other than -1 are not touched by the growth -/

section KeepLabels

set_option linter.unusedSectionVars false

variable {α : Type} [LinearOrderedField α]

theorem GrowLoop_keeps (mesh : Mesh α) (L : Int) (dists : Nat → α) (T : WithTop α) :
    ∀ (fuel : Nat) (queue : List Nat) (st r : GrowState α),
      (∀ q ∈ queue, st.labels q = -1 ∨ st.labels q = L) →
      GrowLoop mesh L dists T fuel queue st = some r →
      ∀ p, st.labels p ≠ -1 → r.labels p = st.labels p := by
  intro fuel
  induction fuel with
  | zero =>
    intro queue st r _ h p _
    cases queue with
    | nil => simp only [GrowLoop, Option.some.injEq] at h; rw [← h]
    | cons a l => simp [GrowLoop] at h
  | succ fuel ih =>
    intro queue st r hq h p hp
    cases queue with
    | nil => simp only [GrowLoop, Option.some.injEq] at h; rw [← h]
    | cons a l =>
      rw [GrowLoop] at h
      by_cases ha : st.labels a ≠ L
      · rw [if_pos ha] at h
        have ha1 : st.labels a = -1 := (hq a (List.mem_cons_self _ _)).resolve_right ha
        have hpa : p ≠ a := fun e => hp (e ▸ ha1)
        have := ih _ _ r ?_ h p (by simpa [Function.update_noteq hpa] using hp)
        · rw [this]
          simp [Function.update_noteq hpa]
        · intro q hq'
          dsimp only
          rcases List.mem_append.mp hq' with hq' | hq'
          · by_cases hqa : q = a
            · right; rw [hqa]; simp
            · rw [Function.update_noteq hqa]
              exact hq q (List.mem_cons_of_mem _ hq')
          · left
            exact ((mem_GrowNeighbors mesh a dists _ T q).mp hq').2.1
      · rw [if_neg ha] at h
        exact ih _ _ r (fun q hq' => hq q (List.mem_cons_of_mem _ hq')) h p hp

theorem GrowCluster_keeps (mesh : Mesh α) (seed : Nat) (L : Int) (dists : Nat → α)
    (labels : Nat → Int) (T : WithTop α) (fuel : Nat) (g : GrowResult α)
    (hseed : labels seed = -1)
    (h : GrowCluster mesh seed L dists labels T fuel = some g) :
    ∀ p, labels p ≠ -1 → g.labels p = labels p := by
  unfold GrowCluster at h
  rcases hl : GrowLoop mesh L dists T fuel [seed]
      { labels := labels, size := 0, center := (0, 0, 0), total := 0 } with _ | r
  · rw [hl] at h; simp at h
  · rw [hl] at h
    simp only [Option.map_some', Option.some.injEq] at h
    intro p hp
    have := GrowLoop_keeps mesh L dists T fuel [seed] _ r
      (fun q hq => by rw [List.mem_singleton.mp hq]; exact Or.inl hseed) hl p hp
    rw [← h]
    exact this

theorem DiscardCluster_zero (n : Nat) (labels : Nat → Int) (L : Int) (p : Nat)
    (h : labels p = 0) : DiscardCluster n labels L p = 0 := by
  unfold DiscardCluster
  split
  · dsimp only
    split
    · rfl
    · exact h
  · exact h

theorem DiscardCluster_member (n : Nat) (labels : Nat → Int) (L : Int) (hL : L ≠ 0) (p : Nat)
    (hp : p < n) (h : labels p = L) : DiscardCluster n labels L p = 0 := by
  unfold DiscardCluster
  rw [if_pos hL, if_pos ⟨hp, h⟩]

/-- What one pass through the loop body does, read off `ClusterIter`. -/
theorem ClusterIter_cases (mesh : Mesh α) (dists : Nat → α) (min_size : Int)
    (S T : WithTop α) (fuel : Nat) (st st2 : ClusterState α)
    (h : ClusterIter mesh dists min_size S T fuel st = some st2) :
    ∃ seed seeds g, NextSeed dists st.labels S st.seeds = (some seed, seeds) ∧
      GrowCluster mesh seed st.label dists st.labels T fuel = some g ∧
      ((g.size < min_size ∧
          st2 = { seeds := seeds
                  labels := DiscardCluster mesh.npts g.labels st.label
                  clusters := st.clusters
                  label := st.label }) ∨
       (¬ g.size < min_size ∧
          st2 = { seeds := seeds
                  labels := g.labels
                  clusters := st.clusters ++
                    [{ label := st.label, seed := (seed : Int), size := g.size,
                       center := g.center, total := g.total }]
                  label := st.label + 1 })) := by
  unfold ClusterIter at h
  rcases hn : NextSeed dists st.labels S st.seeds with ⟨_ | seed, seeds⟩
  · rw [hn] at h; simp at h
  · rw [hn] at h
    dsimp only at h
    rcases hg : GrowCluster mesh seed st.label dists st.labels T fuel with _ | g
    · rw [hg] at h; simp at h
    · rw [hg] at h
      dsimp only at h
      refine ⟨seed, seeds, g, rfl, hg, ?_⟩
      by_cases hs : g.size < min_size
      · rw [if_pos hs] at h
        exact Or.inl ⟨hs, (Option.some.inj h).symm⟩
      · rw [if_neg hs] at h
        exact Or.inr ⟨hs, (Option.some.inj h).symm⟩

theorem ClusterLoop_iter (mesh : Mesh α) (dists : Nat → α) (min_size : Int)
    (S T : WithTop α) (fuel : Nat) (st st2 : ClusterState α)
    (h : ClusterIter mesh dists min_size S T fuel st = some st2) :
    ClusterLoop mesh dists min_size S T (fuel + 1) st =
      ClusterLoop mesh dists min_size S T fuel st2 := by
  obtain ⟨seed, seeds, g, h1, h2, h3⟩ := ClusterIter_cases mesh dists min_size S T fuel st st2 h
  rw [ClusterLoop, h1]
  dsimp only
  rw [h2]
  dsimp only
  rcases h3 with ⟨hs, rfl⟩ | ⟨hs, rfl⟩
  · rw [if_pos hs]
  · rw [if_neg hs]

theorem ClusterLoop_unfold (mesh : Mesh α) (dists : Nat → α) (min_size : Int)
    (S T : WithTop α) (fuel : Nat) (st : ClusterState α) (r : ClusterResult α)
    (h : ClusterLoop mesh dists min_size S T (fuel + 1) st = some r) :
    r.labels = st.labels ∨
      ∃ st2, ClusterIter mesh dists min_size S T fuel st = some st2 ∧
        ClusterLoop mesh dists min_size S T fuel st2 = some r := by
  rcases hi : ClusterIter mesh dists min_size S T fuel st with _ | st2
  · left
    unfold ClusterIter at hi
    rw [ClusterLoop] at h
    rcases hn : NextSeed dists st.labels S st.seeds with ⟨_ | seed, seeds⟩
    · rw [hn] at h
      simp only [Option.some.injEq] at h
      rw [← h]
    · rw [hn] at h hi
      dsimp only at h hi
      rcases hg : GrowCluster mesh seed st.label dists st.labels T fuel with _ | g
      · rw [hg] at h; simp at h
      · rw [hg] at hi
        dsimp only at hi
        split at hi <;> simp at hi
  · right
    exact ⟨st2, rfl, by rw [← ClusterLoop_iter mesh dists min_size S T fuel st st2 hi]; exact h⟩

theorem ClusterIter_keeps_zero (mesh : Mesh α) (dists : Nat → α) (min_size : Int)
    (S T : WithTop α) (fuel : Nat) (st st2 : ClusterState α)
    (h : ClusterIter mesh dists min_size S T fuel st = some st2) :
    (∀ p, st.labels p = 0 → st2.labels p = 0) ∧ st.label ≤ st2.label := by
  obtain ⟨seed, seeds, g, h1, h2, h3⟩ := ClusterIter_cases mesh dists min_size S T fuel st st2 h
  obtain ⟨_, _, _, _, _, hseed, _⟩ := NextSeed_some st.seeds seed seeds h1
  have hk := GrowCluster_keeps mesh seed st.label dists st.labels T fuel g hseed h2
  rcases h3 with ⟨_, rfl⟩ | ⟨_, rfl⟩
  · refine ⟨fun p hp => ?_, le_rfl⟩
    apply DiscardCluster_zero
    rw [hk p (by rw [hp]; decide), hp]
  · refine ⟨fun p hp => ?_, by dsimp only; omega⟩
    dsimp only
    rw [hk p (by rw [hp]; decide), hp]

theorem ClusterNext_reach_zero (mesh : Mesh α) (dists : Nat → α) (min_size : Int)
    (S T : WithTop α) (st st2 : ClusterState α)
    (h : Relation.ReflTransGen (ClusterNext mesh dists min_size S T) st st2) :
    (∀ p, st.labels p = 0 → st2.labels p = 0) ∧ st.label ≤ st2.label := by
  induction h with
  | refl => exact ⟨fun _ hp => hp, le_rfl⟩
  | tail _ hstep ih =>
    obtain ⟨fuel, hf⟩ := hstep
    obtain ⟨h1, h2⟩ := ClusterIter_keeps_zero mesh dists min_size S T fuel _ _ hf
    exact ⟨fun p hp => h1 p (ih.1 p hp), le_trans ih.2 h2⟩

theorem ClusterLoop_keeps_zero (mesh : Mesh α) (dists : Nat → α) (min_size : Int)
    (S T : WithTop α) :
    ∀ (fuel : Nat) (st : ClusterState α) (r : ClusterResult α),
      ClusterLoop mesh dists min_size S T fuel st = some r →
      ∀ p, st.labels p = 0 → r.labels p = 0 := by
  intro fuel
  induction fuel with
  | zero => intro st r h; simp [ClusterLoop] at h
  | succ fuel ih =>
    intro st r h p hp
    rcases ClusterLoop_unfold mesh dists min_size S T fuel st r h with h1 | ⟨st2, h1, h2⟩
    · rw [h1]; exact hp
    · exact ih st2 r h2 p ((ClusterIter_keeps_zero mesh dists min_size S T fuel st st2 h1).1 p hp)

end KeepLabels

theorem sizeMesh_wellFormed : sizeMesh.WellFormed := by
  intro cell hc p hp
  simp only [sizeMesh, List.mem_cons, List.mem_singleton, List.not_mem_nil, or_false] at hc
  rcases hc with rfl | rfl
  · simp only [List.mem_cons, List.mem_singleton, List.not_mem_nil, or_false] at hp
    rcases hp with rfl | rfl <;> decide
  · simp only [List.mem_singleton] at hp
    subst hp; decide

end SelectRois

namespace SelectRois

/-! ## Discarded points stay discarded -/

section DiscardClaims

set_option linter.unusedSectionVars false

variable {α : Type} [LinearOrderedField α]

/-- C23: in `DistantClusters` with a first label of at least 1, at every state the loop
reaches: the seed that `NextSeed` returns is unassigned, the growth changes no point with
label 0, so such a point is neither the seed nor a member of the grown cluster; when the
grown cluster has fewer than `min_size` points the pass leaves all its members with label 0;
and a point with label 0 has label 0 in every later state and in the returned label array.
The returned clusters have at least `min_size` points each, none has the label 0, and their
label sets are pairwise disjoint. -/
theorem DistantClusters_discard_permanent [FloorRing α] (surface : Mesh α) (ndists : Nat)
    (dists : Nat → α) (min_size : Int) (min_seed_dist min_threshold : α)
    (dists_percentile start_label : Int)
    (hwf : surface.WellFormed) (hn : ndists = surface.npts) (hstart : 1 ≤ start_label) :
    (∀ st : ClusterState α,
      Relation.ReflTransGen
        (ClusterNext surface dists min_size
          (EffectiveSeedDist min_seed_dist
            (EffectiveThreshold ndists dists min_threshold dists_percentile))
          (EffectiveThreshold ndists dists min_threshold dists_percentile))
        (ClusterInit ndists dists start_label) st →
      (∀ (seed : Nat) (seeds : List Nat) (fuel : Nat) (g : GrowResult α),
        NextSeed dists st.labels
          (EffectiveSeedDist min_seed_dist
            (EffectiveThreshold ndists dists min_threshold dists_percentile)) st.seeds =
          (some seed, seeds) →
        GrowCluster surface seed st.label dists st.labels
          (EffectiveThreshold ndists dists min_threshold dists_percentile) fuel = some g →
        st.labels seed = -1 ∧
        (∀ p, st.labels p = 0 → g.labels p = 0 ∧ g.labels p ≠ st.label) ∧
        (g.size < min_size →
          ClusterIter surface dists min_size
              (EffectiveSeedDist min_seed_dist
                (EffectiveThreshold ndists dists min_threshold dists_percentile))
              (EffectiveThreshold ndists dists min_threshold dists_percentile) fuel st =
            some { seeds := seeds
                   labels := DiscardCluster surface.npts g.labels st.label
                   clusters := st.clusters
                   label := st.label } ∧
          ∀ p, p < surface.npts → g.labels p = st.label →
            DiscardCluster surface.npts g.labels st.label p = 0)) ∧
      (∀ (fuel : Nat) (st2 : ClusterState α),
        ClusterIter surface dists min_size
            (EffectiveSeedDist min_seed_dist
              (EffectiveThreshold ndists dists min_threshold dists_percentile))
            (EffectiveThreshold ndists dists min_threshold dists_percentile) fuel st =
          some st2 →
        ClusterLoop surface dists min_size
            (EffectiveSeedDist min_seed_dist
              (EffectiveThreshold ndists dists min_threshold dists_percentile))
            (EffectiveThreshold ndists dists min_threshold dists_percentile) (fuel + 1) st =
          ClusterLoop surface dists min_size
            (EffectiveSeedDist min_seed_dist
              (EffectiveThreshold ndists dists min_threshold dists_percentile))
            (EffectiveThreshold ndists dists min_threshold dists_percentile) fuel st2) ∧
      (∀ st2 : ClusterState α,
        Relation.ReflTransGen
          (ClusterNext surface dists min_size
            (EffectiveSeedDist min_seed_dist
              (EffectiveThreshold ndists dists min_threshold dists_percentile))
            (EffectiveThreshold ndists dists min_threshold dists_percentile)) st st2 →
        ∀ p, st.labels p = 0 → st2.labels p = 0) ∧
      (∀ (fuel : Nat) (r : ClusterResult α),
        ClusterLoop surface dists min_size
            (EffectiveSeedDist min_seed_dist
              (EffectiveThreshold ndists dists min_threshold dists_percentile))
            (EffectiveThreshold ndists dists min_threshold dists_percentile) fuel st =
          some r →
        ∀ p, st.labels p = 0 → r.labels p = 0)) ∧
    (∀ (fuel : Nat) (r : ClusterResult α),
      DistantClusters surface ndists dists min_size min_seed_dist min_threshold
        dists_percentile start_label fuel = some r →
      (∀ c ∈ r.clusters, min_size ≤ c.size ∧ c.label ≠ 0) ∧
      r.clusters.Pairwise (fun a b =>
        Disjoint (Members surface.npts r.labels a.label)
          (Members surface.npts r.labels b.label))) := by
  constructor
  · intro st hreach
    have hlabel : 1 ≤ st.label :=
      le_trans hstart (ClusterNext_reach_zero surface dists min_size _ _ _ st hreach).2
    refine ⟨?_, ?_, ?_, ?_⟩
    · intro seed seeds fuel g hnext hgrow
      obtain ⟨_, _, _, _, _, hseed, _⟩ := NextSeed_some st.seeds seed seeds hnext
      have hk := GrowCluster_keeps surface seed st.label dists st.labels _ fuel g hseed hgrow
      refine ⟨hseed, ?_, ?_⟩
      · intro p hp
        have h0 : g.labels p = 0 := by rw [hk p (by rw [hp]; decide), hp]
        exact ⟨h0, by rw [h0]; omega⟩
      · intro hsize
        refine ⟨?_, ?_⟩
        · unfold ClusterIter
          rw [hnext]
          dsimp only
          rw [hgrow]
          dsimp only
          rw [if_pos hsize]
        · intro p hp hL
          exact DiscardCluster_member surface.npts g.labels st.label (by omega) p hp hL
    · intro fuel st2 h
      exact ClusterLoop_iter surface dists min_size _ _ fuel st st2 h
    · intro st2 h
      exact (ClusterNext_reach_zero surface dists min_size _ _ st st2 h).1
    · intro fuel r h
      exact ClusterLoop_keeps_zero surface dists min_size _ _ fuel st r h
  · intro fuel r h
    have inv := (DistantClusters_total surface ndists dists min_size min_seed_dist min_threshold
      dists_percentile start_label hwf hn hstart).2 fuel r h
    refine ⟨fun c hc => ⟨(inv.cluster c hc).sizeMin, ?_⟩, ?_⟩
    · have := (inv.cluster_label hstart hc).1
      omega
    · rw [List.pairwise_iff_get]
      intro i j hij
      have hi := inv.labelAt i.1 i.2
      have hj := inv.labelAt j.1 j.2
      dsimp only at hi hj
      have hne : (r.clusters.get i).label ≠ (r.clusters.get j).label := by
        rw [hi, hj]
        have : (i : Nat) < (j : Nat) := hij
        omega
      rw [Finset.disjoint_left]
      intro p hp1 hp2
      simp only [Members, Finset.mem_filter] at hp1 hp2
      exact hne (hp1.2.symm.trans hp2.2)

/-- Witness of `DistantClusters_discard_permanent`: on `sizeMesh` with the distances 3, 3, 10
and `min_size` 2 the cluster of point 2 is discarded, the cluster of the points 0 and 1 is
returned, and the labels at return are 1, 1, 0. -/
theorem DistantClusters_discard_permanent_witness :
    sizeMesh.WellFormed ∧ 3 = sizeMesh.npts ∧ (1 : Int) ≤ 1 ∧
    (DistantClusters sizeMesh 3 sizeDists 2 2 1 0 1 10).map
      (fun r => (r.clusters.map (fun c => (c.label, c.size)), (List.range 3).map r.labels)) =
      some ([(1, 2)], [1, 1, 0]) ∧
    (∀ (fuel : Nat) (r : ClusterResult ℚ),
      DistantClusters sizeMesh 3 sizeDists 2 2 1 0 1 fuel = some r →
      (∀ c ∈ r.clusters, (2 : Int) ≤ c.size ∧ c.label ≠ 0) ∧
      r.clusters.Pairwise (fun a b =>
        Disjoint (Members sizeMesh.npts r.labels a.label)
          (Members sizeMesh.npts r.labels b.label))) :=
  ⟨sizeMesh_wellFormed, rfl, le_rfl, by decide!,
    (DistantClusters_discard_permanent sizeMesh 3 sizeDists 2 2 1 0 1 sizeMesh_wellFormed rfl
      le_rfl).2⟩

end DiscardClaims

end SelectRois

namespace SelectRois

/-! ## Relabelling after reduction and sampling; the retry loop -/

section RelabelSampleClaims

set_option linter.unusedSectionVars false

variable {α : Type} [LinearOrderedField α]

/-- C24 (failing input): a mesh of four points on a line has the labels 1, 0, 0, -1 and the
list holds the cluster with label 1; `AppendRandomSamples` appends the random sample drawn at
point 1 (label 0, seed 1), and `Relabel` gives the sample the label 2 and rewrites both
points with label 0 to 2. -/
theorem Relabel_rewrites_discarded :
    (AppendRandomSamples [(⟨1, 0, 1, (0, 0, 0), 10⟩ : Cluster ℚ)] onePointSampler
        fourPointLocator 1 none 0 0 1 1).map
      (fun l =>
        (l.map (fun c => (c.label, c.seed)),
         (Relabel 4 l mixedLabels).1.map (fun c => c.label),
         (List.range 4).map mixedLabels,
         (List.range 4).map (Relabel 4 l mixedLabels).2)) =
      some ([(1, 0), (0, 1)], [1, 2], [1, 0, 0, -1], [1, 2, 2, -1]) := by
  decide!

/-- C25 (failing input): on `staleMesh` with the distances 10, 6, 6 `DistantClusters` returns
the cluster of point 0 (label 1, total 10) and the cluster of the points 1 and 2 (label 2,
total 12); the sort puts the second first, the reduction with span 4 and no allowed overlap
keeps it alone, `Relabel` gives it the label 1, and all three points carry the label 1 at
the end although the kept cluster has size 2. -/
theorem Relabel_stale_label_collides :
    (DistantClusters staleMesh 3 staleDists 1 2 1 0 1 10).map
      (fun r =>
        ((SortReverse r.clusters).map (fun c => (c.label, c.size, c.total)),
         (List.range 3).map r.labels)) =
      some ([(2, 2, 12), (1, 1, 10)], [1, 2, 2]) ∧
    (DistantClusters staleMesh 3 staleDists 1 2 1 0 1 10).map
      (fun r =>
        ((Relabel 3 (ReduceClusters (SortReverse r.clusters) 4 0) r.labels).1.map
           (fun c => (c.label, c.size)),
         (List.range 3).map
           (Relabel 3 (ReduceClusters (SortReverse r.clusters) 4 0) r.labels).2,
         (Members 3 (Relabel 3 (ReduceClusters (SortReverse r.clusters) 4 0) r.labels).2
           1).card)) =
      some ([(1, 2)], [1, 1, 1], 3) := by
  decide!

/-- C27 (failing input): the mesh has the points (0,0,0) and (1,0,0) with the distances 5
and 7, and the sampler puts out the second point; the appended cluster has the seed 1 and
the total 5, the distance of point 0, not the distance 7 of its seed. -/
theorem AppendRandomSamples_total_not_seed :
    (AppendRandomSamples [] onePointSampler twoPointLocator 1 (some twoPointDists) 0 0 1 1).map
      (fun l => l.map (fun c => (c.label, c.seed, c.size, c.total))) =
      some [(0, 1, 1, 5)] ∧
    twoPointDists 1 = 7 := by
  decide!

theorem SampleLoop_zero_overlap_none :
    ∀ (fuel pass : Nat) (cluster : Cluster ℚ),
      SampleLoop onePointSampler twoPointLocator none 0 4 1 fuel pass 0 0
        [(⟨1, 0, 1, (1, 0, 0), 10⟩ : Cluster ℚ)] cluster = none := by
  intro fuel
  induction fuel with
  | zero => intro pass cluster; rfl
  | succ fuel ih =>
    intro pass cluster
    have hov : (OverlapRatio [(⟨1, 0, 1, (1, 0, 0), 10⟩ : Cluster ℚ)] 4
        (Bounds ((1 : ℚ), (0 : ℚ), (0 : ℚ)) 4)).gt 0 = true := by decide!
    have hst : SamplePoints twoPointLocator none 0 4 0 1 0 (onePointSampler pass) 0
        { clusters := [(⟨1, 0, 1, (1, 0, 0), 10⟩ : Cluster ℚ)], cluster := cluster, k := 0 } =
        { clusters := [(⟨1, 0, 1, (1, 0, 0), 10⟩ : Cluster ℚ)]
          cluster := SampleCluster cluster (1, 0, 0) none 0 0, k := 0 } := by
      simp only [onePointSampler, SamplePoints]
      rw [if_pos ⟨by norm_num, by norm_num, hov⟩]
    rw [SampleLoop, if_pos (by norm_num)]
    dsimp only
    rw [hst]
    dsimp only
    rw [if_pos rfl, zero_mul]
    exact ih (pass + 1) _

/-- C26 (failing input): with `max_overlap` 0, span 4, one cluster at (1,0,0) and a sampler
that puts out the point (1,0,0) at every pass, the sampled box is covered, no point is
accepted, `max_overlap * 1.2` is 0 again, and the loop of `AppendRandomSamples` returns with
no amount of fuel. -/
theorem AppendRandomSamples_zero_overlap_loops (fuel : Nat) :
    AppendRandomSamples [(⟨1, 0, 1, (1, 0, 0), 10⟩ : Cluster ℚ)] onePointSampler
      twoPointLocator 1 none 0 4 0 fuel = none :=
  SampleLoop_zero_overlap_none fuel 0 _

end RelabelSampleClaims

end SelectRois

namespace SelectRois

/-! ## The retry loop ends when the overlap bound is positive -/

section RetryLoop

set_option linter.unusedSectionVars false

variable {α : Type} [LinearOrderedField α]

/-- A pass whose overlap test is switched off accepts its first point. -/
theorem SamplePoints_first (closest : α × α × α → Nat) (dists : Option (Nat → α))
    (offset : Nat) (span max_overlap : α) (n m : Int)
    (hoff : ¬ (0 < span ∧ max_overlap < 1)) (points : List (α × α × α)) (hne : points ≠ [])
    (ptId : Nat) (st : SampleState α) :
    st.k + 1 ≤ (SamplePoints closest dists offset span max_overlap n m points ptId st).k := by
  cases points with
  | nil => exact absurd rfl hne
  | cons p rest =>
    simp only [SamplePoints]
    rw [if_neg (fun h => hoff ⟨h.1, h.2.1⟩)]
    split
    · exact le_rfl
    · rename_i hlt
      obtain ⟨app, _, h2, _⟩ := SamplePoints_appends closest dists offset span max_overlap n m
        rest (ptId + 1)
        { clusters := st.clusters ++
            [SampleSeed (SampleCluster st.cluster p dists ptId offset) (closest p + offset)]
          cluster := SampleSeed (SampleCluster st.cluster p dists ptId offset)
            (closest p + offset)
          k := st.k + 1 } (by dsimp only; omega)
      dsimp only at h2
      have : (0 : Int) ≤ (app.length : Int) := Int.natCast_nonneg _
      omega

/-- With a sampler that puts out a point at every pass, the loop of `AppendRandomSamples`
returns when the overlap test is switched off by the span or when the overlap bound is
positive and `j` relaxations lift it to 1. -/
theorem SampleLoop_returns (sampler : Nat → List (α × α × α)) (closest : α × α × α → Nat)
    (dists : Option (Nat → α)) (offset : Nat) (span : α) (n : Int)
    (hs : ∀ pass, sampler pass ≠ []) :
    ∀ (d j pass : Nat) (m : Int) (max_overlap : α) (clusters : List (Cluster α))
      (cluster : Cluster α),
      (span ≤ 0 ∨ (0 < max_overlap ∧ 1 ≤ max_overlap * (6 / 5) ^ j)) →
      (n - m).toNat + j ≤ d →
      ∃ (fuel : Nat) (result : List (Cluster α)),
        SampleLoop sampler closest dists offset span n fuel pass m max_overlap clusters
          cluster = some result := by
  intro d
  induction d with
  | zero =>
    intro j pass m mo clusters cluster _ hd
    refine ⟨0, clusters, ?_⟩
    rw [SampleLoop, if_neg (by omega)]
  | succ d ih =>
    intro j pass m mo clusters cluster hcond hd
    by_cases hmn : m < n
    · obtain ⟨app, _, h2, h3, _⟩ := SamplePoints_appends closest dists offset span mo n m
        (sampler pass) 0 { clusters := clusters, cluster := cluster, k := 0 }
        (by dsimp only; omega)
      dsimp only at h2 h3
      have hk0 : (0 : Int) ≤ (SamplePoints closest dists offset span mo n m (sampler pass) 0
          { clusters := clusters, cluster := cluster, k := 0 }).k := by
        have : (0 : Int) ≤ (app.length : Int) := Int.natCast_nonneg _
        omega
      by_cases hk : (SamplePoints closest dists offset span mo n m (sampler pass) 0
          { clusters := clusters, cluster := cluster, k := 0 }).k = 0
      · have hon : 0 < span ∧ mo < 1 := by
          by_contra hoff
          have := SamplePoints_first closest dists offset span mo n m hoff (sampler pass)
            (hs pass) 0 { clusters := clusters, cluster := cluster, k := 0 }
          dsimp only at this
          omega
        obtain ⟨hpos, hj⟩ : 0 < mo ∧ 1 ≤ mo * (6 / 5) ^ j :=
          hcond.resolve_left (not_le.mpr hon.1)
        have hj1 : 1 ≤ j := by
          by_contra hj0
          have hj0' : j = 0 := by omega
          subst hj0'
          rw [pow_zero, mul_one] at hj
          exact absurd hj (not_le.mpr hon.2)
        obtain ⟨fuel, result, hres⟩ := ih (j - 1) (pass + 1) m (mo * (6 / 5))
          (SamplePoints closest dists offset span mo n m (sampler pass) 0
            { clusters := clusters, cluster := cluster, k := 0 }).clusters
          (SamplePoints closest dists offset span mo n m (sampler pass) 0
            { clusters := clusters, cluster := cluster, k := 0 }).cluster
          (Or.inr ⟨by positivity, by
            have : j = (j - 1) + 1 := by omega
            rw [this, pow_succ] at hj
            calc (1 : α) ≤ mo * ((6 / 5) ^ (j - 1) * (6 / 5)) := hj
              _ = mo * (6 / 5) * (6 / 5) ^ (j - 1) := by ring⟩)
          (by omega)
        refine ⟨fuel + 1, result, ?_⟩
        rw [SampleLoop, if_pos hmn]
        dsimp only
        rw [if_pos hk]
        exact hres
      · obtain ⟨fuel, result, hres⟩ := ih j (pass + 1)
          (m + (SamplePoints closest dists offset span mo n m (sampler pass) 0
            { clusters := clusters, cluster := cluster, k := 0 }).k) mo
          (SamplePoints closest dists offset span mo n m (sampler pass) 0
            { clusters := clusters, cluster := cluster, k := 0 }).clusters
          (SamplePoints closest dists offset span mo n m (sampler pass) 0
            { clusters := clusters, cluster := cluster, k := 0 }).cluster
          hcond (by omega)
        refine ⟨fuel + 1, result, ?_⟩
        rw [SampleLoop, if_pos hmn]
        dsimp only
        rw [if_neg hk]
        exact hres
    · refine ⟨0, clusters, ?_⟩
      rw [SampleLoop, if_neg hmn]

/-- For a positive overlap bound (in an archimedean field) and a sampler that puts out a
point at every pass, `AppendRandomSamples` returns. -/
theorem AppendRandomSamples_returns [Archimedean α] (clusters : List (Cluster α))
    (sampler : Nat → List (α × α × α)) (closest : α × α × α → Nat) (n : Int)
    (dists : Option (Nat → α)) (offset : Nat) (span max_overlap : α)
    (hs : ∀ pass, sampler pass ≠ []) (hpos : 0 < max_overlap) :
    ∃ (fuel : Nat) (result : List (Cluster α)),
      AppendRandomSamples clusters sampler closest n dists offset span max_overlap fuel =
        some result := by
  obtain ⟨j, hj⟩ := pow_unbounded_of_one_lt (1 / max_overlap)
    (show (1 : α) < 6 / 5 by norm_num)
  have hj1 : 1 ≤ max_overlap * (6 / 5) ^ j := by
    have := (div_lt_iff₀ hpos).mp hj
    rw [mul_comm] at this
    exact this.le
  exact SampleLoop_returns sampler closest dists offset span n hs _ j 0 0 max_overlap clusters _
    (Or.inr ⟨hpos, hj1⟩) le_rfl

end RetryLoop

end SelectRois

namespace SelectRois

/-! ## Erosion on arrays with identity: the two buffers never alias the mask -/

section ErosionMem

set_option linter.unusedSectionVars false

variable {α : Type} [LinearOrderedField α]

theorem ErodePass_eq_ErodeSpec (mesh : Mesh α) (m o : Nat → Nat) (p : Nat)
    (hp : p < mesh.npts) : ErodePass mesh m o p = ErodeSpec mesh m p := by
  rw [ErodePass_lt mesh m o p hp]
  unfold ErodeSpec
  by_cases h : ∀ cellId ∈ mesh.GetPointCells p, ∀ q ∈ mesh.GetCellPoints cellId, m q ≠ 0
  · rw [if_pos h, if_neg]
    intro hany
    rw [List.any_eq_true] at hany
    obtain ⟨c, hc, hany⟩ := hany
    rw [List.any_eq_true] at hany
    obtain ⟨q, hq, hz⟩ := hany
    exact h c hc q hq (by simpa using hz)
  · rw [if_neg h, if_pos]
    push_neg at h
    obtain ⟨c, hc, q, hq, hz⟩ := h
    rw [List.any_eq_true]
    refine ⟨c, hc, ?_⟩
    rw [List.any_eq_true]
    exact ⟨q, hq, by simpa using hz⟩

theorem ErodeSpec_congr (mesh : Mesh α) (hwf : mesh.WellFormed) (m m2 : Nat → Nat)
    (h : ∀ q, q < mesh.npts → m q = m2 q) : ErodeSpec mesh m = ErodeSpec mesh m2 := by
  funext p
  unfold ErodeSpec
  have hiff : (∀ cellId ∈ mesh.GetPointCells p, ∀ q ∈ mesh.GetCellPoints cellId, m q ≠ 0) ↔
      (∀ cellId ∈ mesh.GetPointCells p, ∀ q ∈ mesh.GetCellPoints cellId, m2 q ≠ 0) := by
    constructor
    · intro hh c hc q hq
      obtain ⟨hlt, hmem⟩ := (mem_GetCellPoints_iff mesh c q).mp hq
      rw [← h q (hwf _ (List.get_mem _ _ _) q hmem)]
      exact hh c hc q hq
    · intro hh c hc q hq
      obtain ⟨hlt, hmem⟩ := (mem_GetCellPoints_iff mesh c q).mp hq
      rw [h q (hwf _ (List.get_mem _ _ _) q hmem)]
      exact hh c hc q hq
  by_cases h1 : ∀ cellId ∈ mesh.GetPointCells p, ∀ q ∈ mesh.GetCellPoints cellId, m q ≠ 0
  · rw [if_pos h1, if_pos (hiff.mp h1)]
  · rw [if_neg h1, if_neg (fun h2 => h1 (hiff.mpr h2))]

/-- The `k`-fold erosion of the functional model is the `k`-fold iterate of `ErodeSpec` at
the points of the mesh. -/
theorem ErodePass_iterate_eq (mesh : Mesh α) (hwf : mesh.WellFormed) (mask : Nat → Nat) :
    ∀ (k : Nat) (p : Nat), p < mesh.npts →
      ((fun m => ErodePass mesh m newMaskArray)^[k] mask) p = ((ErodeSpec mesh)^[k] mask) p := by
  intro k
  induction k with
  | zero => intro p _; rfl
  | succ k ih =>
    intro p hp
    rw [Function.iterate_succ_apply', Function.iterate_succ_apply',
      ErodePass_eq_ErodeSpec mesh _ _ p hp, ErodeSpec_congr mesh hwf _ _ ih]

/-- One pass of the point loop body with distinct input and output arrays. -/
theorem ErodePoint_spec (mesh : Mesh α) (mem : ErodeMem) (ptId : Nat)
    (hio : mem.input ≠ mem.output) :
    (ErodePoint mesh mem ptId).input = mem.input ∧
    (ErodePoint mesh mem ptId).output = mem.output ∧
    (ErodePoint mesh mem ptId).fresh = mem.fresh ∧
    (∀ a, a ≠ mem.output → (ErodePoint mesh mem ptId).arrays a = mem.arrays a) ∧
    (∀ p, p ≠ ptId → (ErodePoint mesh mem ptId).arrays mem.output p = mem.arrays mem.output p) ∧
    (ErodePoint mesh mem ptId).arrays mem.output ptId =
      if (mesh.GetPointCells ptId).any (fun cellId =>
          (mesh.GetCellPoints cellId).any (fun q => decide (mem.arrays mem.input q = 0)))
      then 0 else 1 := by
  have hread : (mem.SetValue ptId 1).arrays (mem.SetValue ptId 1).input = mem.arrays mem.input := by
    simp only [ErodeMem.SetValue]
    rw [Function.update_noteq hio]
  unfold ErodePoint
  dsimp only
  rw [hread]
  split
  · refine ⟨rfl, rfl, rfl, ?_, ?_, ?_⟩
    · intro a ha
      simp only [ErodeMem.SetValue]
      rw [Function.update_noteq ha, Function.update_noteq ha]
    · intro p hp
      simp only [ErodeMem.SetValue, Function.update_same]
      rw [Function.update_noteq hp, Function.update_noteq hp]
    · simp only [ErodeMem.SetValue, Function.update_same]
  · refine ⟨rfl, rfl, rfl, ?_, ?_, ?_⟩
    · intro a ha
      simp only [ErodeMem.SetValue]
      rw [Function.update_noteq ha]
    · intro p hp
      simp only [ErodeMem.SetValue, Function.update_same]
      rw [Function.update_noteq hp]
    · simp only [ErodeMem.SetValue, Function.update_same]

/-- The loop over the points with distinct input and output arrays: only the output array
changes, and it receives the erosion of the input array. -/
theorem ErodeSweep_spec (mesh : Mesh α) (mem : ErodeMem) (hio : mem.input ≠ mem.output) :
    ∀ n, n ≤ mesh.npts →
      ((List.range n).foldl (ErodePoint mesh) mem).input = mem.input ∧
      ((List.range n).foldl (ErodePoint mesh) mem).output = mem.output ∧
      ((List.range n).foldl (ErodePoint mesh) mem).fresh = mem.fresh ∧
      (∀ a, a ≠ mem.output →
        ((List.range n).foldl (ErodePoint mesh) mem).arrays a = mem.arrays a) ∧
      (∀ p, p < n → ((List.range n).foldl (ErodePoint mesh) mem).arrays mem.output p =
        ErodeSpec mesh (mem.arrays mem.input) p) ∧
      (∀ p, n ≤ p → ((List.range n).foldl (ErodePoint mesh) mem).arrays mem.output p =
        mem.arrays mem.output p) := by
  intro n
  induction n with
  | zero =>
    intro _
    refine ⟨rfl, rfl, rfl, fun _ _ => rfl, fun p hp => absurd hp (Nat.not_lt_zero p),
      fun _ _ => rfl⟩
  | succ n ih =>
    intro hn
    obtain ⟨h1, h2, h3, h4, h5, h6⟩ := ih (by omega)
    rw [List.range_succ, List.foldl_append, List.foldl_cons, List.foldl_nil]
    have hio2 : ((List.range n).foldl (ErodePoint mesh) mem).input ≠
        ((List.range n).foldl (ErodePoint mesh) mem).output := by rw [h1, h2]; exact hio
    obtain ⟨g1, g2, g3, g4, g5, g6⟩ :=
      ErodePoint_spec mesh ((List.range n).foldl (ErodePoint mesh) mem) n hio2
    rw [h2] at g4 g5 g6
    rw [h1, h4 mem.input hio] at g6
    refine ⟨g1.trans h1, g2.trans h2, g3.trans h3, ?_, ?_, ?_⟩
    · intro a ha
      rw [g4 a ha, h4 a ha]
    · intro p hp
      by_cases hpn : p = n
      · subst hpn
        rw [g6, ← ErodePass_lt mesh (mem.arrays mem.input) (mem.arrays mem.output) p (by omega)]
        exact ErodePass_eq_ErodeSpec mesh _ _ p (by omega)
      · rw [g5 p hpn]
        exact h5 p (by omega)
    · intro p hp
      rw [g5 p (by omega)]
      exact h6 p (by omega)

/-- State of the arrays after the rounds `0..j` of the loop of `ErodePointMask`. -/
theorem ErodeMemIter_fold (mesh : Mesh α) (hwf : mesh.WellFormed) (arrays : Nat → Nat → Nat)
    (mask fresh : Nat) (hfresh : mask < fresh) (j : Nat) :
    let mem := (List.range (j + 1)).foldl (ErodeMemIter mesh)
      { arrays := arrays, input := mask, output := fresh, fresh := fresh + 1 }
    mem.arrays mask = arrays mask ∧ mem.output ≠ mask ∧ mem.input ≠ mem.output ∧
    mem.output < mem.fresh ∧ mem.input < mem.fresh ∧ mask < mem.fresh ∧
    (1 ≤ j → mem.input ≠ mask) ∧
    (∀ p, p < mesh.npts → mem.arrays mem.output p = ((ErodeSpec mesh)^[j + 1] (arrays mask)) p) ∧
    (∀ p, p < mesh.npts → mem.arrays mem.input p = ((ErodeSpec mesh)^[j] (arrays mask)) p) := by
  induction j with
  | zero =>
    have h1 : List.range (0 + 1) = [0] := rfl
    rw [h1]
    simp only [List.foldl_cons, List.foldl_nil]
    have hio : (⟨arrays, mask, fresh, fresh + 1⟩ : ErodeMem).input ≠
        (⟨arrays, mask, fresh, fresh + 1⟩ : ErodeMem).output := by dsimp only; omega
    obtain ⟨g1, g2, g3, g4, g5, _⟩ :=
      ErodeSweep_spec mesh ⟨arrays, mask, fresh, fresh + 1⟩ hio mesh.npts le_rfl
    have hiter : ErodeMemIter mesh ⟨arrays, mask, fresh, fresh + 1⟩ 0 =
        (List.range mesh.npts).foldl (ErodePoint mesh) ⟨arrays, mask, fresh, fresh + 1⟩ := by
      unfold ErodeMemIter
      rw [if_neg (by omega), if_neg (by omega)]
    rw [hiter, g1, g2, g3]
    dsimp only at g4 g5 ⊢
    refine ⟨g4 mask (by omega), by omega, by omega, by omega, by omega, by omega,
      fun h => absurd h (by omega), ?_, ?_⟩
    · intro p hp
      rw [g5 p hp]
      rfl
    · intro p _
      rw [g4 mask (by omega)]
      rfl
  | succ j ih =>
    rw [List.range_succ, List.foldl_append, List.foldl_cons, List.foldl_nil]
    generalize (List.range (j + 1)).foldl (ErodeMemIter mesh)
      { arrays := arrays, input := mask, output := fresh, fresh := fresh + 1 } = mem at ih
    obtain ⟨i1, i2, i3, i4, i5, i6, i7, i8, i9⟩ := ih
    by_cases hj : j + 1 = 1
    · have hiter : ErodeMemIter mesh mem (j + 1) =
          (List.range mesh.npts).foldl (ErodePoint mesh)
            (⟨mem.arrays, mem.output, mem.fresh, mem.fresh + 1⟩ : ErodeMem) := by
        unfold ErodeMemIter
        rw [if_pos hj]
      have hio : (⟨mem.arrays, mem.output, mem.fresh, mem.fresh + 1⟩ : ErodeMem).input ≠
          (⟨mem.arrays, mem.output, mem.fresh, mem.fresh + 1⟩ : ErodeMem).output := by
        dsimp only; omega
      obtain ⟨g1, g2, g3, g4, g5, _⟩ := ErodeSweep_spec mesh _ hio mesh.npts le_rfl
      dsimp only at g1 g2 g3 g4 g5
      rw [hiter]
      dsimp only
      rw [g1, g2, g3]
      refine ⟨?_, by omega, by omega, by omega, by omega, by omega, fun _ => i2, ?_, ?_⟩
      · rw [g4 mask (by omega)]; exact i1
      · intro p hp
        rw [g5 p hp, Function.iterate_succ_apply', ErodeSpec_congr mesh hwf _ _ i8]
      · intro p hp
        rw [g4 mem.output (by omega)]
        exact i8 p hp
    · have hj1 : 1 < j + 1 := by omega
      have hiter : ErodeMemIter mesh mem (j + 1) =
          (List.range mesh.npts).foldl (ErodePoint mesh)
            (⟨mem.arrays, mem.output, mem.input, mem.fresh⟩ : ErodeMem) := by
        unfold ErodeMemIter
        rw [if_neg hj, if_pos hj1]
      have hio : (⟨mem.arrays, mem.output, mem.input, mem.fresh⟩ : ErodeMem).input ≠
          (⟨mem.arrays, mem.output, mem.input, mem.fresh⟩ : ErodeMem).output := by
        dsimp only; exact fun h => i3 h.symm
      obtain ⟨g1, g2, g3, g4, g5, _⟩ := ErodeSweep_spec mesh _ hio mesh.npts le_rfl
      dsimp only at g1 g2 g3 g4 g5
      have him : mem.input ≠ mask := i7 (by omega)
      rw [hiter]
      dsimp only
      rw [g1, g2, g3]
      refine ⟨?_, him, fun h => i3 h.symm, i5, i4, i6, fun _ => i2, ?_, ?_⟩
      · rw [g4 mask (fun h => him h.symm)]; exact i1
      · intro p hp
        rw [g5 p hp, Function.iterate_succ_apply', ErodeSpec_congr mesh hwf _ _ i8]
      · intro p hp
        rw [g4 mem.output (fun h => i3 h.symm)]
        exact i8 p hp

end ErosionMem

end SelectRois

namespace SelectRois

/-! ## Erosion with two buffers is the iterated one-step erosion -/

section ErosionRefinement

set_option linter.unusedSectionVars false

variable {α : Type} [LinearOrderedField α]

/-- C28: for an iteration count `k >= 2` on a well-formed mesh, the array that
`ErodePointMask` returns holds at every point of the mesh the `k`-fold iterate of the one-step
erosion `ErodeSpec` of the mask array; the returned array is not the mask array, and the mask
array holds at the end what it held at the start. The functional model `ErodePointMask`
returns the same values. -/
theorem ErodePointMask_iterates_ErodeSpec (mesh : Mesh α) (arrays : Nat → Nat → Nat)
    (mask fresh : Nat) (k : Nat) (hwf : mesh.WellFormed) (hfresh : mask < fresh)
    (hk : 2 ≤ k) :
    (∀ p, p < mesh.npts →
      (ErodePointMaskMem mesh arrays mask fresh (k : Int)).arrays
          (ErodePointMaskMem mesh arrays mask fresh (k : Int)).output p =
        ((ErodeSpec mesh)^[k] (arrays mask)) p) ∧
    (ErodePointMaskMem mesh arrays mask fresh (k : Int)).output ≠ mask ∧
    (ErodePointMaskMem mesh arrays mask fresh (k : Int)).arrays mask = arrays mask ∧
    (∀ p, p < mesh.npts →
      ErodePointMask mesh (arrays mask) (k : Int) p = ((ErodeSpec mesh)^[k] (arrays mask)) p) := by
  obtain ⟨j, rfl⟩ : ∃ j, k = j + 1 := ⟨k - 1, by omega⟩
  have hmem : ErodePointMaskMem mesh arrays mask fresh ((j + 1 : Nat) : Int) =
      (List.range (j + 1)).foldl (ErodeMemIter mesh)
        { arrays := arrays, input := mask, output := fresh, fresh := fresh + 1 } := by
    unfold ErodePointMaskMem
    rw [if_pos (by omega), Int.toNat_natCast]
  obtain ⟨h1, h2, _, _, _, _, _, h8, _⟩ := ErodeMemIter_fold mesh hwf arrays mask fresh hfresh j
  rw [hmem]
  refine ⟨h8, h2, h1, ?_⟩
  intro p hp
  rw [ErodePointMask_iterate mesh hwf (arrays mask) (j + 1) hk p hp]
  exact ErodePass_iterate_eq mesh hwf (arrays mask) (j + 1) p hp

/-- Witness of `ErodePointMask_iterates_ErodeSpec`: on `sizeMesh` with the mask 0, 1, 1 in
array 0 and two iterations the returned array is array 2 and holds 0, 0, 1. -/
theorem ErodePointMask_iterates_ErodeSpec_witness :
    sizeMesh.WellFormed ∧ 0 < 1 ∧ 2 ≤ 2 ∧
    (ErodePointMaskMem sizeMesh
        (fun a => if a = 0 then (fun i => if i = 0 then 0 else 1) else (fun _ => 7)) 0 1
        ((2 : Nat) : Int)).output = 2 ∧
    (List.range 3).map
      ((ErodePointMaskMem sizeMesh
        (fun a => if a = 0 then (fun i => if i = 0 then 0 else 1) else (fun _ => 7)) 0 1
        ((2 : Nat) : Int)).arrays 2) = [0, 0, 1] ∧
    ((∀ p, p < sizeMesh.npts →
      (ErodePointMaskMem sizeMesh
          (fun a => if a = 0 then (fun i => if i = 0 then 0 else 1) else (fun _ => 7)) 0 1
          ((2 : Nat) : Int)).arrays
          (ErodePointMaskMem sizeMesh
            (fun a => if a = 0 then (fun i => if i = 0 then 0 else 1) else (fun _ => 7)) 0 1
            ((2 : Nat) : Int)).output p =
        ((ErodeSpec sizeMesh)^[2]
          ((fun a => if a = 0 then (fun i => if i = 0 then 0 else 1) else (fun _ => 7))
            0)) p) ∧
    (ErodePointMaskMem sizeMesh
        (fun a => if a = 0 then (fun i => if i = 0 then 0 else 1) else (fun _ => 7)) 0 1
        ((2 : Nat) : Int)).output ≠ 0 ∧
    (ErodePointMaskMem sizeMesh
        (fun a => if a = 0 then (fun i => if i = 0 then 0 else 1) else (fun _ => 7)) 0 1
        ((2 : Nat) : Int)).arrays 0 =
      (fun a => if a = 0 then (fun i => if i = 0 then 0 else 1) else (fun _ => 7)) 0 ∧
    (∀ p, p < sizeMesh.npts →
      ErodePointMask sizeMesh
          ((fun a => if a = 0 then (fun i => if i = 0 then 0 else 1) else (fun _ => 7)) 0)
          ((2 : Nat) : Int) p =
        ((ErodeSpec sizeMesh)^[2]
          ((fun a => if a = 0 then (fun i => if i = 0 then 0 else 1) else (fun _ => 7))
            0)) p)) :=
  ⟨sizeMesh_wellFormed, by decide, le_rfl, by decide, by decide,
    ErodePointMask_iterates_ErodeSpec sizeMesh _ 0 1 2 sizeMesh_wellFormed (by decide) le_rfl⟩

end ErosionRefinement

end SelectRois

namespace SelectRois

/-! ## Any order of the events of equal coordinate; overlap ratios are at most 1 -/

section EventOrder

variable {α : Type} [LinearOrderedField α]

/-- A list that holds the pushed events in any order that is ascending in the coordinate is
a sweep of the intervals of `L` that are not empty after clipping. -/
theorem SweepEvents.of_perm (clusters : List (Cluster α)) (L : List Nat) (hL : L.Nodup)
    (dim : Nat) (span lb ub : α) (hs : 0 < span) (E : List (LineSweepEvent α))
    (hperm : E.Perm (pushAll clusters L dim span lb ub))
    (hsorted : E.Pairwise (fun e1 e2 => e1.coord ≤ e2.coord)) :
    SweepEvents
      (L.toFinset.filter (fun i => ivLo clusters span lb dim i < ivHi clusters span ub dim i))
      (ivLo clusters span lb dim) (ivHi clusters span ub dim) E := by
  refine ⟨?_, ?_, ?_, ?_, hsorted⟩
  · intro i hi
    exact (Finset.mem_filter.mp hi).2
  · intro e he
    obtain ⟨i, hi, hlt, hei⟩ :=
      (mem_pushAll clusters L dim span lb ub hs e).mp (hperm.mem_iff.mp he)
    exact ⟨i, Finset.mem_filter.mpr ⟨List.mem_toFinset.mpr hi, hlt⟩, hei⟩
  · intro i hi
    obtain ⟨hiL, hlt⟩ := Finset.mem_filter.mp hi
    constructor
    · exact hperm.mem_iff.mpr ((mem_pushAll clusters L dim span lb ub hs _).mpr
        ⟨i, List.mem_toFinset.mp hiL, hlt, Or.inl rfl⟩)
    · exact hperm.mem_iff.mpr ((mem_pushAll clusters L dim span lb ub hs _).mpr
        ⟨i, List.mem_toFinset.mp hiL, hlt, Or.inr rfl⟩)
  · exact hperm.nodup_iff.mpr (nodup_pushAll clusters L hL dim span lb ub hs)

end EventOrder

section RealSweep

open MeasureTheory Set

/-- Any sweep order of the events of `Length` gives the length of the union of the clipped
intervals, and the counter is the number of intervals entered and not yet left. -/
theorem LengthStep_any_order (clusters : List (Cluster ℝ)) (S : Finset Nat) (span : ℝ)
    (bounds : Box ℝ) (hs : 0 < span) (E : List (LineSweepEvent ℝ))
    (hperm : E.Perm (pushAll clusters (S.sort (· ≤ ·)) 0 span bounds.b0 bounds.b1))
    (hsorted : E.Pairwise (fun e1 e2 => e1.coord ≤ e2.coord)) :
    (E.foldl LengthStep (0, 0, 0)).1 =
      (volume (⋃ i ∈ S, Ico (ivLo clusters span bounds.b0 0 i)
        (ivHi clusters span bounds.b1 0 i))).toReal ∧
    ∀ P Q, E = P ++ Q → 0 ≤ (P.foldl LengthStep (0, 0, 0)).2.2 := by
  have hE := SweepEvents.of_perm clusters (S.sort (· ≤ ·)) (Finset.sort_nodup _ _) 0 span
    bounds.b0 bounds.b1 hs E hperm hsorted
  rw [Finset.sort_toFinset] at hE
  constructor
  · rw [(LengthStep_fold hE _ [] (by simp)).1, sweep_line _ _ _ _ hE]
    rw [biUnion_filter_Ico S _ _ (fun i => Ico (ivLo clusters span bounds.b0 0 i)
        (ivHi clusters span bounds.b1 0 i)) (fun i hlt => Ico_eq_empty hlt)]
  · intro P Q hPQ
    rw [(LengthStep_fold hE P Q hPQ).2.2]
    exact Int.natCast_nonneg _

/-- The union of the closed first-axis intervals of the active clusters, clipped to the
bounds, has the length of the union of the half-open clipped intervals. -/
theorem volume_clipped_intervals (clusters : List (Cluster ℝ)) (S : Finset Nat) (span : ℝ)
    (bounds : Box ℝ) :
    volume (⋃ i ∈ S, ⋃ c ∈ clusters[i]?,
        Icc (c.center.1 - span / 2) (c.center.1 + span / 2) ∩ Icc bounds.b0 bounds.b1) =
      volume (⋃ i ∈ S, Ico (ivLo clusters span bounds.b0 0 i)
        (ivHi clusters span bounds.b1 0 i)) := by
  apply measure_congr
  apply EventuallyEq.countable_iUnion
  intro i
  apply EventuallyEq.countable_iUnion
  intro _
  rcases hc : clusters[i]? with _ | c
  · have h1 : (⋃ c ∈ (none : Option (Cluster ℝ)),
        Icc (c.center.1 - span / 2) (c.center.1 + span / 2) ∩ Icc bounds.b0 bounds.b1) = ∅ := by
      ext x; simp
    have h2 : Ico (ivLo clusters span bounds.b0 0 i) (ivHi clusters span bounds.b1 0 i) = ∅ := by
      simp [ivLo, ivHi, hc]
    rw [h1, h2]
  · have h1 : (⋃ c2 ∈ (some c : Option (Cluster ℝ)),
        Icc (c2.center.1 - span / 2) (c2.center.1 + span / 2) ∩ Icc bounds.b0 bounds.b1) =
        Icc (ivLo clusters span bounds.b0 0 i) (ivHi clusters span bounds.b1 0 i) := by
      ext x
      simp only [ivLo, ivHi, hc, comp, Option.mem_def, Option.some.injEq, mem_iUnion,
        exists_prop, exists_eq_left', mem_inter_iff, mem_Icc, max_le_iff, le_min_iff]
      tauto
    rw [h1]
    exact Ico_ae_eq_Icc.symm

/-- For a positive span the overlap ratio of a box of `Bounds` is a finite quotient, at
most 1. -/
theorem OverlapRatio_le_one (sel : List (Cluster ℝ)) (span : ℝ) (hs : 0 < span)
    (c : ℝ × ℝ × ℝ) :
    ∃ v, OverlapRatio sel span (Bounds c span) = FloatQuot.finite v ∧ 0 ≤ v ∧ v ≤ 1 := by
  have hpos : 0 < span * span * span := by positivity
  have hh : max 0 (span / 2) = span / 2 := max_eq_right (by positivity)
  have hB : (volume (boxSet (Bounds c span))).toReal = span * span * span := by
    rw [volume_boxSet _ (by simp only [Bounds, hh]; linarith)
      (by simp only [Bounds, hh]; linarith) (by simp only [Bounds, hh]; linarith),
      BoxVolume_Bounds c span hs]
  have hfin : volume (boxSet (Bounds c span)) ≠ ⊤ := by
    intro htop
    rw [htop, ENNReal.top_toReal] at hB
    exact absurd hB hpos.ne
  have hV : Volume sel span (Bounds c span) ≤ span * span * span := by
    rw [Volume_eq_covered sel span _ hs, ← hB]
    exact ENNReal.toReal_mono hfin
      (measure_mono (inter_subset_left : coveredSet sel span (Bounds c span) ⊆ boxSet _))
  have hV0 : 0 ≤ Volume sel span (Bounds c span) := by
    rw [Volume_eq_covered sel span _ hs]; exact ENNReal.toReal_nonneg
  refine ⟨Volume sel span (Bounds c span) / (span * span * span), ?_, ?_, ?_⟩
  · rw [OverlapRatio, BoxVolume_Bounds c span hs, fdiv, if_pos hpos.ne']
  · exact div_nonneg hV0 hpos.le
  · exact (div_le_one hpos).mpr hV

end RealSweep

end SelectRois

namespace SelectRois

/-! ## Length for every event order; reduction with an overlap bound of 1 or more -/

section SweepOrderClaims

open MeasureTheory Set

/-- C29: for a positive span and every active set, `Length` returns the length of the union
of the first-axis intervals `[c - span/2, c + span/2]` of the active clusters clipped to
`[bounds[0], bounds[1]]`; every order of the pushed events that is ascending in the
coordinate, however it places the events of equal coordinate, gives the same value, and the
counter of active intervals is at least 0 after every event. -/
theorem Length_any_event_order (clusters : List (Cluster ℝ)) (S : Finset Nat) (span : ℝ)
    (bounds : Box ℝ) (hs : 0 < span) :
    Length clusters S span bounds =
      (volume (⋃ i ∈ S, ⋃ c ∈ clusters[i]?,
        Icc (c.center.1 - span / 2) (c.center.1 + span / 2) ∩
          Icc bounds.b0 bounds.b1)).toReal ∧
    ∀ E : List (LineSweepEvent ℝ),
      E.Perm (pushAll clusters (S.sort (· ≤ ·)) 0 span bounds.b0 bounds.b1) →
      E.Pairwise (fun e1 e2 => e1.coord ≤ e2.coord) →
      (E.foldl LengthStep (0, 0, 0)).1 = Length clusters S span bounds ∧
      ∀ P Q, E = P ++ Q → 0 ≤ (P.foldl LengthStep (0, 0, 0)).2.2 := by
  constructor
  · rw [Length_eq_measure clusters S span bounds hs, volume_clipped_intervals]
  · intro E hperm hsorted
    obtain ⟨h1, h2⟩ := LengthStep_any_order clusters S span bounds hs E hperm hsorted
    exact ⟨by rw [h1, Length_eq_measure clusters S span bounds hs], h2⟩

/-- Witness of `Length_any_event_order`: one cluster at the origin, span 1, the bounds of the
box centred at (1/2, 0, 0). -/
theorem Length_any_event_order_witness :
    (0 : ℝ) < 1 ∧
    (Length [(⟨1, 0, 1, (0, 0, 0), 0⟩ : Cluster ℝ)] {0} 1 (Bounds (1 / 2, 0, 0) 1) =
      (volume (⋃ i ∈ ({0} : Finset Nat),
        ⋃ c ∈ [(⟨1, 0, 1, (0, 0, 0), 0⟩ : Cluster ℝ)][i]?,
        Icc (c.center.1 - 1 / 2) (c.center.1 + 1 / 2) ∩
          Icc (Bounds ((1 / 2 : ℝ), (0 : ℝ), (0 : ℝ)) 1).b0
            (Bounds ((1 / 2 : ℝ), (0 : ℝ), (0 : ℝ)) 1).b1)).toReal ∧
    ∀ E : List (LineSweepEvent ℝ),
      E.Perm (pushAll [(⟨1, 0, 1, (0, 0, 0), 0⟩ : Cluster ℝ)]
        (({0} : Finset Nat).sort (· ≤ ·)) 0 1
        (Bounds ((1 / 2 : ℝ), (0 : ℝ), (0 : ℝ)) 1).b0
        (Bounds ((1 / 2 : ℝ), (0 : ℝ), (0 : ℝ)) 1).b1) →
      E.Pairwise (fun e1 e2 => e1.coord ≤ e2.coord) →
      (E.foldl LengthStep (0, 0, 0)).1 =
        Length [(⟨1, 0, 1, (0, 0, 0), 0⟩ : Cluster ℝ)] {0} 1 (Bounds (1 / 2, 0, 0) 1) ∧
      ∀ P Q, E = P ++ Q → 0 ≤ (P.foldl LengthStep (0, 0, 0)).2.2) :=
  ⟨one_pos, Length_any_event_order _ {0} 1 _ one_pos⟩

/-- C30 (amended): in exact arithmetic, for a positive span every overlap ratio of a box of
`Bounds` is a finite quotient at most 1, so with `max_overlap >= 1` `ReduceClusters` returns
its input list, and the step of `main`, which runs the reduction only for `max_overlap < 1`,
gives what running it for every `max_overlap` gives. -/
theorem ReduceClusters_overlap_one (clusters : List (Cluster ℝ)) (span : ℝ) (hs : 0 < span) :
    (∀ (selection : List (Cluster ℝ)) (c : Cluster ℝ),
      ∃ v, OverlapRatio selection span (Bounds c.center span) = FloatQuot.finite v ∧ v ≤ 1) ∧
    (∀ max_overlap : ℝ, 1 ≤ max_overlap →
      ReduceClusters clusters span max_overlap = clusters) ∧
    (∀ max_overlap : ℝ,
      mainReduce clusters span max_overlap = ReduceClusters clusters span max_overlap) := by
  have hall : ∀ max_overlap : ℝ, 1 ≤ max_overlap →
      ∀ cs : List (Cluster ℝ), ReduceClusters cs span max_overlap = cs := by
    intro max_overlap hm cs
    induction cs using List.reverseRecOn with
    | nil => rfl
    | append_singleton cs c ih =>
      rw [ReduceClusters_append, ih]
      obtain ⟨v, hv, _, hv1⟩ := OverlapRatio_le_one cs span hs c.center
      rw [hv, if_pos]
      simp only [FloatQuot.le, decide_eq_true_eq]
      exact le_trans hv1 hm
  refine ⟨?_, fun max_overlap hm => hall max_overlap hm clusters, ?_⟩
  · intro selection c
    obtain ⟨v, hv, _, hv1⟩ := OverlapRatio_le_one selection span hs c.center
    exact ⟨v, hv, hv1⟩
  · intro max_overlap
    unfold mainReduce
    by_cases h : max_overlap < 1
    · rw [if_pos h]
    · rw [if_neg h, hall max_overlap (not_lt.mp h) clusters]

/-- Witness of `ReduceClusters_overlap_one`: two clusters at the same centre, span 1. -/
theorem ReduceClusters_overlap_one_witness :
    (0 : ℝ) < 1 ∧
    ((∀ (selection : List (Cluster ℝ)) (c : Cluster ℝ),
      ∃ v, OverlapRatio selection 1 (Bounds c.center 1) = FloatQuot.finite v ∧ v ≤ 1) ∧
    (∀ max_overlap : ℝ, 1 ≤ max_overlap →
      ReduceClusters [(⟨1, 0, 1, (0, 0, 0), 0⟩ : Cluster ℝ), ⟨2, 1, 1, (0, 0, 0), 0⟩] 1
        max_overlap = [(⟨1, 0, 1, (0, 0, 0), 0⟩ : Cluster ℝ), ⟨2, 1, 1, (0, 0, 0), 0⟩]) ∧
    (∀ max_overlap : ℝ,
      mainReduce [(⟨1, 0, 1, (0, 0, 0), 0⟩ : Cluster ℝ), ⟨2, 1, 1, (0, 0, 0), 0⟩] 1
          max_overlap =
        ReduceClusters [(⟨1, 0, 1, (0, 0, 0), 0⟩ : Cluster ℝ), ⟨2, 1, 1, (0, 0, 0), 0⟩] 1
          max_overlap)) :=
  ⟨one_pos, ReduceClusters_overlap_one _ 1 one_pos⟩

end SweepOrderClaims

end SelectRois

namespace SelectRois

/-! ## Sampling returns; relabelling of samples; non-positive spans; binary32 overlap -/

section RevisedClaims

set_option linter.unusedSectionVars false

variable {α : Type} [LinearOrderedField α]

/-- C14: whenever `AppendRandomSamples` returns, the cluster list is the list it was given
followed by appended clusters, exactly `n` of them for `n > 0`, each with label 0 and
size 1; for `n = 0` it returns the list unchanged without any fuel, that is without a
sampling pass. It does return, with such a list, when the sampler puts out a point at every
pass and the overlap test is switched off by the span or the overlap bound is positive and
some number of relaxations lifts it to 1. -/
theorem AppendRandomSamples_appends (clusters : List (Cluster α))
    (sampler : Nat → List (α × α × α)) (closest : α × α × α → Nat) (n : Int)
    (dists : Option (Nat → α)) (offset : Nat) (span max_overlap : α) :
    (∀ (fuel : Nat) (result : List (Cluster α)),
      AppendRandomSamples clusters sampler closest n dists offset span max_overlap fuel =
        some result →
      ∃ app : List (Cluster α), result = clusters ++ app ∧
        (app.length : Int) = max n 0 ∧
        ∀ c ∈ app, c.label = 0 ∧ c.size = 1) ∧
    (n = 0 →
      AppendRandomSamples clusters sampler closest n dists offset span max_overlap 0 =
        some clusters) ∧
    ((∀ pass, sampler pass ≠ []) →
      (span ≤ 0 ∨ ∃ j : Nat, 0 < max_overlap ∧ 1 ≤ max_overlap * (6 / 5) ^ j) →
      ∃ (fuel : Nat) (app : List (Cluster α)),
        AppendRandomSamples clusters sampler closest n dists offset span max_overlap fuel =
          some (clusters ++ app) ∧
        (app.length : Int) = max n 0 ∧
        ∀ c ∈ app, c.label = 0 ∧ c.size = 1) := by
  have hpart : ∀ (fuel : Nat) (result : List (Cluster α)),
      AppendRandomSamples clusters sampler closest n dists offset span max_overlap fuel =
        some result →
      ∃ app : List (Cluster α), result = clusters ++ app ∧
        (app.length : Int) = max n 0 ∧
        ∀ c ∈ app, c.label = 0 ∧ c.size = 1 := by
    intro fuel result h
    obtain ⟨app, h1, h2, h3⟩ := SampleLoop_appends sampler closest dists offset span n fuel 0 0
      max_overlap clusters _ result le_rfl (le_max_right _ _) h
    exact ⟨app, h1, by rw [h2]; ring, h3⟩
  refine ⟨hpart, ?_, ?_⟩
  · intro hn
    subst hn
    simp [AppendRandomSamples, SampleLoop]
  · intro hs hcond
    have hex : ∃ (fuel : Nat) (result : List (Cluster α)),
        AppendRandomSamples clusters sampler closest n dists offset span max_overlap fuel =
          some result := by
      rcases hcond with hspan | ⟨j, hpos, hj⟩
      · exact SampleLoop_returns sampler closest dists offset span n hs _ 0 0 0 max_overlap
          clusters _ (Or.inl hspan) le_rfl
      · exact SampleLoop_returns sampler closest dists offset span n hs _ j 0 0 max_overlap
          clusters _ (Or.inr ⟨hpos, hj⟩) le_rfl
    obtain ⟨fuel, result, hres⟩ := hex
    obtain ⟨app, h1, h2, h3⟩ := hpart fuel result hres
    exact ⟨fuel, app, by rw [hres, h1], h2, h3⟩

/-- Witness of `AppendRandomSamples_appends`: with `n = 2`, a span of 0 and a sampler that puts
out the points (1,0,0) and (2,0,0), one pass appends two clusters with label 0, size 1 and
the seeds 1 and 2 to the list of one cluster. -/
theorem AppendRandomSamples_appends_witness :
    (AppendRandomSamples [(⟨1, 0, 1, (0, 0, 0), 10⟩ : Cluster ℚ)] linePointSampler
        fourPointLocator 2 none 0 0 1 1).map
      (fun l => l.map (fun c => (c.label, c.seed, c.size))) =
      some [(1, 0, 1), (0, 1, 1), (0, 2, 1)] ∧
    ((∀ pass, linePointSampler pass ≠ []) →
      ((0 : ℚ) ≤ 0 ∨ ∃ j : Nat, (0 : ℚ) < 1 ∧ (1 : ℚ) ≤ 1 * (6 / 5) ^ j) →
      ∃ (fuel : Nat) (app : List (Cluster ℚ)),
        AppendRandomSamples [(⟨1, 0, 1, (0, 0, 0), 10⟩ : Cluster ℚ)] linePointSampler
            fourPointLocator 2 none 0 0 1 fuel =
          some ([(⟨1, 0, 1, (0, 0, 0), 10⟩ : Cluster ℚ)] ++ app) ∧
        (app.length : Int) = max 2 0 ∧
        ∀ c ∈ app, c.label = 0 ∧ c.size = 1) :=
  ⟨by decide!,
    (AppendRandomSamples_appends [(⟨1, 0, 1, (0, 0, 0), 10⟩ : Cluster ℚ)] linePointSampler
      fourPointLocator 2 none 0 0 1).2.2⟩

/-- For a list whose clusters have pairwise distinct labels, `Relabel` gives the i-th cluster
the label i and sets to i the label of every point of the array whose old label is that
cluster's old label. -/
theorem Relabel_distinct_labels (n : Nat) (cs : List (Cluster α)) (labels : Nat → Int)
    (hd : cs.Pairwise (fun a b => a.label ≠ b.label)) :
    (Relabel n cs labels).1 = cs.enum.map (fun p => { p.2 with label := (p.1 : Int) + 1 }) ∧
    ∀ (i : Nat) (hi : i < cs.length) (ptId : Nat), ptId < n →
      labels ptId = (cs.get ⟨i, hi⟩).label → (Relabel n cs labels).2 ptId = (i : Int) + 1 := by
  refine ⟨Relabel_clusters n cs labels, ?_⟩
  intro i hi ptId hp hl
  apply Relabel_labels_last n cs labels ptId i hi hp hl
  intro j hj hij
  rw [hl]
  exact fun h => (List.pairwise_iff_get.mp hd ⟨i, hi⟩ ⟨j, hj⟩ hij) h.symm

/-- C7 (failing input): a mesh of four points has the labels 1, 0, 0, -1 and the list holds
the cluster with label 1; `AppendRandomSamples` with `n = 2` appends two random samples,
both with the old label 0, and `Relabel` gives the three clusters the labels 1, 2, 3. The
points 1 and 2, whose old label 0 is the old label of the second cluster, end with the
label 3 and not 2. -/
theorem Relabel_samples_share_label :
    (AppendRandomSamples [(⟨1, 0, 1, (0, 0, 0), 10⟩ : Cluster ℚ)] linePointSampler
        fourPointLocator 2 none 0 0 1 1).map
      (fun l =>
        (l.map (fun c => (c.label, c.seed)),
         (Relabel 4 l mixedLabels).1.map (fun c => c.label),
         (List.range 4).map mixedLabels,
         (List.range 4).map (Relabel 4 l mixedLabels).2)) =
      some ([(1, 0), (0, 1), (0, 2)], [1, 2, 3], [1, 0, 0, -1], [1, 3, 3, -1]) := by
  decide!

end RevisedClaims

/-! ## Binary32: where rounding decides -/

section Binary32Claims

/-- C30 (counterexample): in binary32, with the span 40 and `max_overlap = 1`, the overlap
ratio of the box centred at (0.2f, 0, 0) against the clusters centred at (0, 0, 0) and
(0.6f, 0, 0) is greater than 1, so `ReduceClusters` drops the third of the three clusters;
and with the span 1 it drops the single cluster centred at (2^24, 0, 0). -/
theorem ReduceClusters32_drops_at_one :
    (OverlapRatio32 [⟨1, 0, 1, (0, 0, 0), 0⟩, ⟨2, 1, 1, (round32 (3 / 5), 0, 0), 0⟩] 40
      (Bounds32 (round32 (1 / 5), 0, 0) 40)).gt 1 = true ∧
    (ReduceClusters32 [⟨1, 0, 1, (0, 0, 0), 0⟩, ⟨2, 1, 1, (round32 (3 / 5), 0, 0), 0⟩,
        ⟨3, 2, 1, (round32 (1 / 5), 0, 0), 0⟩] 40 1).map (fun c => c.label) = [1, 2] ∧
    (ReduceClusters32 [⟨1, 0, 1, (16777216, 0, 0), 0⟩] 1 1).map (fun c => c.label) = [] := by
  decide!

end Binary32Claims

end SelectRois
